import Mathlib

/-!
The token scanner and the quoting of jsoncc.

A shallow embedding of `src/token-stream.cc` (number automaton, string automaton,
`TokenStream::scan`) and of `quote` from `src/iostream.cc`, with theorems about them.

Conventions of the embedding:

* a character handed around as a C `int` is an `Int`;
* a `char` stored in a buffer or in a `std::string` is the byte value `c % 256`
  (`0 .. 255`) of the `int` it was converted from;
* a function that can throw returns an `Except ErrorKind _` next to the state it leaves
  behind, since the stream and the token outlive the exception;
* a loop whose termination is not structural takes a fuel argument and answers `none`
  when the fuel runs out.
-/

namespace Jsoncc

/-! ## Errors -/

/-- Error kinds raised through `JSONCC_THROW` in `token-stream.cc`. -/
inductive ErrorKind
  | NUMBER_INVALID
  | NUMBER_OVERFLOW
  | STRING_CTRL
  | ESCAPE_INVALID
  | UESCAPE_INVALID
  | UESCAPE_ZERO
  | UESCAPE_SURROGATE
  | TOKEN_INVALID
  | LITERAL_INVALID
  | STRING_QUOTE
  deriving DecidableEq, Repr

/-! ## Input stream -/

/-- Modelled from the spec: the health state of the input stream (`good`,
`end-of-input`, `bad`). The class `Utf8Stream` is declared in `utf8stream.h`, which is
not among the sources. -/
inductive State
  | SGOOD
  | SEOF
  | SBAD
  deriving DecidableEq, Repr

/-- Modelled from the spec: the `int` that stands for a stream state where the scanner uses
one as a character (`case Utf8Stream::SEOF:` in `select_scanner`). The spec only says that
the end marker is not a character; the values taken here are negative, so they differ
from every character. -/
def State.toInt : State → Int
  | .SGOOD => 0
  | .SEOF => -1
  | .SBAD => -2

/-- Modelled from the spec: the input stream of section 6, `next() -> code point or END`,
`pushback()` (undoes exactly the most recent `next()`, capacity of one),
`health() -> GOOD | BAD | END`, `markBad()`.

* `input` are the characters not yet delivered;
* `state` is the health state;
* `corrupt` tells what follows the last character of `input`: the end of the text
  (`false`) or a sequence the stream cannot decode (`true`);
* `back` is the pushback slot: what `ungetc` restores. -/
structure Utf8Stream where
  input : List Int
  state : State
  corrupt : Bool
  back : Option (List Int × State)
  deriving DecidableEq, Repr

namespace Utf8Stream

/-- A fresh stream over a text that ends cleanly. -/
def ofList (l : List Int) : Utf8Stream :=
  { input := l, state := .SGOOD, corrupt := false, back := none }

/-- Modelled from the spec: `next()`. A good stream delivers its next character; at the
end of the characters it turns `SEOF` (or `SBAD` when the text is corrupt there) and
answers that state; a stream that is not good answers its state and delivers nothing. -/
def getc (s : Utf8Stream) : Int × Utf8Stream :=
  match s.state with
  | .SGOOD =>
    match s.input with
    | c :: rest => (c, { s with input := rest, back := some (s.input, s.state) })
    | [] =>
      let st := if s.corrupt then State.SBAD else State.SEOF
      (st.toInt, { s with state := st, back := some (s.input, s.state) })
  | st => (st.toInt, { s with back := some (s.input, s.state) })

/-- Modelled from the spec: `pushback()`, undoing exactly the most recent `getc`. -/
def ungetc (s : Utf8Stream) : Utf8Stream :=
  match s.back with
  | some (i, st) => { s with input := i, state := st, back := none }
  | none => s

/-- Modelled from the spec: `markBad()`. -/
def bad (s : Utf8Stream) : Utf8Stream :=
  { s with state := .SBAD }

/-- The stream after `n` calls of `getc`. -/
def getcs : Nat → Utf8Stream → Utf8Stream
  | 0, s => s
  | n + 1, s => getcs n s.getc.2

end Utf8Stream

/-! ## Tokens -/

/-- Modelled from the spec: the kind marker of a token. `INVALID` is the marker of a
reset token; every other marker is `Token::Type(c)` for a character value `c`
(`token.h` is not among the sources). -/
inductive TokenType
  | INVALID
  | ofInt (c : Int)
  deriving DecidableEq, Repr

/-- Sub-kind of a number token, `Json::Token::NumberType`. -/
inductive NumberType
  | INT
  | FLOAT
  | NONE
  deriving DecidableEq, Repr

/-- Modelled from the spec: a token: kind marker, decoded string payload (bytes), numeric
sub-kind, signed 64-bit integer payload, floating-point payload. -/
structure Token where
  type : TokenType
  str_value : List Int
  number_type : NumberType
  int_value : Int
  float_value : ℚ
  deriving DecidableEq, Repr

/-- Modelled from the spec: `Token::reset()`, the empty/invalid token. -/
def Token.reset : Token :=
  { type := .INVALID, str_value := [], number_type := .NONE, int_value := 0, float_value := 0 }

/-! ## Characters -/

/-- Conversion of an `int` to the `char` stored in a buffer or a `std::string`, as a byte
value. -/
def toChar (c : Int) : Int := c % 256

/-- Whitespace test `is_ws`. -/
def is_ws (c : Int) : Bool :=
  c == 0x20 || c == 0x09 || c == 0x0d || c == 0x0a

/-- C library `strchr(s, c) != NULL` for a string literal `s` given by its characters:
`c` is converted to `char`, and the terminating NUL counts as part of the string. -/
def strchr (s : List Int) (c : Int) : Bool :=
  decide (toChar c = 0 ∨ toChar c ∈ s)

/-! ## Number automaton -/

/-- States of the number automaton, `enum NumberState`. -/
inductive NumberState
  | SSTART
  | SMINUS
  | SINT_ZERO
  | SINT_DIGIT
  | SINT_DIGIT19
  | SDEC_POINT
  | SFRAC_DIGIT
  | SE
  | SE_PLUS
  | SE_MINUS
  | SE_DIGIT
  | SDONE
  | SERROR
  deriving DecidableEq, Repr

/-- The characters of `#define DIGIT19 "123456789"`. -/
def DIGIT19 : List Int := [0x31, 0x32, 0x33, 0x34, 0x35, 0x36, 0x37, 0x38, 0x39]

/-- The characters of `#define DIGIT "0" DIGIT19`. -/
def DIGIT : List Int := 0x30 :: DIGIT19

/-- The table `transitions[][4]` of `number_state`: per state, pairs of a match string
(`none` for the null pointer) and a target state. A row with fewer than four initialisers
is completed by value-initialised entries (null pointer, `SSTART`). The table has no row
for `SDONE` and `SERROR`. -/
def transitions : NumberState → List (Option (List Int) × NumberState)
  | .SSTART => [(some [0x2d], .SMINUS), (some [0x30], .SINT_ZERO),
      (some DIGIT19, .SINT_DIGIT19), (none, .SERROR)]
  | .SMINUS => [(some [0x30], .SINT_ZERO), (some DIGIT19, .SINT_DIGIT19), (none, .SERROR),
      (none, .SSTART)]
  | .SINT_ZERO => [(some [0x65, 0x45], .SE), (some [0x2e], .SDEC_POINT), (none, .SDONE),
      (none, .SSTART)]
  | .SINT_DIGIT => [(some [0x65, 0x45], .SE), (some [0x2e], .SDEC_POINT),
      (some DIGIT, .SINT_DIGIT), (none, .SDONE)]
  | .SINT_DIGIT19 => [(some [0x65, 0x45], .SE), (some [0x2e], .SDEC_POINT),
      (some DIGIT, .SINT_DIGIT), (none, .SDONE)]
  | .SDEC_POINT => [(some [0x65, 0x45], .SE), (some DIGIT, .SFRAC_DIGIT), (none, .SERROR),
      (none, .SSTART)]
  | .SFRAC_DIGIT => [(some [0x65, 0x45], .SE), (some DIGIT, .SFRAC_DIGIT), (none, .SDONE),
      (none, .SSTART)]
  | .SE => [(some [0x2d], .SE_MINUS), (some [0x2b], .SE_PLUS), (some DIGIT, .SE_DIGIT),
      (none, .SERROR)]
  | .SE_PLUS => [(some DIGIT, .SE_DIGIT), (none, .SERROR), (none, .SSTART), (none, .SSTART)]
  | .SE_MINUS => [(some DIGIT, .SE_DIGIT), (none, .SERROR), (none, .SSTART), (none, .SSTART)]
  | .SE_DIGIT => [(some DIGIT, .SE_DIGIT), (none, .SDONE), (none, .SSTART), (none, .SSTART)]
  | .SDONE => []
  | .SERROR => []

/-- The loop `for (auto t(0); true; ++t)` of `number_state` over one row: the first entry
whose match string is null or contains `c`. Past the row the answer is the function's
final `return SERROR`. -/
def number_state_row : List (Option (List Int) × NumberState) → Int → NumberState
  | [], _ => .SERROR
  | (none, st) :: _, _ => st
  | (some m, st) :: row, c => if strchr m c then st else number_state_row row c

/-- Transition function `number_state(c, state)`. -/
def number_state (c : Int) (state : NumberState) : NumberState :=
  number_state_row (transitions state) c

/-- The loop of `validate_number`, with the buffer given by the characters written so far
(`i` is their number). A normal return carries the classification and the written cells,
the terminating NUL included; the stream is returned on every path. -/
def validate_loop (size : Nat) :
    Nat → Utf8Stream → NumberState → NumberType → List Int →
      Option (Except ErrorKind (NumberType × List Int) × Utf8Stream)
  | 0, _, _, _, _ => none
  | fuel + 1, stream, state, res, buf =>
    let (c, stream) := stream.getc
    let state := number_state c state
    match state with
    | .SSTART => validate_loop size fuel stream state res buf
    | .SDEC_POINT | .SE =>
      if (buf ++ [toChar c]).length = size then some (.error .NUMBER_OVERFLOW, stream)
      else validate_loop size fuel stream state .FLOAT (buf ++ [toChar c])
    | .SMINUS | .SINT_ZERO | .SINT_DIGIT | .SINT_DIGIT19 | .SFRAC_DIGIT | .SE_MINUS
    | .SE_PLUS | .SE_DIGIT =>
      if (buf ++ [toChar c]).length = size then some (.error .NUMBER_OVERFLOW, stream)
      else validate_loop size fuel stream state res (buf ++ [toChar c])
    | .SERROR => some (.error .NUMBER_INVALID, stream)
    | .SDONE => some (.ok (res, buf ++ [0]), stream.ungetc)

/-- The function `validate_number(stream, buf, size)`. Every iteration that goes on has
written one more cell, so `size + 1` iterations are enough fuel. -/
def validate_number (stream : Utf8Stream) (size : Nat) :
    Option (Except ErrorKind (NumberType × List Int) × Utf8Stream) :=
  validate_loop size (size + 1) stream .SSTART .INT []

/-! ## String automaton -/

/-- States of the string automaton, `enum StringState`. -/
inductive StringState
  | SREGULAR
  | SESCAPED
  | SUESCAPE
  | SDONES
  deriving DecidableEq, Repr

/-- The function `scan_regular(c, str)`: the next state and the payload, or the error
thrown (the payload is then untouched). -/
def scan_regular (c : Int) (str : List Int) : Except ErrorKind (StringState × List Int) :=
  if c = 0x22 then .ok (.SDONES, str)
  else if c = 0x5c then .ok (.SESCAPED, str)
  else if 0x0000 ≤ c ∧ c ≤ 0x001F then .error .STRING_CTRL
  else .ok (.SREGULAR, str ++ [toChar c])

/-- The function `scan_escaped(c, str)`. -/
def scan_escaped (c : Int) (str : List Int) : Except ErrorKind (StringState × List Int) :=
  if c = 0x5c ∨ c = 0x2f ∨ c = 0x22 then .ok (.SREGULAR, str ++ [toChar c])
  else if c = 0x62 then .ok (.SREGULAR, str ++ [toChar 0x0008])
  else if c = 0x66 then .ok (.SREGULAR, str ++ [toChar 0x000C])
  else if c = 0x6e then .ok (.SREGULAR, str ++ [toChar 0x000A])
  else if c = 0x72 then .ok (.SREGULAR, str ++ [toChar 0x000D])
  else if c = 0x74 then .ok (.SREGULAR, str ++ [toChar 0x0009])
  else if c = 0x75 then .ok (.SUESCAPE, str)
  else .error .ESCAPE_INVALID

/-- The members of `struct UEscape`: `count_` (a `size_t`) and `value_` (a `uint16_t`). -/
structure UEscape where
  count_ : Nat
  value_ : Nat
  deriving DecidableEq, Repr

namespace UEscape

/-- The constructor `UEscape()`. -/
def init : UEscape := { count_ := 0, value_ := 0 }

/-- The member function `UEscape::utf8encode(str)`. -/
def utf8encode (u : UEscape) (str : List Int) : Except ErrorKind (StringState × List Int) :=
  if u.value_ = 0x0000 then .error .UESCAPE_ZERO
  else if u.value_ ≤ 0x007f then .ok (.SREGULAR, str ++ [toChar u.value_])
  else if u.value_ ≤ 0x07ff then
    .ok (.SREGULAR, str ++ [toChar ↑(0xc0 ||| (u.value_ >>> 6)),
      toChar ↑(0x80 ||| (u.value_ &&& 0x3f))])
  else if 0xd800 ≤ u.value_ ∧ u.value_ ≤ 0xdfff then .error .UESCAPE_SURROGATE
  else
    .ok (.SREGULAR, str ++ [toChar ↑(0xe0 ||| (u.value_ >>> 12)),
      toChar ↑(0x80 ||| ((u.value_ >>> 6) &&& 0x3f)),
      toChar ↑(0x80 ||| (u.value_ &&& 0x3f))])

/-- The member function `UEscape::scan(c, str)`: next state, the object after the call and
the payload, or the error thrown. Arithmetic on `value_` is modulo `2^16`. -/
def scan (u : UEscape) (c : Int) (str : List Int) :
    Except ErrorKind (StringState × UEscape × List Int) :=
  let v := u.value_ * 0x10 % 65536
  let digit : Option Int :=
    if 0x30 ≤ c ∧ c ≤ 0x39 then some (c - 0x30)
    else if 0x61 ≤ c ∧ c ≤ 0x66 then some (0x0a + c - 0x61)
    else if 0x41 ≤ c ∧ c ≤ 0x46 then some (0x0a + c - 0x41)
    else none
  match digit with
  | none => .error .UESCAPE_INVALID
  | some d =>
    let u1 : UEscape := { count_ := u.count_ + 1, value_ := ((v + d) % 65536).toNat }
    if u1.count_ = 4 then
      match u1.utf8encode str with
      | .error e => .error e
      | .ok (res, str) => .ok (res, { count_ := 0, value_ := 0 }, str)
    else .ok (.SUESCAPE, u1, str)

end UEscape

/-! ## Numeric conversion -/

/-- Outcome of a C library conversion (`strtoll`, `strtold`): the value, the offset of
`endp` in the string, and `errno`. -/
structure Conv (α : Type) where
  value : α
  endp : Nat
  errno : Int
  deriving DecidableEq, Repr

/-- The C string held by a buffer: the characters before the first NUL. -/
def cstr (buf : List Int) : List Int := buf.takeWhile (fun c => c ≠ 0)

/-- C library `isspace` in the C locale. -/
def isspace (c : Int) : Bool := c == 0x20 || (0x09 ≤ c && c ≤ 0x0d)

/-- Decimal digit test. -/
def isdigit (c : Int) : Bool := 0x30 ≤ c && c ≤ 0x39

/-- Value of a sequence of decimal digits. -/
def decimal (ds : List Int) : Int := ds.foldl (fun acc d => acc * 10 + (d - 0x30)) 0

/-- C library `strtoll(str, &endp, 10)` on a C string given by its characters, `errno`
being 0 before the call: leading white space, an optional sign, decimal digits; without
digits nothing is converted and `endp` is `str`; a value outside the range of `long long`
is clamped and sets `errno` to `ERANGE` (34). -/
def strtoll (str : List Int) : Conv Int :=
  let ws := str.takeWhile isspace
  let r := str.dropWhile isspace
  let neg : Bool := r.head? = some 0x2d
  let signed : Bool := neg || r.head? = some 0x2b
  let r := if signed then r.tail else r
  let ds := r.takeWhile isdigit
  if ds = [] then { value := 0, endp := 0, errno := 0 }
  else
    let v : Int := if neg then - decimal ds else decimal ds
    let e := ws.length + (if signed then 1 else 0) + ds.length
    if v > 2 ^ 63 - 1 then { value := 2 ^ 63 - 1, endp := e, errno := 34 }
    else if v < - 2 ^ 63 then { value := - 2 ^ 63, endp := e, errno := 34 }
    else { value := v, endp := e, errno := 0 }

/-- The function `make_int(str)`: the `long long` read by `strtoll`, returned as a
`uint64_t`; throws when `*endp` is not the terminating NUL or `errno` is set. -/
def make_int (buf : List Int) : Except ErrorKind Int :=
  let r := strtoll (cstr buf)
  if r.endp ≠ (cstr buf).length ∨ r.errno ≠ 0 then .error .NUMBER_INVALID
  else .ok (r.value % 2 ^ 64)

/-- The function `make_float(str)`. The C library `strtold` (under the scoped "C" locale)
is a parameter: long double arithmetic is not modelled. -/
def make_float (strtold : List Int → Conv ℚ) (buf : List Int) : Except ErrorKind ℚ :=
  let r := strtold (cstr buf)
  if r.endp ≠ (cstr buf).length ∨ r.errno ≠ 0 then .error .NUMBER_INVALID
  else .ok r.value

/-- An arbitrary stand-in for the C library `strtold`, for statements that need a
concrete one: it converts nothing. -/
def strtold0 : List Int → Conv ℚ := fun _ => { value := 0, endp := 0, errno := 0 }

/-- Conversion of a `uint64_t` to the signed 64-bit `int_value` of a token. -/
def toInt64 (v : Int) : Int :=
  if v % 2 ^ 64 ≥ 2 ^ 63 then v % 2 ^ 64 - 2 ^ 64 else v % 2 ^ 64

/-! ## Token scanner -/

/-- The state of a `TokenStream`: the stream it reads and its current token. -/
structure TokenStream where
  stream_ : Utf8Stream
  token : Token
  deriving DecidableEq, Repr

/-- The member functions `select_scanner` can answer. -/
inductive Scanner
  | scan_structural
  | scan_true
  | scan_null
  | scan_false
  | scan_string
  | scan_number
  deriving DecidableEq, Repr

namespace TokenStream

/-- The constructor `TokenStream(stream)`; the token starts out reset. -/
def init (stream : Utf8Stream) : TokenStream :=
  { stream_ := stream, token := Token.reset }

/-- The member function `select_scanner(c)`. -/
def select_scanner (ts : TokenStream) (c : Int) : Except ErrorKind Scanner × TokenStream :=
  let setType (ts : TokenStream) (c : Int) : TokenStream :=
    { ts with token := { ts.token with type := .ofInt c } }
  if c = 0x5b ∨ c = 0x7b ∨ c = 0x5d ∨ c = 0x7d ∨ c = 0x3a ∨ c = 0x2c ∨ c = State.SEOF.toInt then
    (.ok .scan_structural, setType ts c)
  else if c = 0x74 then (.ok .scan_true, setType ts c)
  else if c = 0x6e then (.ok .scan_null, setType ts c)
  else if c = 0x66 then (.ok .scan_false, setType ts c)
  else if c = 0x22 then (.ok .scan_string, setType ts c)
  else if c = 0x2d ∨ (0x30 ≤ c ∧ c ≤ 0x39) then
    (.ok .scan_number, setType { ts with stream_ := ts.stream_.ungetc } 0x30)
  else (.error .TOKEN_INVALID, ts)

/-- The loop of `scan_literal` over the characters that remain to be matched. -/
def scan_literal_loop : List Int → TokenStream → Except ErrorKind Unit × TokenStream
  | [], ts => (.ok (), ts)
  | p :: ps, ts =>
    let (c, stream) := ts.stream_.getc
    let ts := { ts with stream_ := stream }
    if c ≠ p then (.error .LITERAL_INVALID, ts) else scan_literal_loop ps ts

/-- The member function `scan_literal(literal)`: the loop starts at `literal[1]`. -/
def scan_literal (literal : List Int) (ts : TokenStream) : Except ErrorKind Unit × TokenStream :=
  scan_literal_loop literal.tail ts

/-- The statement `switch (state)` in the loop of `scan_string`: the call of the function
for the current state, on the character `c` and the payload `token.str_value`. -/
def string_switch (state : StringState) (unicode : UEscape) (c : Int) (str : List Int) :
    Except ErrorKind (StringState × UEscape × List Int) :=
  match state with
  | .SREGULAR =>
    match scan_regular c str with
    | .error e => .error e
    | .ok (state, str) => .ok (state, unicode, str)
  | .SESCAPED =>
    match scan_escaped c str with
    | .error e => .error e
    | .ok (state, str) => .ok (state, unicode, str)
  | .SUESCAPE => unicode.scan c str
  | .SDONES => .ok (state, unicode, str)

/-- The loop of `scan_string`. -/
def scan_string_loop :
    Nat → StringState → UEscape → TokenStream → Option (Except ErrorKind Unit × TokenStream)
  | 0, _, _, _ => none
  | fuel + 1, state, unicode, ts =>
    if state = .SDONES then some (.ok (), ts)
    else
      let (c, stream) := ts.stream_.getc
      let ts := { ts with stream_ := stream }
      if stream.state ≠ .SGOOD then some (.error .STRING_QUOTE, ts)
      else
        match string_switch state unicode c ts.token.str_value with
        | .error e => some (.error e, ts)
        | .ok (state, unicode, str) =>
          scan_string_loop fuel state unicode
            { ts with token := { ts.token with str_value := str } }

/-- The member function `scan_string()`. Every iteration that goes on has taken a
character from the stream, so the number of characters left plus two is enough fuel. -/
def scan_string (ts : TokenStream) : Option (Except ErrorKind Unit × TokenStream) :=
  scan_string_loop (ts.stream_.input.length + 2) .SREGULAR UEscape.init ts

/-- The member function `scan_number()`, with its 1024 byte buffer. -/
def scan_number (strtold : List Int → Conv ℚ) (ts : TokenStream) :
    Option (Except ErrorKind Unit × TokenStream) :=
  match validate_number ts.stream_ 1024 with
  | none => none
  | some (.error e, stream) => some (.error e, { ts with stream_ := stream })
  | some (.ok (nt, buf), stream) =>
    let ts : TokenStream := { stream_ := stream, token := { ts.token with number_type := nt } }
    match nt with
    | .INT =>
      match make_int buf with
      | .error e => some (.error e, ts)
      | .ok v => some (.ok (), { ts with token := { ts.token with int_value := toInt64 v } })
    | .FLOAT =>
      match make_float strtold buf with
      | .error e => some (.error e, ts)
      | .ok v => some (.ok (), { ts with token := { ts.token with float_value := v } })
    | .NONE => some (.ok (), { ts with token := Token.reset })

/-- Call of the member function selected by `select_scanner`. -/
def run (strtold : List Int → Conv ℚ) (ts : TokenStream) :
    Scanner → Option (Except ErrorKind Unit × TokenStream)
  | .scan_structural => some (.ok (), ts)
  | .scan_true => some (scan_literal [0x74, 0x72, 0x75, 0x65] ts)
  | .scan_false => some (scan_literal [0x66, 0x61, 0x6c, 0x73, 0x65] ts)
  | .scan_null => some (scan_literal [0x6e, 0x75, 0x6c, 0x6c] ts)
  | .scan_string => scan_string ts
  | .scan_number => scan_number strtold ts

/-- The loop `do { c = stream_.getc(); } while (is_ws(c));` of `scan`. -/
def skip_ws : Nat → Utf8Stream → Option (Int × Utf8Stream)
  | 0, _ => none
  | fuel + 1, stream =>
    let (c, stream) := stream.getc
    if is_ws c then skip_ws fuel stream else some (c, stream)

/-- The member function `scan()`. The result tells whether the call returned or threw, and
gives the scanner state it leaves. The assignment `e.location = stream_.location()` in the
handler is left out: locations are not modelled. -/
def scan (strtold : List Int → Conv ℚ) (ts : TokenStream) :
    Option (Except ErrorKind Unit × TokenStream) :=
  if ts.stream_.state = .SBAD then some (.ok (), ts)
  else
    let ts := { ts with token := Token.reset }
    match skip_ws (ts.stream_.input.length + 1) ts.stream_ with
    | none => none
    | some (c, stream) =>
      let ts := { ts with stream_ := stream }
      if ts.stream_.state = .SBAD then some (.ok (), ts)
      else
        let body : Option (Except ErrorKind Unit × TokenStream) :=
          match ts.select_scanner c with
          | (.error e, ts) => some (.error e, ts)
          | (.ok scanner, ts) => run strtold ts scanner
        match body with
        | none => none
        | some (.ok (), ts) => some (.ok (), ts)
        | some (.error e, ts) =>
          some (.error e, { stream_ := ts.stream_.bad, token := Token.reset })

end TokenStream

/-! ## Writer: quoting -/

/-- The six characters an `ESCAPE(val, "u00ab")` case of `quote` writes: a backslash, `u`,
two zeros and the two digits `a` and `b`. -/
def u00 (a b : Int) : List Int := [0x5c, 0x75, 0x30, 0x30, a, b]

/-- The text `quote` writes for one character of its input (the body of its `switch`). -/
def quote_char (c : Int) : List Int :=
  match c with
  | 0x00 => u00 0x30 0x30 | 0x01 => u00 0x30 0x31
  | 0x02 => u00 0x30 0x32 | 0x03 => u00 0x30 0x33
  | 0x04 => u00 0x30 0x34 | 0x05 => u00 0x30 0x35
  | 0x06 => u00 0x30 0x36 | 0x07 => u00 0x30 0x37
  | 0x08 => [0x5c, 0x62] | 0x09 => [0x5c, 0x74]
  | 0x0a => [0x5c, 0x6e] | 0x0b => u00 0x30 0x62
  | 0x0c => [0x5c, 0x66] | 0x0d => [0x5c, 0x72]
  | 0x0e => u00 0x30 0x65 | 0x0f => u00 0x30 0x66
  | 0x10 => u00 0x31 0x30 | 0x11 => u00 0x31 0x31
  | 0x12 => u00 0x31 0x32 | 0x13 => u00 0x31 0x33
  | 0x14 => u00 0x31 0x34 | 0x15 => u00 0x31 0x35
  | 0x16 => u00 0x31 0x36 | 0x17 => u00 0x31 0x37
  | 0x18 => u00 0x31 0x38 | 0x19 => u00 0x31 0x39
  | 0x1a => u00 0x31 0x61 | 0x1b => u00 0x31 0x62
  | 0x1c => u00 0x31 0x63 | 0x1d => u00 0x31 0x64
  | 0x1e => u00 0x31 0x65 | 0x1f => u00 0x31 0x66
  | 0x22 => [0x5c, 0x22] | 0x5c => [0x5c, 0x5c]
  | c => [c]

/-- The function `quote(os, in)`: the text it writes to `os` for the string `in`. -/
def quote (s : List Int) : List Int :=
  [0x22] ++ (s.map quote_char).flatten ++ [0x22]

/-! ## Writer: values and output streams -/

/-- Modelled from the spec: a Number, with its three sub-variants and the invalid sentinel
(`jsoncc.h` is not among the sources). -/
inductive Number
  | TYPE_INVALID
  | TYPE_INT (int_value : Int)
  | TYPE_UINT (uint_value : Nat)
  | TYPE_FP (fp_value : ℚ)
  deriving DecidableEq, Repr

mutual
/-- Modelled from the spec: a Value, a tagged union over null, true, false, number, string,
object and array, with the invalid tag (`jsoncc.h` is not among the sources). -/
inductive Value
  | TAG_INVALID
  | TAG_TRUE
  | TAG_FALSE
  | TAG_NULL
  | TAG_NUMBER (number : Number)
  | TAG_STRING (string : List Int)
  | TAG_OBJECT (object : Members)
  | TAG_ARRAY (array : Elements)
/-- Modelled from the spec: the ordered members (key, value) of an Object. -/
inductive Members
  | nil
  | cons (key : List Int) (value : Value) (rest : Members)
/-- Modelled from the spec: the ordered elements of an Array. -/
inductive Elements
  | nil
  | cons (value : Value) (rest : Elements)
end

/-- The members of the class `indent`, a `std::streambuf`: the indentation string and the
line start flag. Its `dest_` is the next stream buffer of the stream it is installed on. -/
structure indent where
  indent_ : List Int
  line_start_ : Bool
  deriving DecidableEq, Repr

/-- The member function `indent::overflow(ch)`: the object after the call, and the
characters it has handed to `dest_`, in order. -/
def indent.overflow (b : indent) (ch : Int) : indent × List Int :=
  ({ b with line_start_ := (ch == 0x0a) },
    (if b.line_start_ && ch != 0x0a then b.indent_ else []) ++ [ch])

/-- A sequence of characters put into an `indent` stream buffer, one `overflow` each (it
has no put area). -/
def indent.sputn : indent → List Int → indent × List Int
  | b, [] => (b, [])
  | b, ch :: cs =>
    (((b.overflow ch).1.sputn cs).1, (b.overflow ch).2 ++ ((b.overflow ch).1.sputn cs).2)

/-- A sequence of characters put into a chain of `indent` stream buffers, each one the
`dest_` of the one before: the chain after the call and the characters that reach the
destination behind the chain. -/
def put : List indent → List Int → List indent × List Int
  | [], cs => ([], cs)
  | b :: dest, cs => ((b.sputn cs).1 :: (put dest (b.sputn cs).2).1, (put dest (b.sputn cs).2).2)

/-- An output stream: the `indent` stream buffers installed on it, innermost first, the
text its destination has received, and the word `os.iword(xalloc_id)`, a `long` given by
its 64 bits. -/
structure Ostream where
  bufs : List indent
  out : List Int
  iword : Nat
  deriving DecidableEq, Repr

namespace Ostream

/-- A fresh output stream: no filter, nothing written, the flag word 0. -/
def init : Ostream := { bufs := [], out := [], iword := 0 }

/-- Insertion of a string or a character, `os << text`. -/
def write (os : Ostream) (text : List Int) : Ostream :=
  { os with bufs := (put os.bufs text).1, out := os.out ++ (put os.bufs text).2 }

/-- The constructor `indent in(os)` with the default indentation `"\t"`: the new stream
buffer is installed in front of the one the stream had. -/
def push_indent (os : Ostream) : Ostream :=
  { os with bufs := { indent_ := [0x09], line_start_ := true } :: os.bufs }

/-- The destructor of `indent`: the stream gets back the stream buffer it had. -/
def pop_indent (os : Ostream) : Ostream :=
  { os with bufs := os.bufs.tail }

end Ostream

/-- The flag `IOS_NOINDENT`. -/
def IOS_NOINDENT : Nat := 1 <<< 0

/-- The manipulator `Json::indent`. -/
def Json.indent (os : Ostream) : Ostream :=
  { os with iword := os.iword &&& (0xFFFFFFFFFFFFFFFF ^^^ IOS_NOINDENT) }

/-- The manipulator `Json::noindent`. -/
def Json.noindent (os : Ostream) : Ostream :=
  { os with iword := os.iword ||| IOS_NOINDENT }

/-- The decimal digits of a number, most significant first; `fuel` bounds their number. -/
def decimal_digits : Nat → Nat → List Int → List Int
  | 0, _, acc => acc
  | fuel + 1, n, acc =>
    if n / 10 = 0 then ((0x30 + n % 10 : Nat) : Int) :: acc
    else decimal_digits fuel (n / 10) (((0x30 + n % 10 : Nat) : Int) :: acc)

/-- The text the C++ library writes for an unsigned integer, `os << number.uint_value()`,
with the default flags: its decimal digits. -/
def fmt_uint (v : Nat) : List Int := decimal_digits (v + 1) v []

/-- The text the C++ library writes for a signed integer, `os << number.int_value()`, with
the default flags: a minus sign when negative, and the decimal digits. -/
def fmt_int (v : Int) : List Int :=
  if v < 0 then 0x2d :: fmt_uint v.natAbs else fmt_uint v.natAbs

/-- The function `operator<<(os, Number)`. The text of a floating-point number in fixed
notation is a parameter; the failed `assert(false)` of an invalid number is `none`. -/
def write_number (fixed : ℚ → List Int) (os : Ostream) : Number → Option Ostream
  | .TYPE_INVALID => none
  | .TYPE_INT v => some (os.write (fmt_int v))
  | .TYPE_UINT v => some (os.write (fmt_uint v))
  | .TYPE_FP v => some (os.write (fixed v))

mutual
/-- The function `operator<<(os, Value)`, with the functions it dispatches to:
`operator<<` for the literals, Number, String, Array and Object, and `stream_container`
with `container_indent` and `container_noindent`. The failed `assert(false)` of an invalid
value is `none`. -/
def write_value (fixed : ℚ → List Int) : Ostream → Value → Option Ostream
  | _, .TAG_INVALID => none
  | os, .TAG_TRUE => some (os.write [0x74, 0x72, 0x75, 0x65])
  | os, .TAG_FALSE => some (os.write [0x66, 0x61, 0x6c, 0x73, 0x65])
  | os, .TAG_NULL => some (os.write [0x6e, 0x75, 0x6c, 0x6c])
  | os, .TAG_NUMBER n => write_number fixed os n
  | os, .TAG_STRING s => some (os.write (quote s))
  | os, .TAG_OBJECT .nil => some (os.write [0x7b, 0x7d])
  | os, .TAG_OBJECT (.cons k v ms) =>
    if os.iword &&& IOS_NOINDENT ≠ 0 then
      match write_members fixed (os.write [0x7b]) [] [0x2c, 0x20] (.cons k v ms) with
      | none => none
      | some os => some (os.write [0x7d])
    else
      match write_members fixed ((os.write [0x7b]).write [0x0a]).push_indent [] [0x2c, 0x0a]
          (.cons k v ms) with
      | none => none
      | some os => some ((os.pop_indent.write [0x0a]).write [0x7d])
  | os, .TAG_ARRAY .nil => some (os.write [0x5b, 0x5d])
  | os, .TAG_ARRAY (.cons v es) =>
    if os.iword &&& IOS_NOINDENT ≠ 0 then
      match write_elements fixed (os.write [0x5b]) [] [0x2c, 0x20] (.cons v es) with
      | none => none
      | some os => some (os.write [0x5d])
    else
      match write_elements fixed ((os.write [0x5b]).write [0x0a]).push_indent [] [0x2c, 0x0a]
          (.cons v es) with
      | none => none
      | some os => some ((os.pop_indent.write [0x0a]).write [0x5d])
/-- The loop `for (auto item: c) { os << sep << item; sep = next; }` of `container_indent`
and `container_noindent` over the members of an object; an item is written by
`operator<<(os, Member)`: the key as a String, `": "` and the value. -/
def write_members (fixed : ℚ → List Int) :
    Ostream → List Int → List Int → Members → Option Ostream
  | os, _, _, .nil => some os
  | os, sep, next, .cons k v ms =>
    match write_value fixed ((((os.write sep).write (quote k))).write [0x3a, 0x20]) v with
    | none => none
    | some os => write_members fixed os next next ms
/-- The loop `for (auto item: c) { os << sep << item; sep = next; }` of `container_indent`
and `container_noindent` over the elements of an array. -/
def write_elements (fixed : ℚ → List Int) :
    Ostream → List Int → List Int → Elements → Option Ostream
  | os, _, _, .nil => some os
  | os, sep, next, .cons v es =>
    match write_value fixed (os.write sep) v with
    | none => none
    | some os => write_elements fixed os next next es
end

/-! ## Repeated scanning -/

/-- A caller that calls `scan()` `n` times in a row, whatever each call answers: the
outcome of each call with the token it left, and the final scanner state. -/
def TokenStream.scan_many (strtold : List Int → Conv ℚ) :
    Nat → TokenStream → Option (List (Except ErrorKind Unit × Token) × TokenStream)
  | 0, ts => some ([], ts)
  | n + 1, ts =>
    match TokenStream.scan strtold ts with
    | none => none
    | some (r, ts1) =>
      match TokenStream.scan_many strtold n ts1 with
      | none => none
      | some (l, ts2) => some ((r, ts1.token) :: l, ts2)

/-! ## Runs of the automata over a list of characters -/

/-- The string automaton run over the characters `body`, one `switch (state)` per
character, as long as nothing is thrown: the state, the `UEscape` object and the payload
after the last character. -/
def string_run : StringState → UEscape → List Int → List Int →
    Except ErrorKind (StringState × UEscape × List Int)
  | state, unicode, str, [] => .ok (state, unicode, str)
  | state, unicode, str, c :: body =>
    match TokenStream.string_switch state unicode c str with
    | .error e => .error e
    | .ok (state, unicode, str) => string_run state unicode str body

/-- The states in which `validate_number` appends the character and goes on (the cases of
its `switch` that end in `buf[i] = c`). -/
def NumberState.appends : NumberState → Bool
  | .SSTART | .SDONE | .SERROR => false
  | _ => true

/-- The classification `res` of `validate_number` after it entered a state. -/
def classify (res : NumberType) : NumberState → NumberType
  | .SDEC_POINT | .SE => .FLOAT
  | _ => res

/-- The number automaton run over the characters `w`, as long as every state entered is
one in which `validate_number` appends: the state and the classification after the last
character. -/
def number_run : NumberState → NumberType → List Int → Option (NumberState × NumberType)
  | state, res, [] => some (state, res)
  | state, res, c :: w =>
    if (number_state c state).appends then
      number_run (number_state c state) (classify res (number_state c state)) w
    else none

/-- The states in which the number automaton completes on a character it has no entry
for. -/
def NumberState.completes : NumberState → Bool
  | .SINT_ZERO | .SINT_DIGIT | .SINT_DIGIT19 | .SFRAC_DIGIT | .SE_DIGIT => true
  | _ => false

/-- The characters after a backslash that `scan_escaped` accepts. -/
def IsEscapeChar (c : Int) : Prop :=
  c = 0x5c ∨ c = 0x2f ∨ c = 0x22 ∨ c = 0x62 ∨ c = 0x66 ∨ c = 0x6e ∨ c = 0x72 ∨ c = 0x74 ∨
    c = 0x75

instance (c : Int) : Decidable (IsEscapeChar c) := by unfold IsEscapeChar; infer_instance

/-! ## Specification side: the JSON number grammar -/

/-- A decimal digit `0` to `9`. -/
def IsDigit (c : Int) : Prop := 0x30 ≤ c ∧ c ≤ 0x39

instance (c : Int) : Decidable (IsDigit c) := by unfold IsDigit; infer_instance

/-- A decimal digit `1` to `9`. -/
def IsDigit19 (c : Int) : Prop := 0x31 ≤ c ∧ c ≤ 0x39

instance (c : Int) : Decidable (IsDigit19 c) := by unfold IsDigit19; infer_instance

/-- The part `-?` of the number grammar. -/
def IsSign (w : List Int) : Prop := w = [] ∨ w = [0x2d]

/-- The part `(0|[1-9][0-9]*)` of the number grammar. -/
def IsIntPart (w : List Int) : Prop :=
  w = [0x30] ∨ ∃ d ds, w = d :: ds ∧ IsDigit19 d ∧ ∀ x ∈ ds, IsDigit x

/-- The part `(\.[0-9]+)?` of the number grammar. -/
def IsFracPart (w : List Int) : Prop :=
  w = [] ∨ ∃ d ds, w = 0x2e :: d :: ds ∧ IsDigit d ∧ ∀ x ∈ ds, IsDigit x

/-- The part `([eE][+-]?[0-9]+)?` of the number grammar. -/
def IsExpPart (w : List Int) : Prop :=
  w = [] ∨ ∃ e sg d ds, w = e :: (sg ++ d :: ds) ∧ (e = 0x65 ∨ e = 0x45) ∧
    (sg = [] ∨ sg = [0x2b] ∨ sg = [0x2d]) ∧ IsDigit d ∧ ∀ x ∈ ds, IsDigit x

/-- The JSON number grammar `-?(0|[1-9][0-9]*)(\.[0-9]+)?([eE][+-]?[0-9]+)?` of the spec,
on character values. -/
def JsonNumber (w : List Int) : Prop :=
  ∃ sign int frac exp, w = sign ++ int ++ frac ++ exp ∧
    IsSign sign ∧ IsIntPart int ∧ IsFracPart frac ∧ IsExpPart exp

/-- The decimal value of a string of digits, by position: the first digit counts
`10 ^ (number of digits after it)`. -/
def decimalValue : List Int → Int
  | [] => 0
  | d :: ds => (d - 0x30) * 10 ^ ds.length + decimalValue ds

/-- The value of an integer literal given by its sign part and its digits. -/
def integerValue (sign int : List Int) : Int :=
  if sign = [0x2d] then - decimalValue int else decimalValue int

/-- A JSON delimiter: space, tab, CR, LF, `,`, `]` or `}`. -/
def IsDelimiter (c : Int) : Prop :=
  c = 0x20 ∨ c = 0x09 ∨ c = 0x0d ∨ c = 0x0a ∨ c = 0x2c ∨ c = 0x5d ∨ c = 0x7d

instance (c : Int) : Decidable (IsDelimiter c) := by unfold IsDelimiter; infer_instance

/-! ## Specification side: UTF-8 -/

/-- A hexadecimal digit, upper or lower case. -/
def IsHex (c : Int) : Prop :=
  (0x30 ≤ c ∧ c ≤ 0x39) ∨ (0x61 ≤ c ∧ c ≤ 0x66) ∨ (0x41 ≤ c ∧ c ≤ 0x46)

instance (c : Int) : Decidable (IsHex c) := by unfold IsHex; infer_instance

/-- The value of a hexadecimal digit. -/
def hexValue (c : Int) : Nat :=
  if 0x30 ≤ c ∧ c ≤ 0x39 then (c - 0x30).toNat
  else if 0x61 ≤ c ∧ c ≤ 0x66 then (c - 0x61).toNat + 10
  else (c - 0x41).toNat + 10

/-- The value of four hexadecimal digits, most significant first. -/
def hex4 (c1 c2 c3 c4 : Int) : Nat :=
  ((hexValue c1 * 16 + hexValue c2) * 16 + hexValue c3) * 16 + hexValue c4

/-- The standard UTF-8 encoding of a code point below `0x10000`, by the table of the
standard: one byte `0xxxxxxx` up to `0x7F`, two bytes `110xxxxx 10xxxxxx` up to `0x7FF`,
three bytes `1110xxxx 10xxxxxx 10xxxxxx` above. -/
def utf8 (v : Nat) : List Int :=
  if v ≤ 0x7F then [(v : Int)]
  else if v ≤ 0x7FF then [((0xC0 + v / 64 : Nat) : Int), ((0x80 + v % 64 : Nat) : Int)]
  else [((0xE0 + v / 4096 : Nat) : Int), ((0x80 + v / 64 % 64 : Nat) : Int),
    ((0x80 + v % 64 : Nat) : Int)]

/-- A continuation byte `10xxxxxx`. -/
def IsCont (b : Int) : Prop := 0x80 ≤ b ∧ b ≤ 0xBF

instance (b : Int) : Decidable (IsCont b) := by unfold IsCont; infer_instance

/-- A standard UTF-8 decoder for one code point of up to three bytes: it refuses overlong
forms and surrogates. -/
def utf8decode (bs : List Int) : Option Nat :=
  match bs with
  | [b0] => if 0 ≤ b0 ∧ b0 ≤ 0x7F then some b0.toNat else none
  | [b0, b1] =>
    if 0xC2 ≤ b0 ∧ b0 ≤ 0xDF ∧ IsCont b1 then some ((b0 - 0xC0).toNat * 64 + (b1 - 0x80).toNat)
    else none
  | [b0, b1, b2] =>
    if 0xE0 ≤ b0 ∧ b0 ≤ 0xEF ∧ IsCont b1 ∧ IsCont b2 then
      let v := ((b0 - 0xE0).toNat * 64 + (b1 - 0x80).toNat) * 64 + (b2 - 0x80).toNat
      if v < 0x800 ∨ (0xD800 ≤ v ∧ v ≤ 0xDFFF) then none else some v
    else none
  | _ => none

/-! ## Specification side: reference printers -/

/-- A run of `d` tab characters. -/
def tabs (d : Nat) : List Int := List.replicate d 0x09

/-- A number that is a signed or unsigned integer. -/
def Number.integral : Number → Bool
  | .TYPE_INT _ => true
  | .TYPE_UINT _ => true
  | _ => false

mutual
/-- A value tree without invalid values whose numbers are all integers. -/
def Value.integral : Value → Bool
  | .TAG_INVALID => false
  | .TAG_TRUE => true
  | .TAG_FALSE => true
  | .TAG_NULL => true
  | .TAG_NUMBER n => n.integral
  | .TAG_STRING _ => true
  | .TAG_OBJECT ms => ms.integral
  | .TAG_ARRAY es => es.integral
/-- Members whose values are all integral. -/
def Members.integral : Members → Bool
  | .nil => true
  | .cons _ v ms => v.integral && ms.integral
/-- Elements that are all integral. -/
def Elements.integral : Elements → Bool
  | .nil => true
  | .cons v es => v.integral && es.integral
end

/-- The text of a number in the reference printers. -/
def ref_number : Number → List Int
  | .TYPE_INT v => fmt_int v
  | .TYPE_UINT v => fmt_uint v
  | _ => []

mutual
/-- The reference printer of the indented layout, at nesting depth `d`: an empty container
is the bare pair of delimiters; a container with items is its opening delimiter, a
newline, its items at depth `d + 1`, a newline, `d` tabs and its closing delimiter. -/
def ref_value (d : Nat) : Value → List Int
  | .TAG_INVALID => []
  | .TAG_TRUE => [0x74, 0x72, 0x75, 0x65]
  | .TAG_FALSE => [0x66, 0x61, 0x6c, 0x73, 0x65]
  | .TAG_NULL => [0x6e, 0x75, 0x6c, 0x6c]
  | .TAG_NUMBER n => ref_number n
  | .TAG_STRING s => quote s
  | .TAG_OBJECT .nil => [0x7b, 0x7d]
  | .TAG_OBJECT (.cons k v ms) =>
    [0x7b, 0x0a] ++ ref_members (d + 1) [] (.cons k v ms) ++ [0x0a] ++ tabs d ++ [0x7d]
  | .TAG_ARRAY .nil => [0x5b, 0x5d]
  | .TAG_ARRAY (.cons v es) =>
    [0x5b, 0x0a] ++ ref_elements (d + 1) [] (.cons v es) ++ [0x0a] ++ tabs d ++ [0x5d]
/-- The members of an object in the indented layout, each on a line of its own that
starts with `d` tabs: `sep` stands before the first line, `,` and a newline before each
further one. -/
def ref_members (d : Nat) : List Int → Members → List Int
  | _, .nil => []
  | sep, .cons k v ms =>
    sep ++ tabs d ++ quote k ++ [0x3a, 0x20] ++ ref_value d v ++ ref_members d [0x2c, 0x0a] ms
/-- The elements of an array in the indented layout, each on a line of its own that
starts with `d` tabs: `sep` stands before the first line, `,` and a newline before each
further one. -/
def ref_elements (d : Nat) : List Int → Elements → List Int
  | _, .nil => []
  | sep, .cons v es => sep ++ tabs d ++ ref_value d v ++ ref_elements d [0x2c, 0x0a] es
end

mutual
/-- The reference printer of the compact layout: a container with items is its opening
delimiter, its items separated by `, `, and its closing delimiter. -/
def compact_value : Value → List Int
  | .TAG_INVALID => []
  | .TAG_TRUE => [0x74, 0x72, 0x75, 0x65]
  | .TAG_FALSE => [0x66, 0x61, 0x6c, 0x73, 0x65]
  | .TAG_NULL => [0x6e, 0x75, 0x6c, 0x6c]
  | .TAG_NUMBER n => ref_number n
  | .TAG_STRING s => quote s
  | .TAG_OBJECT .nil => [0x7b, 0x7d]
  | .TAG_OBJECT (.cons k v ms) => [0x7b] ++ compact_members [] (.cons k v ms) ++ [0x7d]
  | .TAG_ARRAY .nil => [0x5b, 0x5d]
  | .TAG_ARRAY (.cons v es) => [0x5b] ++ compact_elements [] (.cons v es) ++ [0x5d]
/-- The members of an object in the compact layout: `sep` stands before the first one,
`, ` before each further one. -/
def compact_members : List Int → Members → List Int
  | _, .nil => []
  | sep, .cons k v ms =>
    sep ++ quote k ++ [0x3a, 0x20] ++ compact_value v ++ compact_members [0x2c, 0x20] ms
/-- The elements of an array in the compact layout: `sep` stands before the first one,
`, ` before each further one. -/
def compact_elements : List Int → Elements → List Int
  | _, .nil => []
  | sep, .cons v es => sep ++ compact_value v ++ compact_elements [0x2c, 0x20] es
end

/-- The elements of an array as a list. -/
def Elements.toList : Elements → List Value
  | .nil => []
  | .cons v es => v :: es.toList

/-- The members of an object as a list of pairs of a key and a value. -/
def Members.toList : Members → List (List Int × Value)
  | .nil => []
  | .cons k v ms => (k, v) :: ms.toList

/-- The chain of `d` `indent` stream buffers with the default indentation that all have
the same line start flag. -/
def chain (d : Nat) (ls : Bool) : List indent :=
  List.replicate d { indent_ := [0x09], line_start_ := ls }

/-! ## Theorems -/

open TokenStream

/-! ### Helper lemmas: the number grammar -/

theorem intPart_chars {w : List Int} (h : IsIntPart w) : ∀ c ∈ w, 0x30 ≤ c ∧ c ≤ 0x39 := by
  rcases h with rfl | ⟨d, ds, rfl, hd, hds⟩
  · intro c hc
    simp at hc
    omega
  · intro c hc
    rcases List.mem_cons.1 hc with rfl | hc
    · exact ⟨by have := hd.1; omega, hd.2⟩
    · exact hds c hc

theorem fracPart_chars {w : List Int} (h : IsFracPart w) : ∀ c ∈ w, 0x2e ≤ c ∧ c ≤ 0x39 := by
  rcases h with rfl | ⟨d, ds, rfl, hd, hds⟩
  · intro c hc
    simp at hc
  · intro c hc
    rcases List.mem_cons.1 hc with rfl | hc
    · omega
    · rcases List.mem_cons.1 hc with rfl | hc
      · exact ⟨by have := hd.1; omega, hd.2⟩
      · exact ⟨by have := (hds c hc).1; omega, (hds c hc).2⟩

theorem expPart_chars {w : List Int} (h : IsExpPart w) : ∀ c ∈ w, 0x2b ≤ c ∧ c ≤ 0x65 := by
  rcases h with rfl | ⟨e, sg, d, ds, rfl, he, hsg, hd, hds⟩
  · intro c hc
    simp at hc
  · intro c hc
    rcases List.mem_cons.1 hc with rfl | hc
    · omega
    · rcases List.mem_append.1 hc with hc | hc
      · rcases hsg with rfl | rfl | rfl <;> simp at hc <;> omega
      · rcases List.mem_cons.1 hc with rfl | hc
        · exact ⟨by have := hd.1; omega, by have := hd.2; omega⟩
        · exact ⟨by have := (hds c hc).1; omega, by have := (hds c hc).2; omega⟩

/-- Every character of a JSON number lies between `+` and `e`. -/
theorem jsonNumber_chars {w : List Int} (h : JsonNumber w) : ∀ c ∈ w, 0x2b ≤ c ∧ c ≤ 0x65 := by
  obtain ⟨sign, int, frac, exp, rfl, hs, hi, hf, he⟩ := h
  intro c hc
  simp only [List.mem_append] at hc
  rcases hc with ((hc | hc) | hc) | hc
  · rcases hs with rfl | rfl <;> simp at hc
    omega
  · have := intPart_chars hi c hc
    omega
  · have := fracPart_chars hf c hc
    omega
  · exact expPart_chars he c hc

/-! ### C1 -/

/-- The characters `1.e5` are not a JSON number: the point is not followed by a digit. -/
theorem not_jsonNumber_point_e : ¬ JsonNumber [0x31, 0x2e, 0x65, 0x35] := by
  rintro ⟨sign, int, frac, exp, h, hs, hi, hf, he⟩
  rcases hs with rfl | rfl
  · rcases hi with rfl | ⟨d, ds, rfl, hd, hds⟩
    · simp at h
    · simp only [List.nil_append, List.cons_append, List.cons.injEq] at h
      obtain ⟨-, h⟩ := h
      cases ds with
      | cons d' ds' =>
        simp only [List.cons_append, List.cons.injEq] at h
        have := hds d' (List.mem_cons_self d' ds')
        unfold IsDigit at this
        omega
      | nil =>
        simp only [List.nil_append] at h
        rcases hf with rfl | ⟨d', ds', rfl, hd', -⟩
        · rcases he with rfl | ⟨e, sg, d', ds', rfl, he', -, -, -⟩
          · simp at h
          · simp only [List.nil_append, List.cons.injEq] at h
            omega
        · simp only [List.cons_append, List.cons.injEq] at h
          unfold IsDigit at hd'
          omega
  · simp at h

/-- C1, at two failing inputs. On the characters `1.e5` followed by the end of input,
`validate_number` returns normally as FLOAT with `1.e5` in the buffer, although a point
that no digit follows is not in the number grammar: the table row of `SDEC_POINT` has the
entry `{"eE", SE}`. On the characters `1`, NUL, `5` it returns normally as FLOAT having copied
`1`, NUL, `5` (and the terminator) into the buffer, which are not a JSON number either:
`strchr` finds the NUL in the terminator of `"eE"`. With a `strtold` that reads the C string
`1` left in the buffer as the value 1, `scan()` returns one FLOAT number token for these
three characters. -/
theorem validate_number_accepts_nul :
    validate_number (Utf8Stream.ofList [0x31, 0, 0x35]) 1024 =
        some (.ok (.FLOAT, [0x31, 0, 0x35, 0]), Utf8Stream.ofList []) ∧
      ¬ JsonNumber [0x31, 0, 0x35] ∧
      number_state 0 .SINT_DIGIT19 = .SE ∧
      scan (fun _ => { value := 1, endp := 1, errno := 0 })
          (init (Utf8Stream.ofList [0x31, 0, 0x35])) =
        some (.ok (), { stream_ := Utf8Stream.ofList [],
                        token := { type := .ofInt 0x30, str_value := [], number_type := .FLOAT,
                                   int_value := 0, float_value := 1 } }) ∧
      validate_number (Utf8Stream.ofList [0x31, 0x2e, 0x65, 0x35]) 1024 =
        some (.ok (.FLOAT, [0x31, 0x2e, 0x65, 0x35, 0]), Utf8Stream.ofList []) ∧
      ¬ JsonNumber [0x31, 0x2e, 0x65, 0x35] ∧
      number_state 0x65 .SDEC_POINT = .SE := by
  refine ⟨rfl, fun h => ?_, rfl, rfl, rfl, not_jsonNumber_point_e, rfl⟩
  have := jsonNumber_chars h 0 (by simp)
  omega

/-! ### C3 -/

/-- C3, as stated, fails: the first `scan()` on `01` does not throw; it returns with a
number token (INT, value 0) and leaves `1` in the stream. -/
theorem scan_01_no_error :
    scan strtold0 (init (Utf8Stream.ofList [0x30, 0x31])) =
      some (.ok (), { stream_ := Utf8Stream.ofList [0x31],
                      token := { type := .ofInt 0x30, str_value := [], number_type := .INT,
                                 int_value := 0, float_value := 0 } }) := by
  rfl

/-! ### C9 -/

/-- C9, as stated, fails: with the stream bad and a `[` token current, `scan()` returns
without touching the token, which is not the reset token afterwards. -/
theorem scan_bad_keeps_token :
    scan strtold0 { stream_ := (Utf8Stream.ofList [0x5d]).bad,
                    token := { Token.reset with type := .ofInt 0x5b } } =
        some (.ok (), { stream_ := (Utf8Stream.ofList [0x5d]).bad,
                        token := { Token.reset with type := .ofInt 0x5b } }) ∧
      ({ Token.reset with type := .ofInt 0x5b } : Token) ≠ Token.reset := by
  refine ⟨rfl, ?_⟩
  simp [Token.reset]

/-- C9, amended: when the stream is already bad, `scan()` returns without error and leaves
the whole scanner state as it was: no input is consumed and the token is unchanged (so it
is the reset token afterwards if it was before). -/
theorem scan_bad_noop (strtold : List Int → Conv ℚ) (ts : TokenStream)
    (h : ts.stream_.state = .SBAD) : scan strtold ts = some (.ok (), ts) := by
  simp [scan, h]

/-- C9, amended, at a concrete scanner state. -/
theorem scan_bad_noop_witness :
    ((Utf8Stream.ofList [0x5d]).bad).state = .SBAD ∧
      scan strtold0 { stream_ := (Utf8Stream.ofList [0x5d]).bad, token := Token.reset } =
        some (.ok (), { stream_ := (Utf8Stream.ofList [0x5d]).bad, token := Token.reset }) :=
  ⟨rfl, scan_bad_noop strtold0 _ rfl⟩

/-! ### Helper lemmas: the stream and the string loop -/

theorem getc_good_cons (c : Int) (rest : List Int) (cr : Bool) (b : Option (List Int × State)) :
    Utf8Stream.getc ⟨c :: rest, .SGOOD, cr, b⟩ =
      (c, ⟨rest, .SGOOD, cr, some (c :: rest, .SGOOD)⟩) := rfl

theorem getc_of_good_cons (s : Utf8Stream) (c : Int) (rest : List Int)
    (hg : s.state = .SGOOD) (hin : s.input = c :: rest) :
    s.getc = (c, ⟨rest, .SGOOD, s.corrupt, some (c :: rest, .SGOOD)⟩) := by
  obtain ⟨i, st, cr, b⟩ := s
  simp only at hg hin
  subst hg hin
  rfl

theorem getc_not_good (s : Utf8Stream) (h : s.input = [] ∨ s.state ≠ .SGOOD) :
    s.getc.2.state ≠ .SGOOD := by
  obtain ⟨i, st, cr, b⟩ := s
  cases st
  · rcases h with h | h
    · simp only at h
      subst h
      cases cr <;> simp [Utf8Stream.getc]
    · simp at h
  · simp [Utf8Stream.getc]
  · simp [Utf8Stream.getc]

theorem getcs_good_append (body rest : List Int) (cr : Bool) (b : Option (List Int × State)) :
    ∃ b', Utf8Stream.getcs body.length ⟨body ++ rest, .SGOOD, cr, b⟩ = ⟨rest, .SGOOD, cr, b'⟩ := by
  induction body generalizing b with
  | nil => exact ⟨b, rfl⟩
  | cons c body ih =>
    obtain ⟨b', hb'⟩ := ih (some (c :: (body ++ rest), .SGOOD))
    exact ⟨b', by simpa [Utf8Stream.getcs, Utf8Stream.getc] using hb'⟩

theorem string_switch_done (u : UEscape) (c : Int) (str : List Int) :
    string_switch .SDONES u c str = .ok (.SDONES, u, str) := rfl

theorem string_run_done (u : UEscape) (str body : List Int) :
    string_run .SDONES u str body = .ok (.SDONES, u, str) := by
  induction body with
  | nil => rfl
  | cons c body ih => simpa [string_run, string_switch_done] using ih

/-- One iteration of the loop of `scan_string` on a good stream that has a character. -/
theorem scan_string_loop_step (fuel : Nat) (st : StringState) (u : UEscape) (ts : TokenStream)
    (c : Int) (rest : List Int) (hst : st ≠ .SDONES) (hg : ts.stream_.state = .SGOOD)
    (hin : ts.stream_.input = c :: rest) :
    scan_string_loop (fuel + 1) st u ts =
      match string_switch st u c ts.token.str_value with
      | .error e => some (.error e, { ts with stream_ := ts.stream_.getc.2 })
      | .ok (st', u', str) =>
        scan_string_loop fuel st' u'
          { stream_ := ts.stream_.getc.2, token := { ts.token with str_value := str } } := by
  obtain ⟨s, tok⟩ := ts
  simp only at hg hin
  rw [scan_string_loop, if_neg hst]
  simp only [getc_of_good_cons s c rest hg hin]
  simp

/-- The loop of `scan_string` stops with `STRING_QUOTE` when the stream has nothing to
deliver. -/
theorem scan_string_loop_end (fuel : Nat) (st : StringState) (u : UEscape) (ts : TokenStream)
    (hst : st ≠ .SDONES) (h : ts.stream_.input = [] ∨ ts.stream_.state ≠ .SGOOD) :
    scan_string_loop (fuel + 1) st u ts =
      some (.error .STRING_QUOTE, { ts with stream_ := ts.stream_.getc.2 }) := by
  have hn := getc_not_good ts.stream_ h
  rw [scan_string_loop, if_neg hst]
  simp only [ne_eq, ite_not]
  rw [if_neg hn]

/-- The loop of `scan_string` follows `string_run` over the characters the stream holds. -/
theorem scan_string_loop_run (body : List Int) :
    ∀ (fuel : Nat) (st : StringState) (u : UEscape) (ts : TokenStream) (rest : List Int)
      (st' : StringState) (u' : UEscape) (str' : List Int),
      ts.stream_.state = .SGOOD → ts.stream_.input = body ++ rest →
      string_run st u ts.token.str_value body = .ok (st', u', str') → st' ≠ .SDONES →
      scan_string_loop (fuel + body.length) st u ts =
        scan_string_loop fuel st' u'
          { stream_ := ts.stream_.getcs body.length,
            token := { ts.token with str_value := str' } } := by
  induction body with
  | nil =>
    intro fuel st u ts rest st' u' str' _ _ hrun _
    simp only [string_run, Except.ok.injEq, Prod.mk.injEq] at hrun
    obtain ⟨rfl, rfl, rfl⟩ := hrun
    rfl
  | cons c body ih =>
    intro fuel st u ts rest st' u' str' hg hin hrun hst'
    have hst : st ≠ .SDONES := by
      rintro rfl
      rw [string_run_done] at hrun
      simp only [Except.ok.injEq, Prod.mk.injEq] at hrun
      exact hst' hrun.1.symm
    rw [List.length_cons, ← Nat.add_assoc,
      scan_string_loop_step (fuel + body.length) st u ts c (body ++ rest) hst hg (by simpa using hin)]
    simp only [string_run] at hrun
    cases hsw : string_switch st u c ts.token.str_value with
    | error e => simp [hsw] at hrun
    | ok r =>
      obtain ⟨st1, u1, str1⟩ := r
      simp only [hsw] at hrun
      simp only
      have hget := getc_of_good_cons ts.stream_ c (body ++ rest) hg (by simpa using hin)
      rw [ih fuel st1 u1 _ rest st' u' str' (by simp [hget]) (by simp [hget]) hrun hst']
      rfl

/-- A `scan()` whose first character is a quote runs the loop of `scan_string`, and turns
an error of the loop into a bad stream and a reset token. -/
theorem scan_quote (strtold : List Int → Conv ℚ) (body : List Int) (cr : Bool)
    (b : Option (List Int × State)) (tok : Token) :
    scan strtold { stream_ := ⟨0x22 :: body, .SGOOD, cr, b⟩, token := tok } =
      match scan_string_loop (body.length + 2) .SREGULAR UEscape.init
          { stream_ := ⟨body, .SGOOD, cr, some (0x22 :: body, .SGOOD)⟩,
            token := { Token.reset with type := .ofInt 0x22 } } with
      | none => none
      | some (.ok (), ts) => some (.ok (), ts)
      | some (.error e, ts) =>
        some (.error e, { stream_ := ts.stream_.bad, token := Token.reset }) := by
  simp [scan, skip_ws, Utf8Stream.getc, is_ws, select_scanner, run, scan_string, State.toInt]

theorem getcs_succ (n : Nat) (s : Utf8Stream) :
    Utf8Stream.getcs (n + 1) s = (Utf8Stream.getcs n s).getc.2 := by
  induction n generalizing s with
  | zero => rfl
  | succ n ih =>
    rw [Utf8Stream.getcs, ih]
    rfl

/-- The automaton run over two pieces of text, one after the other. -/
theorem string_run_append (a : List Int) :
    ∀ (st : StringState) (u : UEscape) (str b : List Int),
      string_run st u str (a ++ b) =
        match string_run st u str a with
        | .error e => .error e
        | .ok (st', u', str') => string_run st' u' str' b := by
  induction a with
  | nil => intro st u str b; rfl
  | cons c a ih =>
    intro st u str b
    simp only [List.cons_append, string_run]
    cases h : string_switch st u c str with
    | error e => rfl
    | ok r =>
      obtain ⟨st1, u1, str1⟩ := r
      exact ih st1 u1 str1 b

/-- One `switch (state)` keeps the `UEscape` object fresh outside the UESCAPE state. -/
theorem string_switch_fresh (st : StringState) (u : UEscape) (c : Int) (str : List Int)
    (st' : StringState) (u' : UEscape) (str' : List Int)
    (hu : st ≠ .SUESCAPE → u = UEscape.init)
    (h : string_switch st u c str = .ok (st', u', str')) :
    st' ≠ .SUESCAPE → u' = UEscape.init := by
  cases st with
  | SREGULAR =>
    have hu' := hu (by decide)
    subst hu'
    unfold string_switch at h
    simp only at h
    split at h
    · simp at h
    · simp only [Except.ok.injEq, Prod.mk.injEq] at h
      intro _
      exact h.2.1.symm
  | SESCAPED =>
    have hu' := hu (by decide)
    subst hu'
    unfold string_switch at h
    simp only at h
    split at h
    · simp at h
    · simp only [Except.ok.injEq, Prod.mk.injEq] at h
      intro _
      exact h.2.1.symm
  | SDONES =>
    have hu' := hu (by decide)
    subst hu'
    simp only [string_switch, Except.ok.injEq, Prod.mk.injEq] at h
    intro _
    exact h.2.1.symm
  | SUESCAPE =>
    unfold string_switch at h
    simp only at h
    unfold UEscape.scan at h
    simp only at h
    split at h
    · simp at h
    · split at h
      · split at h
        · simp at h
        · simp only [Except.ok.injEq, Prod.mk.injEq] at h
          intro _
          exact h.2.1.symm
      · simp only [Except.ok.injEq, Prod.mk.injEq] at h
        intro hne
        exact absurd h.1.symm hne

/-- A run of the automaton keeps the `UEscape` object fresh outside the UESCAPE state. -/
theorem string_run_fresh (body : List Int) :
    ∀ (st : StringState) (u : UEscape) (str : List Int) (st' : StringState) (u' : UEscape)
      (str' : List Int), (st ≠ .SUESCAPE → u = UEscape.init) →
      string_run st u str body = .ok (st', u', str') → st' ≠ .SUESCAPE → u' = UEscape.init := by
  induction body with
  | nil =>
    intro st u str st' u' str' hu h
    simp only [string_run, Except.ok.injEq, Prod.mk.injEq] at h
    obtain ⟨rfl, rfl, rfl⟩ := h
    exact hu
  | cons c body ih =>
    intro st u str st' u' str' hu h
    simp only [string_run] at h
    cases hsw : string_switch st u c str with
    | error e => simp [hsw] at h
    | ok r =>
      obtain ⟨st1, u1, str1⟩ := r
      simp only [hsw] at h
      exact ih st1 u1 str1 st' u' str' (string_switch_fresh st u c str st1 u1 str1 hu hsw) h

/-- A literal whose body the automaton reads through back into the REGULAR state, closed
by a quote: `scan()` returns the string token with the payload of the run. -/
theorem scan_string_closed (strtold : List Int → Conv ℚ) (body rest : List Int) (cr : Bool)
    (b : Option (List Int × State)) (tok : Token) (u : UEscape) (s : List Int)
    (hrun : string_run .SREGULAR UEscape.init [] body = .ok (.SREGULAR, u, s)) :
    scan strtold { stream_ := ⟨0x22 :: (body ++ 0x22 :: rest), .SGOOD, cr, b⟩, token := tok } =
      some (.ok (),
        { stream_ := ⟨rest, .SGOOD, cr, some (0x22 :: rest, .SGOOD)⟩,
          token := { type := .ofInt 0x22, str_value := s, number_type := .NONE,
                     int_value := 0, float_value := 0 } }) := by
  rw [scan_quote]
  obtain ⟨b', hb'⟩ := getcs_good_append body (0x22 :: rest) cr
    (some (0x22 :: (body ++ 0x22 :: rest), .SGOOD))
  have h := scan_string_loop_run body (rest.length + 3) .SREGULAR UEscape.init
    { stream_ := ⟨body ++ 0x22 :: rest, .SGOOD, cr, some (0x22 :: (body ++ 0x22 :: rest), .SGOOD)⟩,
      token := { Token.reset with type := .ofInt 0x22 } } (0x22 :: rest) .SREGULAR u s
    rfl rfl (by simpa [Token.reset] using hrun) (by decide)
  have hlen : (body ++ 0x22 :: rest).length + 2 = rest.length + 3 + body.length := by
    simp only [List.length_append, List.length_cons]
    omega
  rw [hlen, h]
  simp only [hb']
  rw [scan_string_loop_step (rest.length + 2) .SREGULAR u _ 0x22 rest (by decide) rfl rfl]
  rfl

/-- A literal whose body the automaton reads through, and on whose next character it
throws: `scan()` throws the same, there, marks the stream bad and resets the token. -/
theorem scan_string_thrown (strtold : List Int → Conv ℚ) (body : List Int) (c : Int)
    (rest : List Int) (cr : Bool) (b : Option (List Int × State)) (tok : Token)
    (st : StringState) (u : UEscape) (s : List Int) (e : ErrorKind)
    (hrun : string_run .SREGULAR UEscape.init [] body = .ok (st, u, s)) (hst : st ≠ .SDONES)
    (hsw : string_switch st u c s = .error e) :
    scan strtold { stream_ := ⟨0x22 :: (body ++ c :: rest), .SGOOD, cr, b⟩, token := tok } =
      some (.error e,
        { stream_ := ⟨rest, .SBAD, cr, some (c :: rest, .SGOOD)⟩, token := Token.reset }) := by
  rw [scan_quote]
  obtain ⟨b', hb'⟩ := getcs_good_append body (c :: rest) cr
    (some (0x22 :: (body ++ c :: rest), .SGOOD))
  have h := scan_string_loop_run body (rest.length + 3) .SREGULAR UEscape.init
    { stream_ := ⟨body ++ c :: rest, .SGOOD, cr, some (0x22 :: (body ++ c :: rest), .SGOOD)⟩,
      token := { Token.reset with type := .ofInt 0x22 } } (c :: rest) st u s
    rfl rfl (by simpa [Token.reset] using hrun) hst
  have hlen : (body ++ c :: rest).length + 2 = rest.length + 3 + body.length := by
    simp only [List.length_append, List.length_cons]
    omega
  rw [hlen, h]
  simp only [hb']
  rw [scan_string_loop_step (rest.length + 2) st u _ c rest hst rfl rfl]
  simp only [hsw]
  rfl

/-! ### Helper lemmas: the loops do not run out of fuel -/

/-- The automaton never goes back to START. -/
theorem number_state_ne_start (c : Int) (s : NumberState) : number_state c s ≠ .SSTART := by
  cases s <;> simp only [number_state, transitions, number_state_row] <;>
    first
    | decide
    | (split_ifs <;> decide)

theorem validate_loop_total (size : Nat) :
    ∀ (fuel : Nat) (s : Utf8Stream) (st : NumberState) (res : NumberType) (buf : List Int),
      buf.length < size → size ≤ fuel + buf.length →
      ∃ r, validate_loop size fuel s st res buf = some r := by
  intro fuel
  induction fuel with
  | zero =>
    intro s st res buf h1 h2
    omega
  | succ fuel ih =>
    intro s st res buf h1 h2
    rw [validate_loop]
    simp only
    have hne := number_state_ne_start s.getc.1 st
    by_cases hl : (buf ++ [toChar s.getc.1]).length = size
    · cases hn : number_state s.getc.1 st <;> simp only [hl, if_true] <;>
        first
        | exact absurd hn hne
        | exact ⟨_, rfl⟩
    · have h3 : (buf ++ [toChar s.getc.1]).length < size := by
        simp only [List.length_append, List.length_cons, List.length_nil] at hl ⊢
        omega
      have h4 : size ≤ fuel + (buf ++ [toChar s.getc.1]).length := by
        simp only [List.length_append, List.length_cons, List.length_nil]
        omega
      cases hn : number_state s.getc.1 st <;> simp only [hl, if_false] <;>
        first
        | exact absurd hn hne
        | exact ⟨_, rfl⟩
        | exact ih _ _ _ _ h3 h4

/-- The function `validate_number` with the 1024 byte buffer always returns or throws. -/
theorem validate_number_total (s : Utf8Stream) : ∃ r, validate_number s 1024 = some r :=
  validate_loop_total 1024 (1024 + 1) s .SSTART .INT [] (by decide) (by decide)

theorem getc_cases (s : Utf8Stream) :
    (∃ c rest, s.state = .SGOOD ∧ s.input = c :: rest ∧
      s.getc = (c, ⟨rest, .SGOOD, s.corrupt, some (c :: rest, .SGOOD)⟩)) ∨
    (s.getc.2.state ≠ .SGOOD ∧ (s.getc.1 = State.SEOF.toInt ∨ s.getc.1 = State.SBAD.toInt)) := by
  obtain ⟨i, st, cr, b⟩ := s
  cases st
  · cases i with
    | nil =>
      right
      cases cr <;> simp [Utf8Stream.getc]
    | cons c rest => exact Or.inl ⟨c, rest, rfl, rfl, rfl⟩
  · right
    simp [Utf8Stream.getc]
  · right
    simp [Utf8Stream.getc]

theorem skip_ws_total :
    ∀ (fuel : Nat) (s : Utf8Stream), s.input.length + 1 ≤ fuel → ∃ r, skip_ws fuel s = some r := by
  intro fuel
  induction fuel with
  | zero =>
    intro s h
    omega
  | succ fuel ih =>
    intro s h
    rw [skip_ws]
    rcases getc_cases s with ⟨c, rest, -, hin, hget⟩ | ⟨-, hc⟩
    · simp only [hget]
      by_cases hw : is_ws c = true
      · rw [if_pos hw]
        apply ih
        simp only [hin, List.length_cons] at h
        simpa using h
      · rw [if_neg hw]
        exact ⟨_, rfl⟩
    · have hw : ¬ is_ws s.getc.1 = true := by
        rcases hc with hc | hc <;> rw [hc] <;> decide
      simp only
      rw [if_neg hw]
      exact ⟨_, rfl⟩

theorem scan_string_loop_total :
    ∀ (fuel : Nat) (st : StringState) (u : UEscape) (ts : TokenStream),
      ts.stream_.input.length + 2 ≤ fuel → ∃ r, scan_string_loop fuel st u ts = some r := by
  intro fuel
  induction fuel with
  | zero =>
    intro st u ts h
    omega
  | succ fuel ih =>
    intro st u ts h
    by_cases hst : st = .SDONES
    · rw [scan_string_loop, if_pos hst]
      exact ⟨_, rfl⟩
    · rcases getc_cases ts.stream_ with ⟨c, rest, hg, hin, -⟩ | ⟨hbad, -⟩
      · rw [scan_string_loop_step fuel st u ts c rest hst hg hin]
        cases hsw : string_switch st u c ts.token.str_value with
        | error e => exact ⟨_, rfl⟩
        | ok r =>
          obtain ⟨st', u', str⟩ := r
          simp only
          apply ih
          rw [getc_of_good_cons ts.stream_ c rest hg hin]
          simp only [hin, List.length_cons] at h
          simpa using h
      · rw [scan_string_loop, if_neg hst]
        simp only [ne_eq, ite_not]
        rw [if_neg hbad]
        exact ⟨_, rfl⟩

/-- A call of `scan()` always returns or throws: the fuel of its loops is enough. -/
theorem scan_total (strtold : List Int → Conv ℚ) (ts : TokenStream) :
    ∃ r, scan strtold ts = some r := by
  unfold scan
  split
  · exact ⟨_, rfl⟩
  · obtain ⟨⟨c, stream⟩, hws⟩ := skip_ws_total (ts.stream_.input.length + 1) ts.stream_
      (Nat.le_refl _)
    simp only [hws]
    split
    · exact ⟨_, rfl⟩
    · have hbody : ∃ r, (match
          ({ stream_ := stream, token := Token.reset } : TokenStream).select_scanner c with
          | (.error e, ts) => some (Except.error e, ts)
          | (.ok scanner, ts) => run strtold ts scanner) = some r := by
        rcases hsel : ({ stream_ := stream, token := Token.reset } :
          TokenStream).select_scanner c with ⟨r, ts1⟩
        cases r with
        | error e => exact ⟨_, rfl⟩
        | ok scanner =>
          simp only
          cases scanner with
          | scan_structural => exact ⟨_, rfl⟩
          | scan_true => exact ⟨_, rfl⟩
          | scan_null => exact ⟨_, rfl⟩
          | scan_false => exact ⟨_, rfl⟩
          | scan_string =>
            exact scan_string_loop_total _ _ _ _ (Nat.le_refl _)
          | scan_number =>
            simp only [run, scan_number]
            obtain ⟨⟨r, s2⟩, hv⟩ := validate_number_total ts1.stream_
            rw [hv]
            cases r with
            | error e => exact ⟨_, rfl⟩
            | ok x =>
              obtain ⟨nt, buf⟩ := x
              cases nt with
              | INT =>
                simp only
                cases make_int buf <;> exact ⟨_, rfl⟩
              | FLOAT =>
                simp only
                cases make_float strtold buf <;> exact ⟨_, rfl⟩
              | NONE => exact ⟨_, rfl⟩
      obtain ⟨⟨r, ts2⟩, hb⟩ := hbody
      simp only [hb]
      cases r with
      | error e => exact ⟨_, rfl⟩
      | ok x => exact ⟨_, rfl⟩

/-! ### C10 -/

/-- After a `scan()` that threw, the stream is bad and the token is reset. -/
theorem scan_error_state (strtold : List Int → Conv ℚ) (ts ts' : TokenStream) (e : ErrorKind)
    (h : scan strtold ts = some (.error e, ts')) :
    ts'.stream_.state = .SBAD ∧ ts'.token = Token.reset := by
  unfold scan at h
  split at h
  · simp at h
  · dsimp only at h
    split at h
    · simp at h
    · split at h
      · simp at h
      · split at h
        · simp at h
        · simp at h
        · simp only [Option.some.injEq, Prod.mk.injEq, Except.error.injEq] at h
          obtain ⟨-, rfl⟩ := h
          exact ⟨rfl, rfl⟩

/-- Repeated calls of `scan()` on a bad stream all return without error and change
nothing. -/
theorem scan_many_bad (strtold : List Int → Conv ℚ) (ts : TokenStream)
    (h : ts.stream_.state = .SBAD) (n : Nat) :
    scan_many strtold n ts = some (List.replicate n (.ok (), ts.token), ts) := by
  induction n with
  | zero => rfl
  | succ n ih => simp [scan_many, scan, h, ih, List.replicate_succ]

/-- C10: when `scan()` throws, it leaves the stream marked bad and the token equal to the
reset token, and any number of later `scan()` calls return without error, leave the scanner
state (stream and token) exactly as it is, and so leave the token reset. -/
theorem scan_error_terminal (strtold : List Int → Conv ℚ) (ts ts' : TokenStream)
    (e : ErrorKind) (h : scan strtold ts = some (.error e, ts')) :
    ts'.stream_.state = .SBAD ∧ ts'.token = Token.reset ∧
      ∀ n, scan_many strtold n ts' = some (List.replicate n (.ok (), Token.reset), ts') := by
  obtain ⟨h1, h2⟩ := scan_error_state strtold ts ts' e h
  refine ⟨h1, h2, fun n => ?_⟩
  rw [scan_many_bad strtold ts' h1 n, h2]

/-- C10 at concrete inputs: an unknown leading character. -/
theorem scan_error_terminal_witness :
    scan strtold0 (init (Utf8Stream.ofList [0x78])) =
        some (.error .TOKEN_INVALID,
          { stream_ := { input := [], state := .SBAD, corrupt := false,
                         back := some ([0x78], .SGOOD) },
            token := Token.reset }) ∧
      ∀ n, scan_many strtold0 n
          { stream_ := { input := [], state := .SBAD, corrupt := false,
                         back := some ([0x78], .SGOOD) },
            token := Token.reset } =
        some (List.replicate n (.ok (), Token.reset),
          { stream_ := { input := [], state := .SBAD, corrupt := false,
                         back := some ([0x78], .SGOOD) },
            token := Token.reset }) :=
  ⟨rfl, (scan_error_terminal strtold0 (init (Utf8Stream.ofList [0x78])) _ .TOKEN_INVALID rfl).2.2⟩

/-! ### C6 -/

theorem scan_escaped_error_iff (c : Int) (str : List Int) :
    scan_escaped c str = .error .ESCAPE_INVALID ↔ ¬ IsEscapeChar c := by
  unfold scan_escaped IsEscapeChar
  constructor
  · intro h
    split_ifs at h with h1 h2 h3 h4 h5 h6 h7
    omega
  · intro h
    push_neg at h
    obtain ⟨h1, h2, h3, h4, h5, h6, h7, h8, h9⟩ := h
    simp [h1, h2, h3, h4, h5, h6, h7, h8, h9]

theorem uescape_scan_not_hex (u : UEscape) (c : Int) (str : List Int) (h : ¬ IsHex c) :
    u.scan c str = .error .UESCAPE_INVALID := by
  unfold IsHex at h
  unfold UEscape.scan
  simp only
  rw [if_neg (fun h1 => h (Or.inl h1)), if_neg (fun h2 => h (Or.inr (Or.inl h2))),
    if_neg (fun h3 => h (Or.inr (Or.inr h3)))]

/-- C7: with the stream good and `c` its next character, `scan_escaped` throws
`ESCAPE_INVALID` exactly when `c` is none of the backslash, `/`, `"`, `b`, `f`, `n`, `r`,
`t`, `u`, and then so does the loop of `scan_string` in the ESCAPED state; in the UESCAPE
state a `c` that is no hexadecimal digit makes `UEscape::scan` and the loop throw
`UESCAPE_INVALID`. In particular `scan()` throws `ESCAPE_INVALID` on `"\q"` and
`UESCAPE_INVALID` on `"\u12"`, there at the closing quote. -/
theorem malformed_escape_rejected (strtold : List Int → Conv ℚ) (fuel : Nat) (u : UEscape)
    (ts : TokenStream) (c : Int) (rest : List Int)
    (hg : ts.stream_.state = .SGOOD) (hin : ts.stream_.input = c :: rest) :
    (scan_escaped c ts.token.str_value = .error .ESCAPE_INVALID ↔ ¬ IsEscapeChar c) ∧
    (¬ IsEscapeChar c →
      scan_string_loop (fuel + 1) .SESCAPED u ts =
        some (.error .ESCAPE_INVALID, { ts with stream_ := ts.stream_.getc.2 })) ∧
    (¬ IsHex c →
      u.scan c ts.token.str_value = .error .UESCAPE_INVALID ∧
      scan_string_loop (fuel + 1) .SUESCAPE u ts =
        some (.error .UESCAPE_INVALID, { ts with stream_ := ts.stream_.getc.2 })) ∧
    scan strtold (init (Utf8Stream.ofList [0x22, 0x5c, 0x71, 0x22])) =
      some (.error .ESCAPE_INVALID,
        { stream_ := ⟨[0x22], .SBAD, false, some ([0x71, 0x22], .SGOOD)⟩,
          token := Token.reset }) ∧
    scan strtold (init (Utf8Stream.ofList [0x22, 0x5c, 0x75, 0x31, 0x32, 0x22])) =
      some (.error .UESCAPE_INVALID,
        { stream_ := ⟨[], .SBAD, false, some ([0x22], .SGOOD)⟩, token := Token.reset }) := by
  refine ⟨scan_escaped_error_iff c _, fun h => ?_, fun h => ⟨uescape_scan_not_hex u c _ h, ?_⟩,
    rfl, rfl⟩
  · rw [scan_string_loop_step fuel .SESCAPED u ts c rest (by decide) hg hin]
    have := (scan_escaped_error_iff c ts.token.str_value).2 h
    simp [string_switch, this]
  · rw [scan_string_loop_step fuel .SUESCAPE u ts c rest (by decide) hg hin]
    simp [string_switch, uescape_scan_not_hex u c _ h]

/-- C7 at concrete inputs: the character `q` in the ESCAPED state, the character `"` in
the UESCAPE state after two digits. -/
theorem malformed_escape_rejected_witness :
    scan_string_loop (2 + 1) .SESCAPED UEscape.init (init (Utf8Stream.ofList [0x71, 0x22])) =
        some (.error .ESCAPE_INVALID,
          { (init (Utf8Stream.ofList [0x71, 0x22])) with
            stream_ := (Utf8Stream.ofList [0x71, 0x22]).getc.2 }) ∧
      scan_string_loop (2 + 1) .SUESCAPE { count_ := 2, value_ := 0x12 }
          (init (Utf8Stream.ofList [0x22])) =
        some (.error .UESCAPE_INVALID,
          { (init (Utf8Stream.ofList [0x22])) with
            stream_ := (Utf8Stream.ofList [0x22]).getc.2 }) :=
  ⟨(malformed_escape_rejected strtold0 2 UEscape.init (init (Utf8Stream.ofList [0x71, 0x22]))
      0x71 [0x22] rfl rfl).2.1 (by unfold IsEscapeChar; decide),
    ((malformed_escape_rejected strtold0 2 { count_ := 2, value_ := 0x12 }
      (init (Utf8Stream.ofList [0x22])) 0x22 [] rfl rfl).2.2.1 (by decide)).2⟩

/-! ### C8 -/

/-- C8: whenever the loop of `scan_string` is in a state other than DONE and the stream has
nothing to deliver (end of input, a failure of the source, or a stream no longer good), it
throws `STRING_QUOTE`. So for every input made of an opening quote and a body that the
automaton reads through without throwing and without reaching the closing quote, ending
in one of the states REGULAR, ESCAPED, UESCAPE, whether the text ends there (`cr = false`)
or the source fails there (`cr = true`), `scan()` throws `STRING_QUOTE`, marks the stream bad
and leaves the reset token: no string token is returned. -/
theorem unterminated_string (strtold : List Int → Conv ℚ) (body : List Int) (cr : Bool)
    (b : Option (List Int × State)) (tok : Token) (st' : StringState) (u' : UEscape)
    (str' : List Int)
    (hrun : string_run .SREGULAR UEscape.init [] body = .ok (st', u', str'))
    (hst' : st' ≠ .SDONES) :
    (st' = .SREGULAR ∨ st' = .SESCAPED ∨ st' = .SUESCAPE) ∧
    (∃ ts', scan strtold { stream_ := ⟨0x22 :: body, .SGOOD, cr, b⟩, token := tok } =
        some (.error .STRING_QUOTE, ts') ∧
      ts'.stream_.state = .SBAD ∧ ts'.stream_.input = [] ∧ ts'.token = Token.reset) ∧
    (∀ (fuel : Nat) (st : StringState) (u : UEscape) (ts : TokenStream), st ≠ .SDONES →
      (ts.stream_.input = [] ∨ ts.stream_.state ≠ .SGOOD) →
      scan_string_loop (fuel + 1) st u ts =
        some (.error .STRING_QUOTE, { ts with stream_ := ts.stream_.getc.2 })) := by
  refine ⟨by cases st' <;> simp at hst' ⊢, ?_,
    fun fuel st u ts hst h => scan_string_loop_end fuel st u ts hst h⟩
  rw [scan_quote]
  obtain ⟨b', hb'⟩ := getcs_good_append body [] cr (some (0x22 :: body, .SGOOD))
  have h := scan_string_loop_run body 2 .SREGULAR UEscape.init
    { stream_ := ⟨body, .SGOOD, cr, some (0x22 :: body, .SGOOD)⟩,
      token := { Token.reset with type := .ofInt 0x22 } } [] st' u' str'
    rfl (by simp) hrun hst'
  rw [Nat.add_comm body.length 2, h]
  simp only [List.append_nil] at hb'
  simp only [hb']
  rw [scan_string_loop_end 1 st' u' _ hst' (Or.inl rfl)]
  refine ⟨_, rfl, rfl, ?_, rfl⟩
  cases cr <;> rfl

/-- C8 at concrete inputs: the text `"a\` breaks off in the ESCAPED state. -/
theorem unterminated_string_witness :
    ∃ ts', scan strtold0 { stream_ := ⟨0x22 :: [0x61, 0x5c], .SGOOD, false, none⟩,
                           token := Token.reset } =
        some (.error .STRING_QUOTE, ts') ∧
      ts'.stream_.state = .SBAD ∧ ts'.stream_.input = [] ∧ ts'.token = Token.reset :=
  (unterminated_string strtold0 [0x61, 0x5c] false none Token.reset .SESCAPED UEscape.init
    [0x61] rfl (by decide)).2.1

/-! ### C5 -/

theorem lor_of_lt (i a b : Nat) (hb : b < 2 ^ i) : 2 ^ i * a ||| b = 2 ^ i * a + b :=
  (@Nat.mul_add_lt_is_or i b hb a).symm

theorem hexValue_lt (c : Int) (h : IsHex c) : hexValue c < 16 := by
  unfold IsHex at h
  unfold hexValue
  split_ifs <;> omega

theorem hex4_lt (c1 c2 c3 c4 : Int) (h1 : IsHex c1) (h2 : IsHex c2) (h3 : IsHex c3)
    (h4 : IsHex c4) : hex4 c1 c2 c3 c4 < 65536 := by
  have := hexValue_lt c1 h1
  have := hexValue_lt c2 h2
  have := hexValue_lt c3 h3
  have := hexValue_lt c4 h4
  unfold hex4
  omega

/-- One hexadecimal digit through `UEscape::scan`. -/
theorem uescape_scan_hex (u : UEscape) (c : Int) (str : List Int) (h : IsHex c)
    (hv : u.value_ < 4096) :
    u.scan c str =
      if u.count_ + 1 = 4 then
        match (UEscape.mk (u.count_ + 1) (u.value_ * 16 + hexValue c)).utf8encode str with
        | .error e => .error e
        | .ok (res, str) => .ok (res, { count_ := 0, value_ := 0 }, str)
      else .ok (.SUESCAPE, UEscape.mk (u.count_ + 1) (u.value_ * 16 + hexValue c), str) := by
  unfold IsHex at h
  unfold UEscape.scan hexValue
  by_cases h1 : 0x30 ≤ c ∧ c ≤ 0x39
  · have e : (((u.value_ * 16 % 65536 : Nat) : Int) + (c - 48)) % 65536 =
        ((u.value_ * 16 + (c - 48).toNat : Nat) : Int) := by omega
    simp only [h1, and_self, if_true, Nat.reduceMul, e, Int.toNat_ofNat]
  · by_cases h2 : 0x61 ≤ c ∧ c ≤ 0x66
    · have e : (((u.value_ * 16 % 65536 : Nat) : Int) + (10 + c - 97)) % 65536 =
          ((u.value_ * 16 + ((c - 97).toNat + 10) : Nat) : Int) := by omega
      simp only [h1, h2, and_self, if_true, if_false, Nat.reduceMul, e, Int.toNat_ofNat]
    · have h3 : 0x41 ≤ c ∧ c ≤ 0x46 := by tauto
      have e : (((u.value_ * 16 % 65536 : Nat) : Int) + (10 + c - 65)) % 65536 =
          ((u.value_ * 16 + ((c - 65).toNat + 10) : Nat) : Int) := by omega
      simp only [h1, h2, h3, and_self, if_true, if_false, Nat.reduceMul, e, Int.toNat_ofNat]

/-- The bytes `UEscape::utf8encode` appends are the standard UTF-8 encoding. -/
theorem utf8encode_eq (k v : Nat) (str : List Int) (hv : v < 65536) :
    (UEscape.mk k v).utf8encode str =
      if v = 0 then .error .UESCAPE_ZERO
      else if 0xD800 ≤ v ∧ v ≤ 0xDFFF then .error .UESCAPE_SURROGATE
      else .ok (.SREGULAR, str ++ utf8 v) := by
  unfold UEscape.utf8encode utf8 toChar
  simp only
  by_cases h0 : v = 0
  · simp [h0]
  · rw [if_neg h0, if_neg h0]
    by_cases h1 : v ≤ 0x7f
    · have hs : ¬ (0xD800 ≤ v ∧ v ≤ 0xDFFF) := by omega
      rw [if_pos h1, if_neg hs, if_pos h1]
      have : (v : Int) % 256 = v := by omega
      rw [this]
    · rw [if_neg h1]
      by_cases h2 : v ≤ 0x7ff
      · have hs : ¬ (0xD800 ≤ v ∧ v ≤ 0xDFFF) := by omega
        rw [if_pos h2, if_neg hs, if_neg h1, if_pos h2]
        have e1 : 0xc0 ||| (v >>> 6) = 0xC0 + v / 64 := by
          rw [Nat.shiftRight_eq_div_pow]
          exact lor_of_lt 6 3 (v / 2 ^ 6) (by omega)
        have e2 : 0x80 ||| (v &&& 0x3f) = 0x80 + v % 64 := by
          rw [show (0x3f : Nat) = 2 ^ 6 - 1 from rfl, Nat.and_pow_two_sub_one_eq_mod]
          exact lor_of_lt 7 1 (v % 2 ^ 6) (by omega)
        rw [e1, e2]
        have e3 : ((0xC0 + v / 64 : Nat) : Int) % 256 = ((0xC0 + v / 64 : Nat) : Int) := by omega
        have e4 : ((0x80 + v % 64 : Nat) : Int) % 256 = ((0x80 + v % 64 : Nat) : Int) := by omega
        rw [e3, e4]
      · rw [if_neg h2]
        by_cases hs : 0xD800 ≤ v ∧ v ≤ 0xDFFF
        · rw [if_pos hs, if_pos hs]
        · rw [if_neg hs, if_neg hs, if_neg h1, if_neg h2]
          have e1 : 0xe0 ||| (v >>> 12) = 0xE0 + v / 4096 := by
            rw [Nat.shiftRight_eq_div_pow]
            exact lor_of_lt 5 7 (v / 2 ^ 12) (by omega)
          have e2 : 0x80 ||| ((v >>> 6) &&& 0x3f) = 0x80 + v / 64 % 64 := by
            rw [show (0x3f : Nat) = 2 ^ 6 - 1 from rfl, Nat.and_pow_two_sub_one_eq_mod,
              Nat.shiftRight_eq_div_pow]
            exact lor_of_lt 7 1 (v / 2 ^ 6 % 2 ^ 6) (by omega)
          have e3 : 0x80 ||| (v &&& 0x3f) = 0x80 + v % 64 := by
            rw [show (0x3f : Nat) = 2 ^ 6 - 1 from rfl, Nat.and_pow_two_sub_one_eq_mod]
            exact lor_of_lt 7 1 (v % 2 ^ 6) (by omega)
          rw [e1, e2, e3]
          have e4 : ((0xE0 + v / 4096 : Nat) : Int) % 256 = ((0xE0 + v / 4096 : Nat) : Int) := by
            omega
          have e5 : ((0x80 + v / 64 % 64 : Nat) : Int) % 256 =
              ((0x80 + v / 64 % 64 : Nat) : Int) := by omega
          have e6 : ((0x80 + v % 64 : Nat) : Int) % 256 = ((0x80 + v % 64 : Nat) : Int) := by
            omega
          rw [e4, e5, e6]

/-- The standard decoder reads back what the standard encoder wrote. -/
theorem utf8decode_utf8 (v : Nat) (hv : v < 65536) (hs : ¬ (0xD800 ≤ v ∧ v ≤ 0xDFFF)) :
    utf8decode (utf8 v) = some v := by
  unfold utf8
  by_cases h1 : v ≤ 0x7F
  · rw [if_pos h1]
    unfold utf8decode
    simp only
    rw [if_pos (by omega)]
    simp
  · rw [if_neg h1]
    by_cases h2 : v ≤ 0x7FF
    · rw [if_pos h2]
      unfold utf8decode IsCont
      simp only
      rw [if_pos (by omega)]
      congr 1
      omega
    · rw [if_neg h2]
      unfold utf8decode IsCont
      simp only
      rw [if_pos (by omega), if_neg (by omega)]
      congr 1
      omega

theorem string_run_hex3 (c1 c2 c3 : Int) (str : List Int) (h1 : IsHex c1) (h2 : IsHex c2)
    (h3 : IsHex c3) :
    string_run .SUESCAPE UEscape.init str [c1, c2, c3] =
      .ok (.SUESCAPE, UEscape.mk 3 ((hexValue c1 * 16 + hexValue c2) * 16 + hexValue c3), str) := by
  have b1 := hexValue_lt c1 h1
  have b2 := hexValue_lt c2 h2
  have s1 : string_switch .SUESCAPE UEscape.init c1 str =
      .ok (.SUESCAPE, UEscape.mk 1 (hexValue c1), str) := by
    show UEscape.init.scan c1 str = _
    rw [uescape_scan_hex _ c1 str h1 (by decide)]
    simp [UEscape.init]
  have s2 : string_switch .SUESCAPE (UEscape.mk 1 (hexValue c1)) c2 str =
      .ok (.SUESCAPE, UEscape.mk 2 (hexValue c1 * 16 + hexValue c2), str) := by
    show (UEscape.mk 1 (hexValue c1)).scan c2 str = _
    rw [uescape_scan_hex _ c2 str h2 (by simp only; omega)]
    simp
  have s3 : string_switch .SUESCAPE (UEscape.mk 2 (hexValue c1 * 16 + hexValue c2)) c3 str =
      .ok (.SUESCAPE, UEscape.mk 3 ((hexValue c1 * 16 + hexValue c2) * 16 + hexValue c3), str) := by
    show (UEscape.mk 2 (hexValue c1 * 16 + hexValue c2)).scan c3 str = _
    rw [uescape_scan_hex _ c3 str h3 (by simp only; omega)]
    simp
  simp only [string_run, s1, s2, s3]

/-- In the UESCAPE state, with the stream good and four hexadecimal digits (upper or
lower case) next, `v` being their value: the loop of `scan_string` throws `UESCAPE_ZERO` when
`v = 0`, throws `UESCAPE_SURROGATE` when `0xD800 ≤ v ≤ 0xDFFF`, and otherwise goes on in the
REGULAR state, with a fresh `UEscape`, after appending to the payload the bytes `utf8 v`; these
are the standard UTF-8 encoding of `v`: one byte up to `0x7F`, two up to `0x7FF`, three
above, and the standard decoder reads `v` back from them. -/
theorem uescape_loop_decoded (fuel : Nat) (ts : TokenStream) (c1 c2 c3 c4 : Int)
    (rest : List Int) (hg : ts.stream_.state = .SGOOD)
    (hin : ts.stream_.input = c1 :: c2 :: c3 :: c4 :: rest)
    (h1 : IsHex c1) (h2 : IsHex c2) (h3 : IsHex c3) (h4 : IsHex c4) :
    scan_string_loop (fuel + 4) .SUESCAPE UEscape.init ts =
      (if hex4 c1 c2 c3 c4 = 0 then
        some (.error .UESCAPE_ZERO, { ts with stream_ := ts.stream_.getcs 4 })
      else if 0xD800 ≤ hex4 c1 c2 c3 c4 ∧ hex4 c1 c2 c3 c4 ≤ 0xDFFF then
        some (.error .UESCAPE_SURROGATE, { ts with stream_ := ts.stream_.getcs 4 })
      else
        scan_string_loop fuel .SREGULAR UEscape.init
          { stream_ := ts.stream_.getcs 4,
            token := { ts.token with
              str_value := ts.token.str_value ++ utf8 (hex4 c1 c2 c3 c4) } }) ∧
    hex4 c1 c2 c3 c4 < 65536 ∧
    (utf8 (hex4 c1 c2 c3 c4)).length =
      (if hex4 c1 c2 c3 c4 ≤ 0x7F then 1 else if hex4 c1 c2 c3 c4 ≤ 0x7FF then 2 else 3) ∧
    (¬ (0xD800 ≤ hex4 c1 c2 c3 c4 ∧ hex4 c1 c2 c3 c4 ≤ 0xDFFF) →
      utf8decode (utf8 (hex4 c1 c2 c3 c4)) = some (hex4 c1 c2 c3 c4)) := by
  have hlt := hex4_lt c1 c2 c3 c4 h1 h2 h3 h4
  refine ⟨?_, hlt, ?_, fun hs => utf8decode_utf8 _ hlt hs⟩
  · obtain ⟨⟨i, st, cr, b⟩, tok⟩ := ts
    simp only at hg hin
    subst hg hin
    have b1 := hexValue_lt c1 h1
    have b2 := hexValue_lt c2 h2
    have b3 := hexValue_lt c3 h3
    have hrun := scan_string_loop_run [c1, c2, c3] (fuel + 1) .SUESCAPE UEscape.init
      { stream_ := ⟨c1 :: c2 :: c3 :: c4 :: rest, .SGOOD, cr, b⟩, token := tok } (c4 :: rest)
      .SUESCAPE _ tok.str_value rfl rfl (string_run_hex3 c1 c2 c3 tok.str_value h1 h2 h3)
      (by decide)
    have hfuel : fuel + 4 = fuel + 1 + [c1, c2, c3].length := rfl
    rw [hfuel, hrun]
    rw [scan_string_loop_step fuel .SUESCAPE _ _ c4 rest (by decide) rfl rfl]
    have hsw : string_switch .SUESCAPE
        (UEscape.mk 3 ((hexValue c1 * 16 + hexValue c2) * 16 + hexValue c3)) c4 tok.str_value =
        (UEscape.mk 3 ((hexValue c1 * 16 + hexValue c2) * 16 + hexValue c3)).scan c4
          tok.str_value := rfl
    simp only [hsw]
    rw [uescape_scan_hex _ c4 _ h4 (by simp only; omega)]
    simp only [Nat.reduceAdd, if_true]
    rw [utf8encode_eq _ _ _ (by simpa [hex4] using hlt)]
    change _ = if hex4 c1 c2 c3 c4 = 0 then _ else _
    unfold hex4
    split_ifs <;> rfl
  · unfold utf8
    split_ifs <;> rfl

/-- The fourth hexadecimal digit in the UESCAPE state: the value is encoded. -/
theorem string_switch_fourth (c1 c2 c3 c4 : Int) (str : List Int) (h1 : IsHex c1)
    (h2 : IsHex c2) (h3 : IsHex c3) (h4 : IsHex c4) :
    string_switch .SUESCAPE
        (UEscape.mk 3 ((hexValue c1 * 16 + hexValue c2) * 16 + hexValue c3)) c4 str =
      if hex4 c1 c2 c3 c4 = 0 then .error .UESCAPE_ZERO
      else if 0xD800 ≤ hex4 c1 c2 c3 c4 ∧ hex4 c1 c2 c3 c4 ≤ 0xDFFF then
        .error .UESCAPE_SURROGATE
      else .ok (.SREGULAR, UEscape.init, str ++ utf8 (hex4 c1 c2 c3 c4)) := by
  have hlt := hex4_lt c1 c2 c3 c4 h1 h2 h3 h4
  have b1 := hexValue_lt c1 h1
  have b2 := hexValue_lt c2 h2
  have b3 := hexValue_lt c3 h3
  have hsw : string_switch .SUESCAPE
      (UEscape.mk 3 ((hexValue c1 * 16 + hexValue c2) * 16 + hexValue c3)) c4 str =
      (UEscape.mk 3 ((hexValue c1 * 16 + hexValue c2) * 16 + hexValue c3)).scan c4 str := rfl
  rw [hsw, uescape_scan_hex _ c4 _ h4 (by simp only; omega)]
  simp only [Nat.reduceAdd, if_true]
  rw [utf8encode_eq _ _ _ (by simpa [hex4] using hlt)]
  change _ = if hex4 c1 c2 c3 c4 = 0 then _ else _
  unfold hex4
  split_ifs <;> rfl

/-- Four hexadecimal digits through the automaton in the UESCAPE state. -/
theorem string_run_hex4 (c1 c2 c3 c4 : Int) (str : List Int) (h1 : IsHex c1) (h2 : IsHex c2)
    (h3 : IsHex c3) (h4 : IsHex c4) :
    string_run .SUESCAPE UEscape.init str [c1, c2, c3, c4] =
      if hex4 c1 c2 c3 c4 = 0 then .error .UESCAPE_ZERO
      else if 0xD800 ≤ hex4 c1 c2 c3 c4 ∧ hex4 c1 c2 c3 c4 ≤ 0xDFFF then
        .error .UESCAPE_SURROGATE
      else .ok (.SREGULAR, UEscape.init, str ++ utf8 (hex4 c1 c2 c3 c4)) := by
  rw [show [c1, c2, c3, c4] = [c1, c2, c3] ++ [c4] from rfl, string_run_append,
    string_run_hex3 c1 c2 c3 str h1 h2 h3]
  simp only [string_run]
  rw [string_switch_fourth c1 c2 c3 c4 str h1 h2 h3 h4]
  split_ifs <;> rfl

/-- The escape `\u` and three hexadecimal digits after a body read through into the
REGULAR state. -/
theorem string_run_uescape3 (pre : List Int) (c1 c2 c3 : Int) (u' : UEscape) (str' : List Int)
    (hrun : string_run .SREGULAR UEscape.init [] pre = .ok (.SREGULAR, u', str'))
    (h1 : IsHex c1) (h2 : IsHex c2) (h3 : IsHex c3) :
    string_run .SREGULAR UEscape.init [] (pre ++ [0x5c, 0x75, c1, c2, c3]) =
      .ok (.SUESCAPE, UEscape.mk 3 ((hexValue c1 * 16 + hexValue c2) * 16 + hexValue c3),
        str') := by
  have hu : u' = UEscape.init :=
    string_run_fresh pre .SREGULAR UEscape.init [] .SREGULAR u' str' (fun _ => rfl) hrun
      (by decide)
  subst hu
  have e1 : string_switch .SREGULAR UEscape.init 0x5c str' =
      .ok (.SESCAPED, UEscape.init, str') := rfl
  have e2 : string_switch .SESCAPED UEscape.init 0x75 str' =
      .ok (.SUESCAPE, UEscape.init, str') := rfl
  rw [string_run_append, hrun]
  simp only
  rw [string_run]
  simp only [e1]
  rw [string_run]
  simp only [e2]
  exact string_run_hex3 c1 c2 c3 str' h1 h2 h3

/-- C5: for every string literal in which, after a body that the automaton has read through
back into the REGULAR state, `\u` and four hexadecimal digits (upper or lower case) follow,
`v` being the value of the digits (`v < 2^16`): the automaton, and `scan()` on the literal,
whatever follows the digits, throw `UESCAPE_ZERO` when `v = 0` and `UESCAPE_SURROGATE` when
`0xD800 ≤ v ≤ 0xDFFF` (the stream is marked bad, the token reset); otherwise the automaton
is back in the REGULAR state with a fresh `UEscape`, having appended to the payload exactly
the bytes `utf8 v`, and `scan()` on the literal, continued by any text the automaton reads in
the REGULAR state and closed by a quote, returns the string token with that payload. The
bytes `utf8 v` are the standard UTF-8 encoding of `v`: one byte up to `0x7F`, two up to
`0x7FF`, three above, and the standard decoder reads `v` back from them. -/
theorem unicode_escape_decoded (strtold : List Int → Conv ℚ) (pre : List Int)
    (c1 c2 c3 c4 : Int) (cr : Bool) (b : Option (List Int × State)) (tok : Token)
    (u' : UEscape) (str' : List Int)
    (hrun : string_run .SREGULAR UEscape.init [] pre = .ok (.SREGULAR, u', str'))
    (h1 : IsHex c1) (h2 : IsHex c2) (h3 : IsHex c3) (h4 : IsHex c4) :
    (∀ post : List Int,
      string_run .SREGULAR UEscape.init [] (pre ++ [0x5c, 0x75, c1, c2, c3, c4] ++ post) =
        if hex4 c1 c2 c3 c4 = 0 then .error .UESCAPE_ZERO
        else if 0xD800 ≤ hex4 c1 c2 c3 c4 ∧ hex4 c1 c2 c3 c4 ≤ 0xDFFF then
          .error .UESCAPE_SURROGATE
        else string_run .SREGULAR UEscape.init (str' ++ utf8 (hex4 c1 c2 c3 c4)) post) ∧
    (∀ rest : List Int,
      (hex4 c1 c2 c3 c4 = 0 →
        scan strtold
            { stream_ := ⟨0x22 :: (pre ++ 0x5c :: 0x75 :: c1 :: c2 :: c3 :: c4 :: rest), .SGOOD,
                cr, b⟩,
              token := tok } =
          some (.error .UESCAPE_ZERO,
            { stream_ := ⟨rest, .SBAD, cr, some (c4 :: rest, .SGOOD)⟩,
              token := Token.reset })) ∧
      (0xD800 ≤ hex4 c1 c2 c3 c4 ∧ hex4 c1 c2 c3 c4 ≤ 0xDFFF →
        scan strtold
            { stream_ := ⟨0x22 :: (pre ++ 0x5c :: 0x75 :: c1 :: c2 :: c3 :: c4 :: rest), .SGOOD,
                cr, b⟩,
              token := tok } =
          some (.error .UESCAPE_SURROGATE,
            { stream_ := ⟨rest, .SBAD, cr, some (c4 :: rest, .SGOOD)⟩,
              token := Token.reset }))) ∧
    (hex4 c1 c2 c3 c4 ≠ 0 → ¬ (0xD800 ≤ hex4 c1 c2 c3 c4 ∧ hex4 c1 c2 c3 c4 ≤ 0xDFFF) →
      ∀ (post rest : List Int) (u'' : UEscape) (str'' : List Int),
        string_run .SREGULAR UEscape.init (str' ++ utf8 (hex4 c1 c2 c3 c4)) post =
          .ok (.SREGULAR, u'', str'') →
        scan strtold
            { stream_ := ⟨0x22 :: (pre ++ [0x5c, 0x75, c1, c2, c3, c4] ++ post ++ 0x22 :: rest),
                .SGOOD, cr, b⟩,
              token := tok } =
          some (.ok (),
            { stream_ := ⟨rest, .SGOOD, cr, some (0x22 :: rest, .SGOOD)⟩,
              token := { type := .ofInt 0x22, str_value := str'', number_type := .NONE,
                         int_value := 0, float_value := 0 } })) ∧
    hex4 c1 c2 c3 c4 < 65536 ∧
    (utf8 (hex4 c1 c2 c3 c4)).length =
      (if hex4 c1 c2 c3 c4 ≤ 0x7F then 1 else if hex4 c1 c2 c3 c4 ≤ 0x7FF then 2 else 3) ∧
    (¬ (0xD800 ≤ hex4 c1 c2 c3 c4 ∧ hex4 c1 c2 c3 c4 ≤ 0xDFFF) →
      utf8decode (utf8 (hex4 c1 c2 c3 c4)) = some (hex4 c1 c2 c3 c4)) := by
  have hlt := hex4_lt c1 c2 c3 c4 h1 h2 h3 h4
  have h3run := string_run_uescape3 pre c1 c2 c3 u' str' hrun h1 h2 h3
  have h4sw := string_switch_fourth c1 c2 c3 c4 str' h1 h2 h3 h4
  have hauto : ∀ post : List Int,
      string_run .SREGULAR UEscape.init [] (pre ++ [0x5c, 0x75, c1, c2, c3, c4] ++ post) =
        if hex4 c1 c2 c3 c4 = 0 then .error .UESCAPE_ZERO
        else if 0xD800 ≤ hex4 c1 c2 c3 c4 ∧ hex4 c1 c2 c3 c4 ≤ 0xDFFF then
          .error .UESCAPE_SURROGATE
        else string_run .SREGULAR UEscape.init (str' ++ utf8 (hex4 c1 c2 c3 c4)) post := by
    intro post
    have e : pre ++ [0x5c, 0x75, c1, c2, c3, c4] ++ post =
        (pre ++ [0x5c, 0x75, c1, c2, c3]) ++ (c4 :: post) := by simp
    rw [e, string_run_append, h3run]
    simp only
    rw [string_run, h4sw]
    split_ifs <;> rfl
  have hsplit : ∀ rest : List Int,
      pre ++ 0x5c :: 0x75 :: c1 :: c2 :: c3 :: c4 :: rest =
        (pre ++ [0x5c, 0x75, c1, c2, c3]) ++ c4 :: rest := by
    intro rest
    simp
  refine ⟨hauto, fun rest => ⟨fun h0 => ?_, fun hs => ?_⟩, fun h0 hs post rest u'' str'' hp => ?_,
    hlt, ?_, fun hs => utf8decode_utf8 _ hlt hs⟩
  · rw [hsplit]
    exact scan_string_thrown strtold _ c4 rest cr b tok .SUESCAPE _ str' .UESCAPE_ZERO h3run
      (by decide) (by rw [h4sw, if_pos h0])
  · have h0 : hex4 c1 c2 c3 c4 ≠ 0 := by omega
    rw [hsplit]
    exact scan_string_thrown strtold _ c4 rest cr b tok .SUESCAPE _ str' .UESCAPE_SURROGATE h3run
      (by decide) (by rw [h4sw, if_neg h0, if_pos hs])
  · refine scan_string_closed strtold _ rest cr b tok u'' str'' ?_
    rw [hauto post, if_neg h0, if_neg hs, hp]
  · unfold utf8
    split_ifs <;> rfl

/-- C5 at concrete inputs: `scan()` on `"a\u20ACb"` returns the payload `a`, `E2 82 AC`, `b`;
on `"\u0000"` it throws `UESCAPE_ZERO` and on `"\uD800"` it throws `UESCAPE_SURROGATE`. -/
theorem unicode_escape_decoded_witness :
    scan strtold0
        { stream_ := ⟨0x22 :: ([0x61] ++ [0x5c, 0x75, 0x32, 0x30, 0x41, 0x43] ++ [0x62] ++
            0x22 :: []), .SGOOD, false, none⟩,
          token := Token.reset } =
      some (.ok (),
        { stream_ := ⟨[], .SGOOD, false, some (0x22 :: [], .SGOOD)⟩,
          token := { type := .ofInt 0x22, str_value := [0x61, 0xE2, 0x82, 0xAC, 0x62],
                     number_type := .NONE, int_value := 0, float_value := 0 } }) ∧
    scan strtold0
        { stream_ := ⟨0x22 :: ([] ++ 0x5c :: 0x75 :: 0x30 :: 0x30 :: 0x30 :: 0x30 :: [0x22]),
            .SGOOD, false, none⟩,
          token := Token.reset } =
      some (.error .UESCAPE_ZERO,
        { stream_ := ⟨[0x22], .SBAD, false, some (0x30 :: [0x22], .SGOOD)⟩,
          token := Token.reset }) ∧
    scan strtold0
        { stream_ := ⟨0x22 :: ([] ++ 0x5c :: 0x75 :: 0x44 :: 0x38 :: 0x30 :: 0x30 :: [0x22]),
            .SGOOD, false, none⟩,
          token := Token.reset } =
      some (.error .UESCAPE_SURROGATE,
        { stream_ := ⟨[0x22], .SBAD, false, some (0x30 :: [0x22], .SGOOD)⟩,
          token := Token.reset }) ∧
    utf8decode [0xE2, 0x82, 0xAC] = some 0x20AC :=
  ⟨(unicode_escape_decoded strtold0 [0x61] 0x32 0x30 0x41 0x43 false none Token.reset
      UEscape.init [0x61] rfl (by decide) (by decide) (by decide) (by decide)).2.2.1
      (by decide) (by decide) [0x62] [] UEscape.init [0x61, 0xE2, 0x82, 0xAC, 0x62] rfl,
    ((unicode_escape_decoded strtold0 [] 0x30 0x30 0x30 0x30 false none Token.reset
      UEscape.init [] rfl (by decide) (by decide) (by decide) (by decide)).2.1 [0x22]).1
      (by decide),
    ((unicode_escape_decoded strtold0 [] 0x44 0x38 0x30 0x30 false none Token.reset
      UEscape.init [] rfl (by decide) (by decide) (by decide) (by decide)).2.1 [0x22]).2
      (by decide),
    (unicode_escape_decoded strtold0 [0x61] 0x32 0x30 0x41 0x43 false none Token.reset
      UEscape.init [0x61] rfl (by decide) (by decide) (by decide) (by decide)).2.2.2.2.2
      (by decide)⟩

/-! ### C4 -/

/-- The automaton reads the escaped form of a string of quotes and backslashes back into
the string. -/
theorem string_run_quoted (s : List Int) (hs : ∀ c ∈ s, c = 0x22 ∨ c = 0x5c) (u : UEscape)
    (str : List Int) :
    string_run .SREGULAR u str (s.map quote_char).flatten = .ok (.SREGULAR, u, str ++ s) := by
  induction s generalizing str with
  | nil => simp [string_run]
  | cons c s ih =>
    have hc := hs c (List.mem_cons_self c s)
    have hq : quote_char c = [0x5c, c] := by
      rcases hc with rfl | rfl <;> rfl
    have h1 : string_switch .SREGULAR u 0x5c str = .ok (.SESCAPED, u, str) := rfl
    have h2 : string_switch .SESCAPED u c str = .ok (.SREGULAR, u, str ++ [c]) := by
      rcases hc with rfl | rfl <;> rfl
    simp only [List.map_cons, List.flatten_cons, hq, List.cons_append, List.nil_append,
      string_run, h1, h2]
    rw [ih (fun x hx => hs x (List.mem_cons_of_mem c hx))]
    simp

/-- C4: for every string `s` made only of the characters `"` and backslash, `scan()` on the
text written by `quote` for `s` returns without error, having read the whole text, with a
string token whose payload is exactly `s`. -/
theorem quote_scan_roundtrip (strtold : List Int → Conv ℚ) (s : List Int)
    (hs : ∀ c ∈ s, c = 0x22 ∨ c = 0x5c) :
    scan strtold (init (Utf8Stream.ofList (quote s))) =
      some (.ok (),
        { stream_ := ⟨[], .SGOOD, false, some ([0x22], .SGOOD)⟩,
          token := { type := .ofInt 0x22, str_value := s, number_type := .NONE,
                     int_value := 0, float_value := 0 } }) := by
  have hq : quote s = 0x22 :: ((s.map quote_char).flatten ++ [0x22]) := by
    simp [quote]
  unfold init Utf8Stream.ofList
  rw [hq, scan_quote]
  obtain ⟨b', hb'⟩ := getcs_good_append (s.map quote_char).flatten [0x22] false
    (some (0x22 :: ((s.map quote_char).flatten ++ [0x22]), .SGOOD))
  have hrun := scan_string_loop_run (s.map quote_char).flatten 3 .SREGULAR UEscape.init
    { stream_ := ⟨(s.map quote_char).flatten ++ [0x22], .SGOOD, false,
        some (0x22 :: ((s.map quote_char).flatten ++ [0x22]), .SGOOD)⟩,
      token := { Token.reset with type := .ofInt 0x22 } } [0x22] .SREGULAR UEscape.init s
    rfl rfl (by simpa [Token.reset] using string_run_quoted s hs UEscape.init []) (by decide)
  have hlen : ((s.map quote_char).flatten ++ [0x22]).length + 2 =
      3 + (s.map quote_char).flatten.length := by
    simp only [List.length_append, List.length_cons, List.length_nil]
    omega
  rw [hlen, hrun]
  simp only [hb']
  rfl

/-- C4 at a concrete string: quote, backslash, backslash, quote. -/
theorem quote_scan_roundtrip_witness :
    quote [0x22, 0x5c, 0x5c, 0x22] = [0x22, 0x5c, 0x22, 0x5c, 0x5c, 0x5c, 0x5c, 0x5c, 0x22, 0x22] ∧
      scan strtold0 (init (Utf8Stream.ofList (quote [0x22, 0x5c, 0x5c, 0x22]))) =
        some (.ok (),
          { stream_ := ⟨[], .SGOOD, false, some ([0x22], .SGOOD)⟩,
            token := { type := .ofInt 0x22, str_value := [0x22, 0x5c, 0x5c, 0x22],
                       number_type := .NONE, int_value := 0, float_value := 0 } }) :=
  ⟨rfl, quote_scan_roundtrip strtold0 [0x22, 0x5c, 0x5c, 0x22] (by decide)⟩

/-! ### C2 -/

/-- One iteration of the loop of `validate_number` that appends a character. -/
theorem validate_loop_append (size fuel : Nat) (c : Int) (rest : List Int) (cr : Bool)
    (b : Option (List Int × State)) (state : NumberState) (res : NumberType) (buf : List Int)
    (ha : (number_state c state).appends = true) (hsz : buf.length + 1 ≠ size) :
    validate_loop size (fuel + 1) ⟨c :: rest, .SGOOD, cr, b⟩ state res buf =
      validate_loop size fuel ⟨rest, .SGOOD, cr, some (c :: rest, .SGOOD)⟩
        (number_state c state) (classify res (number_state c state)) (buf ++ [toChar c]) := by
  rw [validate_loop, getc_good_cons]
  simp only
  have hl : ¬ (buf ++ [toChar c]).length = size := by simpa using hsz
  cases hn : number_state c state <;> simp only [hn, NumberState.appends] at ha ⊢ <;>
    first
    | exact absurd ha (by decide)
    | (rw [if_neg hl]; rfl)

/-- The iteration of the loop of `validate_number` that ends the number: the character is
pushed back. -/
theorem validate_loop_done (size fuel : Nat) (s : Utf8Stream) (state : NumberState)
    (res : NumberType) (buf : List Int) (hd : number_state s.getc.1 state = .SDONE) :
    validate_loop size (fuel + 1) s state res buf =
      some (.ok (res, buf ++ [0]), s.getc.2.ungetc) := by
  rw [validate_loop]
  simp only [hd]

/-- The loop of `validate_number` follows `number_run` over the characters the stream
holds, as long as the buffer has room. -/
theorem validate_loop_run (size : Nat) (w : List Int) :
    ∀ (fuel : Nat) (rest : List Int) (cr : Bool) (b : Option (List Int × State))
      (state : NumberState) (res : NumberType) (buf : List Int) (state' : NumberState)
      (res' : NumberType),
      number_run state res w = some (state', res') → buf.length + w.length < size →
      ∃ b', validate_loop size (fuel + w.length) ⟨w ++ rest, .SGOOD, cr, b⟩ state res buf =
        validate_loop size fuel ⟨rest, .SGOOD, cr, b'⟩ state' res' (buf ++ w.map toChar) := by
  induction w with
  | nil =>
    intro fuel rest cr b state res buf state' res' hrun _
    simp only [number_run, Option.some.injEq, Prod.mk.injEq] at hrun
    obtain ⟨rfl, rfl⟩ := hrun
    exact ⟨b, by simp⟩
  | cons c w ih =>
    intro fuel rest cr b state res buf state' res' hrun hlen
    simp only [number_run] at hrun
    split at hrun
    · rename_i ha
      simp only [List.length_cons] at hlen
      have hlen2 : (buf ++ [toChar c]).length + w.length < size := by
        simp only [List.length_append, List.length_cons, List.length_nil]
        omega
      obtain ⟨b', hb'⟩ := ih fuel rest cr (some (c :: (w ++ rest), .SGOOD)) _ _
        (buf ++ [toChar c]) state' res' hrun hlen2
      refine ⟨b', ?_⟩
      rw [List.length_cons, ← Nat.add_assoc, List.cons_append,
        validate_loop_append size (fuel + w.length) c (w ++ rest) cr b state res buf ha
          (by omega), hb']
      simp
    · simp at hrun

theorem number_run_append (a b : List Int) :
    ∀ (state : NumberState) (res : NumberType) (s1 : NumberState) (r1 : NumberType),
      number_run state res a = some (s1, r1) →
      number_run state res (a ++ b) = number_run s1 r1 b := by
  induction a with
  | nil =>
    intro state res s1 r1 h
    simp only [number_run, Option.some.injEq, Prod.mk.injEq] at h
    obtain ⟨rfl, rfl⟩ := h
    rfl
  | cons c a ih =>
    intro state res s1 r1 h
    simp only [number_run] at h
    split at h
    · rename_i ha
      simp only [List.cons_append, number_run, ha, if_true]
      exact ih _ _ s1 r1 h
    · simp at h

theorem number_state_digit (d : Int) (hd : IsDigit d) :
    number_state d .SINT_DIGIT = .SINT_DIGIT ∧ number_state d .SINT_DIGIT19 = .SINT_DIGIT ∧
    number_state d .SDEC_POINT = .SFRAC_DIGIT ∧ number_state d .SFRAC_DIGIT = .SFRAC_DIGIT ∧
    number_state d .SE = .SE_DIGIT ∧ number_state d .SE_PLUS = .SE_DIGIT ∧
    number_state d .SE_MINUS = .SE_DIGIT ∧ number_state d .SE_DIGIT = .SE_DIGIT ∧
    toChar d = d := by
  obtain ⟨h1, h2⟩ := hd
  interval_cases d <;> exact ⟨rfl, rfl, rfl, rfl, rfl, rfl, rfl, rfl, rfl⟩

theorem number_state_digit19 (d : Int) (hd : IsDigit19 d) :
    number_state d .SSTART = .SINT_DIGIT19 ∧ number_state d .SMINUS = .SINT_DIGIT19 := by
  obtain ⟨h1, h2⟩ := hd
  interval_cases d <;> exact ⟨rfl, rfl⟩

/-- Digits keep the automaton in a digit state, and leave the classification alone. -/
theorem number_run_digits (ds : List Int) (hds : ∀ x ∈ ds, IsDigit x) (res : NumberType) :
    number_run .SINT_DIGIT res ds = some (.SINT_DIGIT, res) ∧
    number_run .SFRAC_DIGIT res ds = some (.SFRAC_DIGIT, res) ∧
    number_run .SE_DIGIT res ds = some (.SE_DIGIT, res) := by
  induction ds with
  | nil => exact ⟨rfl, rfl, rfl⟩
  | cons d ds ih =>
    obtain ⟨i1, i2, i3⟩ := ih (fun x hx => hds x (List.mem_cons_of_mem d hx))
    obtain ⟨h1, -, -, h4, -, -, -, h8, -⟩ := number_state_digit d (hds d (List.mem_cons_self d ds))
    refine ⟨?_, ?_, ?_⟩
    · simp only [number_run, h1, NumberState.appends, if_true, classify, i1]
    · simp only [number_run, h4, NumberState.appends, if_true, classify, i2]
    · simp only [number_run, h8, NumberState.appends, if_true, classify, i3]

/-- The integer part takes the automaton from START or MINUS into an integer state. -/
theorem number_run_int (w : List Int) (hw : IsIntPart w) (s0 : NumberState)
    (hs0 : s0 = .SSTART ∨ s0 = .SMINUS) (res : NumberType) :
    ∃ s1, number_run s0 res w = some (s1, res) ∧
      (s1 = .SINT_ZERO ∨ s1 = .SINT_DIGIT19 ∨ s1 = .SINT_DIGIT) := by
  rcases hw with rfl | ⟨d, ds, rfl, hd, hds⟩
  · refine ⟨.SINT_ZERO, ?_, Or.inl rfl⟩
    rcases hs0 with rfl | rfl <;> rfl
  · have h19 : number_state d s0 = .SINT_DIGIT19 := by
      rcases hs0 with rfl | rfl
      · exact (number_state_digit19 d hd).1
      · exact (number_state_digit19 d hd).2
    cases ds with
    | nil =>
      refine ⟨.SINT_DIGIT19, ?_, Or.inr (Or.inl rfl)⟩
      simp only [number_run, h19, NumberState.appends, if_true, classify]
    | cons d' ds' =>
      refine ⟨.SINT_DIGIT, ?_, Or.inr (Or.inr rfl)⟩
      have hd' := (number_state_digit d' (hds d' (List.mem_cons_self d' ds'))).2.1
      have hrest := (number_run_digits ds' (fun x hx => hds x (List.mem_cons_of_mem d' hx)) res).1
      simp only [number_run, h19, hd', NumberState.appends, if_true, classify, hrest]

/-- The fraction part takes the automaton from an integer state into FRAC_DIGIT. -/
theorem number_run_frac (w : List Int) (hw : IsFracPart w) (s1 : NumberState)
    (hs1 : s1 = .SINT_ZERO ∨ s1 = .SINT_DIGIT19 ∨ s1 = .SINT_DIGIT) (res : NumberType) :
    ∃ s2, number_run s1 res w = some (s2, if w = [] then res else .FLOAT) ∧
      (s2 = .SINT_ZERO ∨ s2 = .SINT_DIGIT19 ∨ s2 = .SINT_DIGIT ∨ s2 = .SFRAC_DIGIT) := by
  rcases hw with rfl | ⟨d, ds, rfl, hd, hds⟩
  · refine ⟨s1, rfl, ?_⟩
    tauto
  · refine ⟨.SFRAC_DIGIT, ?_, by tauto⟩
    have hp : number_state 0x2e s1 = .SDEC_POINT := by
      rcases hs1 with rfl | rfl | rfl <;> rfl
    have hd' := (number_state_digit d hd).2.2.1
    have hrest := (number_run_digits ds hds .FLOAT).2.1
    simp only [number_run, hp, hd', NumberState.appends, if_true, classify, hrest]
    simp

/-- The exponent part takes the automaton into E_DIGIT. -/
theorem number_run_exp (w : List Int) (hw : IsExpPart w) (s2 : NumberState)
    (hs2 : s2 = .SINT_ZERO ∨ s2 = .SINT_DIGIT19 ∨ s2 = .SINT_DIGIT ∨ s2 = .SFRAC_DIGIT)
    (res : NumberType) :
    ∃ s3, number_run s2 res w = some (s3, if w = [] then res else .FLOAT) ∧
      s3.completes = true := by
  rcases hw with rfl | ⟨e, sg, d, ds, rfl, he, hsg, hd, hds⟩
  · refine ⟨s2, rfl, ?_⟩
    rcases hs2 with rfl | rfl | rfl | rfl <;> rfl
  · refine ⟨.SE_DIGIT, ?_, rfl⟩
    have hE : number_state e s2 = .SE := by
      rcases he with rfl | rfl <;> rcases hs2 with rfl | rfl | rfl | rfl <;> rfl
    obtain ⟨-, -, -, -, d1, d2, d3, -, -⟩ := number_state_digit d hd
    have hrest := (number_run_digits ds hds .FLOAT).2.2
    rcases hsg with rfl | rfl | rfl
    · simp only [List.nil_append, number_run, hE, d1, NumberState.appends, if_true, classify,
        hrest]
      simp
    · have hp : number_state 0x2b .SE = .SE_PLUS := rfl
      simp only [List.cons_append, List.nil_append, number_run, hE, hp, d2,
        NumberState.appends, if_true, classify, hrest]
      simp
    · have hm : number_state 0x2d .SE = .SE_MINUS := rfl
      simp only [List.cons_append, List.nil_append, number_run, hE, hm, d3,
        NumberState.appends, if_true, classify, hrest]
      simp

/-- A JSON number takes the automaton from START into a completing state, classified FLOAT
exactly when it has a fraction or an exponent part, that is when it contains one of `.`,
`e`, `E`. -/
theorem number_run_json (w : List Int) (hw : JsonNumber w) :
    ∃ s, number_run .SSTART .INT w =
        some (s, if 0x2e ∈ w ∨ 0x65 ∈ w ∨ 0x45 ∈ w then .FLOAT else .INT) ∧
      s.completes = true := by
  obtain ⟨sign, int, frac, exp, rfl, hs, hi, hf, he⟩ := hw
  have hsign : ∃ s0, number_run .SSTART .INT sign = some (s0, .INT) ∧
      (s0 = .SSTART ∨ s0 = .SMINUS) := by
    rcases hs with rfl | rfl
    · exact ⟨.SSTART, rfl, Or.inl rfl⟩
    · exact ⟨.SMINUS, rfl, Or.inr rfl⟩
  obtain ⟨s0, r0, hs0⟩ := hsign
  obtain ⟨s1, r1, hs1⟩ := number_run_int int hi s0 hs0 .INT
  obtain ⟨s2, r2, hs2⟩ := number_run_frac frac hf s1 hs1 .INT
  obtain ⟨s3, r3, hs3⟩ := number_run_exp exp he s2 hs2 (if frac = [] then .INT else .FLOAT)
  refine ⟨s3, ?_, hs3⟩
  rw [List.append_assoc, List.append_assoc, number_run_append sign _ _ _ _ _ r0,
    number_run_append int _ _ _ _ _ r1, number_run_append frac _ _ _ _ _ r2, r3]
  have hcls : (0x2e ∈ sign ++ (int ++ (frac ++ exp)) ∨ 0x65 ∈ sign ++ (int ++ (frac ++ exp)) ∨
      0x45 ∈ sign ++ (int ++ (frac ++ exp))) ↔ (frac ≠ [] ∨ exp ≠ []) := by
    have hsc : ∀ c ∈ sign, c = 0x2d := by
      intro c hc
      rcases hs with rfl | rfl
      · simp at hc
      · simpa using hc
    have hic := intPart_chars hi
    constructor
    · intro h
      by_contra hne
      push_neg at hne
      obtain ⟨rfl, rfl⟩ := hne
      simp only [List.append_nil, List.mem_append] at h
      rcases h with (h | h) | (h | h) | (h | h)
      · have := hsc _ h
        omega
      · have := hic _ h
        omega
      · have := hsc _ h
        omega
      · have := hic _ h
        omega
      · have := hsc _ h
        omega
      · have := hic _ h
        omega
    · rintro (h | h)
      · rcases hf with rfl | ⟨d, ds, rfl, -, -⟩
        · exact absurd rfl h
        · left
          simp
      · rcases he with rfl | ⟨e, sg, d, ds, rfl, he', -, -, -⟩
        · exact absurd rfl h
        · rcases he' with rfl | rfl
          · right; left
            simp
          · right; right
            simp
  by_cases hfe : frac ≠ [] ∨ exp ≠ []
  · rw [if_pos (hcls.2 hfe)]
    rcases hfe with h | h
    · by_cases hx : exp = []
      · rw [if_pos hx, if_neg h]
      · rw [if_neg hx]
    · rw [if_neg h]
  · rw [if_neg (fun h => hfe (hcls.1 h))]
    push_neg at hfe
    rw [if_pos hfe.2, if_pos hfe.1]

/-- In a completing state a delimiter, or the value `getc` answers at the end of the
characters, ends the number. -/
theorem number_state_done (s : NumberState) (hs : s.completes = true) (t : Int)
    (ht : IsDelimiter t ∨ t = State.SEOF.toInt ∨ t = State.SBAD.toInt) :
    number_state t s = .SDONE := by
  unfold IsDelimiter at ht
  cases s <;> simp only [NumberState.completes] at hs <;>
    first
    | exact absurd hs (by decide)
    | (rcases ht with (rfl | rfl | rfl | rfl | rfl | rfl | rfl) | rfl | rfl <;> rfl)

theorem map_toChar_of_range (w : List Int) (hc : ∀ c ∈ w, 0x2b ≤ c ∧ c ≤ 0x65) :
    w.map toChar = w := by
  induction w with
  | nil => rfl
  | cons c w ih =>
    have h1 := hc c (List.mem_cons_self c w)
    rw [List.map_cons, ih (fun x hx => hc x (List.mem_cons_of_mem c hx))]
    congr 1
    unfold toChar
    omega

/-- C2: for every string `w` of fewer than 1024 characters that matches the JSON number
grammar, on a good stream that holds `w` followed by nothing more (the end of input) or by
a JSON delimiter, `validate_number` (with the 1024 byte buffer) returns normally, the buffer
holds exactly `w` and its terminating NUL, the classification is FLOAT when `w` contains one
of `.`, `e`, `E` and INT otherwise, and the stream is left in front of what follows `w`. -/
theorem validate_number_accepts (w rest : List Int) (cr : Bool)
    (b : Option (List Int × State)) (hw : JsonNumber w) (hlen : w.length < 1024)
    (hrest : rest = [] ∨ ∃ d rest', rest = d :: rest' ∧ IsDelimiter d) :
    validate_number ⟨w ++ rest, .SGOOD, cr, b⟩ 1024 =
      some (.ok (if 0x2e ∈ w ∨ 0x65 ∈ w ∨ 0x45 ∈ w then .FLOAT else .INT, w ++ [0]),
        ⟨rest, .SGOOD, cr, none⟩) := by
  obtain ⟨s, hrun, hs⟩ := number_run_json w hw
  obtain ⟨b', hb'⟩ := validate_loop_run 1024 w (1024 - w.length + 1) rest cr b .SSTART .INT []
    s _ hrun (by simpa using hlen)
  have hfuel : 1024 + 1 = 1024 - w.length + 1 + w.length := by omega
  have hmap : w.map toChar = w := map_toChar_of_range w (jsonNumber_chars hw)
  unfold validate_number
  rw [hfuel, hb', List.nil_append, hmap]
  rcases hrest with rfl | ⟨d, rest', rfl, hd⟩
  · rw [validate_loop_done]
    · cases cr <;> rfl
    · cases cr
      · exact number_state_done s hs _ (Or.inr (Or.inl rfl))
      · exact number_state_done s hs _ (Or.inr (Or.inr rfl))
  · rw [validate_loop_done]
    · rfl
    · exact number_state_done s hs d (Or.inl hd)

/-- C2 at concrete inputs: `-12.5e+7` followed by a comma. -/
theorem validate_number_accepts_witness :
    validate_number
        (Utf8Stream.ofList ([0x2d, 0x31, 0x32, 0x2e, 0x35, 0x65, 0x2b, 0x37] ++ [0x2c])) 1024 =
      some (.ok (.FLOAT, [0x2d, 0x31, 0x32, 0x2e, 0x35, 0x65, 0x2b, 0x37] ++ [0]),
        ⟨[0x2c], .SGOOD, false, none⟩) :=
  (validate_number_accepts [0x2d, 0x31, 0x32, 0x2e, 0x35, 0x65, 0x2b, 0x37] [0x2c] false none
    ⟨[0x2d], [0x31, 0x32], [0x2e, 0x35], [0x65, 0x2b, 0x37], rfl, Or.inr rfl,
      Or.inr ⟨0x31, [0x32], rfl, by decide, by decide⟩,
      Or.inr ⟨0x35, [], rfl, by decide, by decide⟩,
      Or.inr ⟨0x65, [0x2b], 0x37, [], rfl, Or.inl rfl, Or.inr (Or.inl rfl), by decide,
        by decide⟩⟩
    (by decide) (Or.inr ⟨0x2c, [], rfl, by decide⟩)).trans rfl

/-! ### C17 -/

/-- On a character whose `char` value is neither NUL nor in a match string of a row, the
loop of `number_state` over the row stops at its first null entry. -/
theorem number_state_row_unlisted (c : Int) (h0 : toChar c ≠ 0) :
    ∀ (row : List (Option (List Int) × NumberState)),
      (∀ m st, (some m, st) ∈ row → toChar c ∉ m) →
      number_state_row row c =
        match row.find? (fun e => e.1.isNone) with
        | some e => e.2
        | none => .SERROR := by
  intro row
  induction row with
  | nil => intro _; rfl
  | cons e row ih =>
    intro hl
    obtain ⟨m, st⟩ := e
    cases m with
    | none => rfl
    | some m =>
      have hm : strchr m c = false := by
        have := hl m st (List.mem_cons_self _ _)
        simp [strchr, h0, this]
      simp only [number_state_row, hm, List.find?, Option.isNone]
      exact ih (fun m' st' h => hl m' st' (List.mem_cons_of_mem _ h))

/-- On a character whose `char` value is neither NUL nor in a match string of the row of
`s`, the automaton goes to DONE from a completing state and to ERROR from the other
non-terminal states. -/
theorem number_state_unlisted (c : Int) (s : NumberState) (h0 : toChar c ≠ 0)
    (hl : ∀ m st, (some m, st) ∈ transitions s → toChar c ∉ m) :
    number_state c s = if s.completes then .SDONE else .SERROR := by
  unfold number_state
  rw [number_state_row_unlisted c h0 _ hl]
  cases s <;> rfl

/-- C17, at failing inputs: the character value 0 is in none of the character classes of
the table, yet `number_state(0, s)` takes the first entry of the row of every non-terminal
state `s`, since `strchr` finds 0 in the terminator of the match string: from START it goes
to MINUS, from the completing states to E (or stays in E_DIGIT), never to DONE or ERROR. A
value outside the range of `char` is looked up as the `char` it converts to: 0x130 is taken
for the digit `0`. -/
theorem number_state_nul :
    number_state 0 .SSTART = .SMINUS ∧ number_state 0 .SMINUS = .SINT_ZERO ∧
      number_state 0 .SINT_ZERO = .SE ∧ number_state 0 .SINT_DIGIT = .SE ∧
      number_state 0 .SINT_DIGIT19 = .SE ∧ number_state 0 .SDEC_POINT = .SE ∧
      number_state 0 .SFRAC_DIGIT = .SE ∧ number_state 0 .SE = .SE_MINUS ∧
      number_state 0 .SE_PLUS = .SE_DIGIT ∧ number_state 0 .SE_MINUS = .SE_DIGIT ∧
      number_state 0 .SE_DIGIT = .SE_DIGIT ∧
      (0 : Int) ∉ DIGIT ++ [0x2d, 0x2b, 0x2e, 0x65, 0x45] ∧
      number_state 0x130 .SSTART = .SINT_ZERO ∧
      (0x130 : Int) ∉ DIGIT ++ [0x2d, 0x2b, 0x2e, 0x65, 0x45] := by
  refine ⟨rfl, rfl, rfl, rfl, rfl, rfl, rfl, rfl, rfl, rfl, rfl, by decide, rfl, by decide⟩

/-! ### C20 -/

/-- One iteration of the loop of `validate_number`: it appends a character (and throws
when the buffer is full), or returns on DONE, or throws on ERROR. -/
theorem validate_loop_step (size fuel : Nat) (s : Utf8Stream) (st : NumberState)
    (res : NumberType) (buf : List Int) :
    ((number_state s.getc.1 st).appends = true ∧
      validate_loop size (fuel + 1) s st res buf =
        if (buf ++ [toChar s.getc.1]).length = size then
          some (.error .NUMBER_OVERFLOW, s.getc.2)
        else
          validate_loop size fuel s.getc.2 (number_state s.getc.1 st)
            (classify res (number_state s.getc.1 st)) (buf ++ [toChar s.getc.1])) ∨
    (number_state s.getc.1 st = .SDONE ∧
      validate_loop size (fuel + 1) s st res buf =
        some (.ok (res, buf ++ [0]), s.getc.2.ungetc)) ∨
    (number_state s.getc.1 st = .SERROR ∧
      validate_loop size (fuel + 1) s st res buf = some (.error .NUMBER_INVALID, s.getc.2)) := by
  have hne := number_state_ne_start s.getc.1 st
  rw [validate_loop]
  simp only
  cases hn : number_state s.getc.1 st <;>
    first
    | exact absurd hn hne
    | exact Or.inl ⟨rfl, rfl⟩
    | exact Or.inr (Or.inl ⟨rfl, rfl⟩)
    | exact Or.inr (Or.inr ⟨rfl, rfl⟩)

/-- The loop of `validate_number` ends within the room left in the buffer: it reads at
most as many characters as the buffer has free cells, and leaves the stream after the
characters read, the last one pushed back on a normal return. -/
theorem validate_loop_reads (size : Nat) :
    ∀ (fuel : Nat) (s : Utf8Stream) (st : NumberState) (res : NumberType) (buf : List Int),
      buf.length < size → size ≤ fuel + buf.length →
      ∃ r k, validate_loop size fuel s st res buf = some r ∧ 1 ≤ k ∧ k + buf.length ≤ size ∧
        (r.2 = s.getcs k ∨ r.2 = (s.getcs k).ungetc) := by
  intro fuel
  induction fuel with
  | zero =>
    intro s st res buf h1 h2
    omega
  | succ fuel ih =>
    intro s st res buf h1 h2
    rcases validate_loop_step size fuel s st res buf with ⟨-, h⟩ | ⟨-, h⟩ | ⟨-, h⟩
    · rw [h]
      by_cases hl : (buf ++ [toChar s.getc.1]).length = size
      · rw [if_pos hl]
        exact ⟨_, 1, rfl, Nat.le_refl 1, by omega, Or.inl rfl⟩
      · rw [if_neg hl]
        have h3 : (buf ++ [toChar s.getc.1]).length < size := by
          simp only [List.length_append, List.length_cons, List.length_nil] at hl ⊢
          omega
        have h4 : size ≤ fuel + (buf ++ [toChar s.getc.1]).length := by
          simp only [List.length_append, List.length_cons, List.length_nil]
          omega
        obtain ⟨r, k, hr, hk1, hk2, hk3⟩ := ih s.getc.2 _ _ _ h3 h4
        refine ⟨r, k + 1, hr, by omega, ?_, ?_⟩
        · simp only [List.length_append, List.length_cons, List.length_nil] at hk2
          omega
        · exact hk3
    · exact ⟨_, 1, h, Nat.le_refl 1, by omega, Or.inr rfl⟩
    · exact ⟨_, 1, h, Nat.le_refl 1, by omega, Or.inl rfl⟩

/-- More fuel does not change what the loop of `validate_number` answers. -/
theorem validate_loop_fuel (size : Nat) :
    ∀ (fuel : Nat) (s : Utf8Stream) (st : NumberState) (res : NumberType) (buf : List Int)
      (r : Except ErrorKind (NumberType × List Int) × Utf8Stream),
      validate_loop size fuel s st res buf = some r →
      ∀ fuel', fuel ≤ fuel' → validate_loop size fuel' s st res buf = some r := by
  intro fuel
  induction fuel with
  | zero =>
    intro s st res buf r h
    simp [validate_loop] at h
  | succ fuel ih =>
    intro s st res buf r h fuel' hle
    obtain ⟨f, rfl⟩ : ∃ f, fuel' = f + 1 := ⟨fuel' - 1, by omega⟩
    rcases validate_loop_step size fuel s st res buf with ⟨ha, h1⟩ | ⟨hd, h1⟩ | ⟨he, h1⟩
    · rcases validate_loop_step size f s st res buf with ⟨-, h2⟩ | ⟨hd, -⟩ | ⟨he, -⟩
      · rw [h2]
        rw [h1] at h
        by_cases hl : (buf ++ [toChar s.getc.1]).length = size
        · rw [if_pos hl] at h ⊢
          exact h
        · rw [if_neg hl] at h ⊢
          exact ih _ _ _ _ r h f (by omega)
      · rw [hd] at ha
        exact absurd ha (by decide)
      · rw [he] at ha
        exact absurd ha (by decide)
    · rw [h1] at h
      rw [← h, validate_loop_done size f s st res buf hd]
    · rw [h1] at h
      rw [← h, validate_loop]
      simp only [he]

/-- What the loop of `validate_number` answers, the stream apart, depends only on the
characters that fit into the room left in the buffer. -/
theorem validate_loop_front (size : Nat) (pre : List Int) :
    ∀ (fuel : Nat) (rest rest' : List Int) (cr cr' : Bool) (b b' : Option (List Int × State))
      (st : NumberState) (res : NumberType) (buf : List Int),
      buf.length < size → size ≤ buf.length + pre.length →
      (validate_loop size fuel ⟨pre ++ rest, .SGOOD, cr, b⟩ st res buf).map Prod.fst =
        (validate_loop size fuel ⟨pre ++ rest', .SGOOD, cr', b'⟩ st res buf).map Prod.fst := by
  induction pre with
  | nil =>
    intro fuel rest rest' cr cr' b b' st res buf h1 h2
    simp only [List.length_nil] at h2
    omega
  | cons c pre ih =>
    intro fuel rest rest' cr cr' b b' st res buf h1 h2
    cases fuel with
    | zero => rfl
    | succ fuel =>
      rw [validate_loop, validate_loop]
      simp only [List.cons_append, getc_good_cons]
      have hne := number_state_ne_start c st
      by_cases hl : (buf ++ [toChar c]).length = size
      · cases hn : number_state c st <;> simp only [hl, if_true] <;>
          first
          | exact absurd hn hne
          | rfl
      · have h3 : (buf ++ [toChar c]).length < size := by
          simp only [List.length_append, List.length_cons, List.length_nil] at hl ⊢
          omega
        have h4 : size ≤ (buf ++ [toChar c]).length + pre.length := by
          simp only [List.length_append, List.length_cons, List.length_nil] at h2 ⊢
          omega
        cases hn : number_state c st <;> simp only [hl, if_false] <;>
          first
          | exact absurd hn hne
          | rfl
          | exact ih fuel rest rest' cr cr' _ _ _ _ _ h3 h4

/-- C20: for every stream, `validate_number` with the 1024 byte buffer returns or throws,
with any fuel of at least 1024 iterations the loop gives the same answer, and it has read
`k` characters, `1 ≤ k ≤ 1024` (on a normal return the last one is pushed back). The
automaton never enters START again, and every iteration either appends one character (or
throws `NUMBER_OVERFLOW` when that fills the buffer), returns on DONE, or throws on ERROR. The
answer depends on the first 1024 characters only, whatever follows them, be it endless. -/
theorem validate_number_terminates (s : Utf8Stream) (fuel : Nat) (hfuel : 1024 ≤ fuel) :
    (∃ r k, validate_number s 1024 = some r ∧
        validate_loop 1024 fuel s .SSTART .INT [] = some r ∧ 1 ≤ k ∧ k ≤ 1024 ∧
        (r.2 = s.getcs k ∨ r.2 = (s.getcs k).ungetc)) ∧
    (∀ (c : Int) (st : NumberState), number_state c st ≠ .SSTART) ∧
    (∀ (f : Nat) (st : NumberState) (res : NumberType) (buf : List Int),
      ((number_state s.getc.1 st).appends = true ∧
        validate_loop 1024 (f + 1) s st res buf =
          if (buf ++ [toChar s.getc.1]).length = 1024 then
            some (.error .NUMBER_OVERFLOW, s.getc.2)
          else
            validate_loop 1024 f s.getc.2 (number_state s.getc.1 st)
              (classify res (number_state s.getc.1 st)) (buf ++ [toChar s.getc.1])) ∨
      (number_state s.getc.1 st = .SDONE ∧
        validate_loop 1024 (f + 1) s st res buf =
          some (.ok (res, buf ++ [0]), s.getc.2.ungetc)) ∨
      (number_state s.getc.1 st = .SERROR ∧
        validate_loop 1024 (f + 1) s st res buf =
          some (.error .NUMBER_INVALID, s.getc.2))) ∧
    (∀ (pre rest rest' : List Int) (cr cr' : Bool) (b b' : Option (List Int × State)),
      pre.length = 1024 →
      (validate_number ⟨pre ++ rest, .SGOOD, cr, b⟩ 1024).map Prod.fst =
        (validate_number ⟨pre ++ rest', .SGOOD, cr', b'⟩ 1024).map Prod.fst) := by
  refine ⟨?_, number_state_ne_start, fun f st res buf => validate_loop_step 1024 f s st res buf,
    ?_⟩
  · obtain ⟨r, k, hr, hk1, hk2, hk3⟩ :=
      validate_loop_reads 1024 1024 s .SSTART .INT [] (by decide) (by decide)
    refine ⟨r, k, validate_loop_fuel 1024 1024 s _ _ _ r hr (1024 + 1) (by decide),
      validate_loop_fuel 1024 1024 s _ _ _ r hr fuel hfuel, hk1, by simpa using hk2, hk3⟩
  · intro pre rest rest' cr cr' b b' hpre
    exact validate_loop_front 1024 pre (1024 + 1) rest rest' cr cr' b b' .SSTART .INT []
      (by decide) (by simp [hpre])

/-- C20 at a concrete stream: the characters `12,`. -/
theorem validate_number_terminates_witness :
    ∃ r k, validate_number (Utf8Stream.ofList [0x31, 0x32, 0x2c]) 1024 = some r ∧
      validate_loop 1024 1024 (Utf8Stream.ofList [0x31, 0x32, 0x2c]) .SSTART .INT [] = some r ∧
      1 ≤ k ∧ k ≤ 1024 ∧
      (r.2 = (Utf8Stream.ofList [0x31, 0x32, 0x2c]).getcs k ∨
        r.2 = ((Utf8Stream.ofList [0x31, 0x32, 0x2c]).getcs k).ungetc) :=
  (validate_number_terminates (Utf8Stream.ofList [0x31, 0x32, 0x2c]) 1024 (by decide)).1

/-! ### C15 -/

theorem number_run_split (a b : List Int) :
    ∀ (state : NumberState) (res : NumberType) (x : NumberState × NumberType),
      number_run state res (a ++ b) = some x →
      ∃ y, number_run state res a = some y ∧ number_run y.1 y.2 b = some x := by
  induction a with
  | nil =>
    intro state res x h
    exact ⟨(state, res), rfl, h⟩
  | cons c a ih =>
    intro state res x h
    simp only [List.cons_append, number_run] at h ⊢
    split at h
    · rename_i ha
      rw [if_pos ha]
      exact ih _ _ x h
    · simp at h

/-- The iteration of the loop of `validate_number` that fills the last cell of the
buffer throws `NUMBER_OVERFLOW`. -/
theorem validate_loop_overflow (size fuel : Nat) (c : Int) (rest : List Int) (cr : Bool)
    (b : Option (List Int × State)) (state : NumberState) (res : NumberType) (buf : List Int)
    (ha : (number_state c state).appends = true) (hsz : buf.length + 1 = size) :
    validate_loop size (fuel + 1) ⟨c :: rest, .SGOOD, cr, b⟩ state res buf =
      some (.error .NUMBER_OVERFLOW, ⟨rest, .SGOOD, cr, some (c :: rest, .SGOOD)⟩) := by
  rcases validate_loop_step size fuel ⟨c :: rest, .SGOOD, cr, b⟩ state res buf with
    ⟨-, h⟩ | ⟨hd, -⟩ | ⟨he, -⟩
  · rw [h, if_pos (by simpa using hsz)]
    rfl
  · rw [getc_good_cons] at hd
    rw [hd] at ha
    exact absurd ha (by decide)
  · rw [getc_good_cons] at he
    rw [he] at ha
    exact absurd ha (by decide)

/-- On a normal return of the loop of `validate_number` the cells written, the
terminator included, fit the buffer. -/
theorem validate_loop_cells (size : Nat) :
    ∀ (fuel : Nat) (s : Utf8Stream) (st : NumberState) (res : NumberType) (buf : List Int)
      (res' : NumberType) (cells : List Int) (s' : Utf8Stream),
      buf.length < size → validate_loop size fuel s st res buf = some (.ok (res', cells), s') →
      cells.length ≤ size := by
  intro fuel
  induction fuel with
  | zero =>
    intro s st res buf res' cells s' _ h
    simp [validate_loop] at h
  | succ fuel ih =>
    intro s st res buf res' cells s' h1 h
    rcases validate_loop_step size fuel s st res buf with ⟨-, h2⟩ | ⟨-, h2⟩ | ⟨-, h2⟩
    · rw [h2] at h
      by_cases hl : (buf ++ [toChar s.getc.1]).length = size
      · rw [if_pos hl] at h
        simp at h
      · rw [if_neg hl] at h
        refine ih _ _ _ _ res' cells s' ?_ h
        simp only [List.length_append, List.length_cons, List.length_nil] at hl ⊢
        omega
    · rw [h2] at h
      simp only [Option.some.injEq, Prod.mk.injEq, Except.ok.injEq] at h
      obtain ⟨⟨-, rfl⟩, -⟩ := h
      simp only [List.length_append, List.length_cons, List.length_nil]
      omega
    · rw [h2] at h
      simp at h

/-- A run of the automaton of at most 1023 characters, followed by what takes its state
to DONE, is accepted with the buffer holding the characters and the terminator. -/
theorem validate_number_short (w : List Int) (s : NumberState) (r : NumberType)
    (hrun : number_run .SSTART .INT w = some (s, r)) (hlen : w.length ≤ 1023)
    (rest : List Int) (cr : Bool) (b : Option (List Int × State))
    (hdone : number_state (Utf8Stream.getc ⟨rest, .SGOOD, cr, none⟩).1 s = .SDONE) :
    validate_number ⟨w ++ rest, .SGOOD, cr, b⟩ 1024 =
      some (.ok (r, w.map toChar ++ [0]), ⟨rest, .SGOOD, cr, none⟩) := by
  obtain ⟨b', hb'⟩ := validate_loop_run 1024 w (1024 - w.length + 1) rest cr b .SSTART .INT []
    s r hrun (by simp only [List.length_nil]; omega)
  have hfuel : 1024 + 1 = 1024 - w.length + 1 + w.length := by omega
  unfold validate_number
  rw [hfuel, hb', List.nil_append, validate_loop_done]
  · cases rest <;> cases cr <;> rfl
  · have : (Utf8Stream.getc ⟨rest, .SGOOD, cr, b'⟩).1 =
        (Utf8Stream.getc ⟨rest, .SGOOD, cr, none⟩).1 := by
      cases rest <;> cases cr <;> rfl
    rw [this]
    exact hdone

/-- A run of the automaton of 1024 characters or more overflows the buffer at its 1024th
character. -/
theorem validate_number_long (w : List Int) (s : NumberState) (r : NumberType)
    (hrun : number_run .SSTART .INT w = some (s, r)) (hlen : 1024 ≤ w.length)
    (rest : List Int) (cr : Bool) (b : Option (List Int × State)) :
    ∃ b', validate_number ⟨w ++ rest, .SGOOD, cr, b⟩ 1024 =
      some (.error .NUMBER_OVERFLOW, ⟨w.drop 1024 ++ rest, .SGOOD, cr, b'⟩) := by
  have hw : w = w.take 1023 ++ w.drop 1023 := (List.take_append_drop 1023 w).symm
  have htl : (w.take 1023).length = 1023 := by
    rw [List.length_take]
    omega
  rw [hw] at hrun
  obtain ⟨⟨s1, r1⟩, h1, h2⟩ := number_run_split _ _ _ _ _ hrun
  cases hd : w.drop 1023 with
  | nil =>
    have := congrArg List.length hd
    simp only [List.length_drop, List.length_nil] at this
    omega
  | cons c tl =>
    rw [hd] at h2
    simp only [number_run] at h2
    have ha : (number_state c s1).appends = true := by
      by_contra hna
      rw [if_neg hna] at h2
      simp at h2
    obtain ⟨b1, hb1⟩ := validate_loop_run 1024 (w.take 1023) (1 + 1) (c :: tl ++ rest) cr b
      .SSTART .INT [] s1 r1 h1 (by simp only [List.length_nil]; omega)
    have hin : w ++ rest = w.take 1023 ++ (c :: tl ++ rest) := by
      rw [← List.append_assoc, ← hd, List.take_append_drop]
    have hfuel : 1024 + 1 = 1 + 1 + (w.take 1023).length := by omega
    have hdrop : w.drop 1024 = tl := by
      have : w.drop 1024 = (w.drop 1023).drop 1 := by
        rw [List.drop_drop]
      rw [this, hd]
      rfl
    unfold validate_number
    rw [hin, hfuel, hb1, List.cons_append,
      validate_loop_overflow 1024 1 c (tl ++ rest) cr b1 s1 r1 _ ha
        (by simp only [List.nil_append, List.length_map]; omega), hdrop]
    exact ⟨_, rfl⟩

/-- A run of digits `1`. -/
theorem number_run_ones (n : Nat) :
    ∃ s, number_run .SSTART .INT (List.replicate (n + 1) 0x31) = some (s, .INT) ∧
      s.completes = true ∧ (List.replicate (n + 1) (0x31 : Int)).map toChar =
        List.replicate (n + 1) 0x31 := by
  have hi : IsIntPart (List.replicate (n + 1) 0x31) :=
    Or.inr ⟨0x31, List.replicate n 0x31, rfl, by decide, fun x hx => by
      rw [List.eq_of_mem_replicate hx]
      decide⟩
  obtain ⟨s, hs, hc⟩ := number_run_int _ hi .SSTART (Or.inl rfl) .INT
  refine ⟨s, hs, ?_, ?_⟩
  · rcases hc with rfl | rfl | rfl <;> rfl
  · exact map_toChar_of_range _ (fun c hc => by
      rw [List.eq_of_mem_replicate hc]
      decide)

/-- C15: with the 1024 byte buffer, for every input that starts with characters `w` which
the automaton appends one after the other: when `w` has at most 1023 characters and is
followed by what ends the number, `validate_number` returns normally and has written `w` and
the terminating NUL, at most 1024 cells; when `w` has 1024 characters or more it throws
`NUMBER_OVERFLOW`, which is not `NUMBER_INVALID`, having read exactly 1024 characters, one per
cell written. On every normal return, for every input, the cells written fit the buffer.
So 1023 digits `1` are accepted and 1024 digits `1` overflow. -/
theorem number_overflow (w : List Int) (s : NumberState) (r : NumberType)
    (hrun : number_run .SSTART .INT w = some (s, r))
    (rest : List Int) (cr : Bool) (b : Option (List Int × State)) :
    (w.length ≤ 1023 → number_state (Utf8Stream.getc ⟨rest, .SGOOD, cr, none⟩).1 s = .SDONE →
      validate_number ⟨w ++ rest, .SGOOD, cr, b⟩ 1024 =
          some (.ok (r, w.map toChar ++ [0]), ⟨rest, .SGOOD, cr, none⟩) ∧
        (w.map toChar ++ [0]).length ≤ 1024) ∧
    (1024 ≤ w.length →
      ∃ b', validate_number ⟨w ++ rest, .SGOOD, cr, b⟩ 1024 =
        some (.error .NUMBER_OVERFLOW, ⟨w.drop 1024 ++ rest, .SGOOD, cr, b'⟩)) ∧
    (∀ (st st' : Utf8Stream) (res : NumberType) (cells : List Int),
      validate_number st 1024 = some (.ok (res, cells), st') → cells.length ≤ 1024) ∧
    ErrorKind.NUMBER_OVERFLOW ≠ ErrorKind.NUMBER_INVALID ∧
    validate_number (Utf8Stream.ofList (List.replicate 1023 0x31)) 1024 =
      some (.ok (.INT, List.replicate 1023 0x31 ++ [0]), Utf8Stream.ofList []) ∧
    (∃ b', validate_number (Utf8Stream.ofList (List.replicate 1024 0x31)) 1024 =
      some (.error .NUMBER_OVERFLOW, ⟨[], .SGOOD, false, b'⟩)) := by
  refine ⟨fun hlen hdone => ⟨validate_number_short w s r hrun hlen rest cr b hdone, ?_⟩,
    fun hlen => validate_number_long w s r hrun hlen rest cr b,
    fun st st' res cells h => validate_loop_cells 1024 _ st _ _ _ res cells st' (by decide) h,
    by decide, ?_, ?_⟩
  · simp only [List.length_append, List.length_map, List.length_cons, List.length_nil]
    omega
  · obtain ⟨s1, h1, hc, hm⟩ := number_run_ones 1022
    have h := validate_number_short (List.replicate 1023 0x31) s1 .INT h1
      (by rw [List.length_replicate]) [] false
      none (number_state_done s1 hc _ (Or.inr (Or.inl rfl)))
    rw [hm, List.append_nil] at h
    exact h
  · obtain ⟨s1, h1, -, -⟩ := number_run_ones 1023
    obtain ⟨b', h⟩ := validate_number_long (List.replicate 1024 0x31) s1 .INT h1
      (by rw [List.length_replicate]) [] false none
    have hdrop : List.drop 1024 (List.replicate 1024 (0x31 : Int)) = [] :=
      List.drop_eq_nil_of_le (by rw [List.length_replicate])
    refine ⟨b', ?_⟩
    rw [hdrop, List.append_nil, List.append_nil] at h
    exact h

/-- C15 at a concrete input: the digit `1` followed by a comma. -/
theorem number_overflow_witness :
    validate_number ⟨[0x31] ++ [0x2c], .SGOOD, false, none⟩ 1024 =
        some (.ok (.INT, [0x31].map toChar ++ [0]), ⟨[0x2c], .SGOOD, false, none⟩) ∧
      ([0x31].map toChar ++ [0]).length ≤ 1024 :=
  (number_overflow [0x31] .SINT_DIGIT19 .INT rfl [0x2c] false none).1 (by decide) rfl

/-! ### C11 -/

/-- A `scan()` whose first character is a minus sign or a digit pushes it back, marks the
token as a number and calls `scan_number`; an error of `scan_number` leaves a bad stream
and a reset token. -/
theorem scan_digit (strtold : List Int → Conv ℚ) (c : Int) (rest : List Int) (cr : Bool)
    (b : Option (List Int × State)) (tok : Token) (hc : c = 0x2d ∨ IsDigit c) :
    scan strtold { stream_ := ⟨c :: rest, .SGOOD, cr, b⟩, token := tok } =
      match scan_number strtold
          { stream_ := ⟨c :: rest, .SGOOD, cr, none⟩,
            token := { Token.reset with type := .ofInt 0x30 } } with
      | none => none
      | some (.ok (), ts) => some (.ok (), ts)
      | some (.error e, ts) =>
        some (.error e, { stream_ := ts.stream_.bad, token := Token.reset }) := by
  rcases hc with rfl | ⟨h1, h2⟩
  · rfl
  · interval_cases c <;> rfl

/-- The classification the loop of `validate_number` returns is the one it was entered
with, or FLOAT. -/
theorem validate_loop_class (size : Nat) :
    ∀ (fuel : Nat) (s : Utf8Stream) (st : NumberState) (res : NumberType) (buf : List Int)
      (res' : NumberType) (cells : List Int) (s' : Utf8Stream),
      validate_loop size fuel s st res buf = some (.ok (res', cells), s') →
      res' = res ∨ res' = .FLOAT := by
  intro fuel
  induction fuel with
  | zero =>
    intro s st res buf res' cells s' h
    simp [validate_loop] at h
  | succ fuel ih =>
    intro s st res buf res' cells s' h
    rcases validate_loop_step size fuel s st res buf with ⟨-, h2⟩ | ⟨-, h2⟩ | ⟨-, h2⟩
    · rw [h2] at h
      by_cases hl : (buf ++ [toChar s.getc.1]).length = size
      · rw [if_pos hl] at h
        simp at h
      · rw [if_neg hl] at h
        rcases ih _ _ _ _ res' cells s' h with h3 | h3
        · rw [h3]
          cases number_state s.getc.1 st <;> simp [classify]
        · exact Or.inr h3
    · rw [h2] at h
      simp only [Option.some.injEq, Prod.mk.injEq, Except.ok.injEq] at h
      exact Or.inl h.1.1.symm
    · rw [h2] at h
      simp at h

/-- A `scan_number()` that returns leaves the kind marker of the token as it was. -/
theorem scan_number_type (strtold : List Int → Conv ℚ) (ts ts' : TokenStream)
    (h : scan_number strtold ts = some (.ok (), ts')) : ts'.token.type = ts.token.type := by
  unfold scan_number at h
  split at h
  · simp at h
  · simp at h
  · rename_i nt buf stream hv
    have hcls := validate_loop_class 1024 _ _ _ _ _ nt buf stream hv
    cases nt with
    | INT =>
      simp only at h
      split at h
      · simp at h
      · simp only [Option.some.injEq, Prod.mk.injEq, true_and] at h
        rw [← h]
    | FLOAT =>
      simp only at h
      split at h
      · simp at h
      · simp only [Option.some.injEq, Prod.mk.injEq, true_and] at h
        rw [← h]
    | NONE => simp at hcls

/-- C11, as stated, fails: the first thirteen calls of `scan()` on
`{"a":1,"b":[true,null]}` return the tokens `{`, string `a`, `:`, number, `,`, string
`b`, `:`, `[`, true, `,`, null, `]`, `}`: the tenth token is the comma between `true` and
`null`, not null, and the thirteenth is `}`, not the end of input. -/
theorem scan_example_has_comma :
    scan_many strtold0 13 (init (Utf8Stream.ofList
        [0x7b, 0x22, 0x61, 0x22, 0x3a, 0x31, 0x2c, 0x22, 0x62, 0x22, 0x3a, 0x5b, 0x74, 0x72,
          0x75, 0x65, 0x2c, 0x6e, 0x75, 0x6c, 0x6c, 0x5d, 0x7d])) =
      some ([(.ok (), { Token.reset with type := .ofInt 0x7b }),
             (.ok (), { Token.reset with type := .ofInt 0x22, str_value := [0x61] }),
             (.ok (), { Token.reset with type := .ofInt 0x3a }),
             (.ok (), { Token.reset with type := .ofInt 0x30, number_type := .INT,
                                          int_value := 1 }),
             (.ok (), { Token.reset with type := .ofInt 0x2c }),
             (.ok (), { Token.reset with type := .ofInt 0x22, str_value := [0x62] }),
             (.ok (), { Token.reset with type := .ofInt 0x3a }),
             (.ok (), { Token.reset with type := .ofInt 0x5b }),
             (.ok (), { Token.reset with type := .ofInt 0x74 }),
             (.ok (), { Token.reset with type := .ofInt 0x2c }),
             (.ok (), { Token.reset with type := .ofInt 0x6e }),
             (.ok (), { Token.reset with type := .ofInt 0x5d }),
             (.ok (), { Token.reset with type := .ofInt 0x7d })],
            { stream_ := ⟨[], .SGOOD, false, some ([0x7d], .SGOOD)⟩,
              token := { Token.reset with type := .ofInt 0x7d } }) := by
  rfl

/-- C11, amended: fourteen calls of `scan()` on `{"a":1,"b":[true,null]}` return without
error, in this order, the tokens `{`, string `a`, `:`, number (marker `0`, INT, value 1),
`,`, string `b`, `:`, `[`, true, `,`, null, `]`, `}`, end of input. And every `scan()`
that starts at a minus sign or a digit and returns leaves a token with the one number
marker `0`; `select_scanner` sets it whatever the sign or the leading digit. -/
theorem scan_example_tokens (strtold : List Int → Conv ℚ) (c : Int) (rest : List Int)
    (cr : Bool) (b : Option (List Int × State)) (tok : Token) (ts' : TokenStream)
    (hc : c = 0x2d ∨ IsDigit c)
    (hscan : scan strtold { stream_ := ⟨c :: rest, .SGOOD, cr, b⟩, token := tok } =
      some (.ok (), ts')) :
    scan_many strtold 14 (init (Utf8Stream.ofList
        [0x7b, 0x22, 0x61, 0x22, 0x3a, 0x31, 0x2c, 0x22, 0x62, 0x22, 0x3a, 0x5b, 0x74, 0x72,
          0x75, 0x65, 0x2c, 0x6e, 0x75, 0x6c, 0x6c, 0x5d, 0x7d])) =
      some ([(.ok (), { Token.reset with type := .ofInt 0x7b }),
             (.ok (), { Token.reset with type := .ofInt 0x22, str_value := [0x61] }),
             (.ok (), { Token.reset with type := .ofInt 0x3a }),
             (.ok (), { Token.reset with type := .ofInt 0x30, number_type := .INT,
                                          int_value := 1 }),
             (.ok (), { Token.reset with type := .ofInt 0x2c }),
             (.ok (), { Token.reset with type := .ofInt 0x22, str_value := [0x62] }),
             (.ok (), { Token.reset with type := .ofInt 0x3a }),
             (.ok (), { Token.reset with type := .ofInt 0x5b }),
             (.ok (), { Token.reset with type := .ofInt 0x74 }),
             (.ok (), { Token.reset with type := .ofInt 0x2c }),
             (.ok (), { Token.reset with type := .ofInt 0x6e }),
             (.ok (), { Token.reset with type := .ofInt 0x5d }),
             (.ok (), { Token.reset with type := .ofInt 0x7d }),
             (.ok (), { Token.reset with type := .ofInt State.SEOF.toInt })],
            { stream_ := ⟨[], .SEOF, false, some ([], .SGOOD)⟩,
              token := { Token.reset with type := .ofInt State.SEOF.toInt } }) ∧
    ts'.token.type = .ofInt 0x30 ∧
    (∀ ts : TokenStream, (ts.select_scanner c).1 = .ok .scan_number ∧
      (ts.select_scanner c).2.token.type = .ofInt 0x30) := by
  refine ⟨rfl, ?_, fun ts => ?_⟩
  · rw [scan_digit strtold c rest cr b tok hc] at hscan
    cases hn : scan_number strtold
        { stream_ := ⟨c :: rest, .SGOOD, cr, none⟩,
          token := { Token.reset with type := .ofInt 0x30 } } with
    | none => simp [hn] at hscan
    | some r =>
      obtain ⟨r1, ts1⟩ := r
      cases r1 with
      | error e => simp [hn] at hscan
      | ok u =>
        simp only [hn, Option.some.injEq, Prod.mk.injEq, true_and] at hscan
        rw [← hscan]
        exact scan_number_type strtold _ ts1 hn
  · rcases hc with rfl | ⟨h1, h2⟩
    · exact ⟨rfl, rfl⟩
    · interval_cases c <;> exact ⟨rfl, rfl⟩

/-- C11, amended, at a concrete input: the text `-7`. -/
theorem scan_example_tokens_witness :
    scan strtold0 { stream_ := ⟨0x2d :: [0x37], .SGOOD, false, none⟩, token := Token.reset } =
        some (.ok (), { stream_ := ⟨[], .SGOOD, false, none⟩,
                        token := { Token.reset with type := .ofInt 0x30, number_type := .INT,
                                                     int_value := -7 } }) ∧
      ({ stream_ := ⟨[], .SGOOD, false, none⟩,
         token := { Token.reset with type := .ofInt 0x30, number_type := .INT,
                                      int_value := -7 } } : TokenStream).token.type =
        .ofInt 0x30 :=
  ⟨rfl,
    (scan_example_tokens strtold0 0x2d [0x37] false none Token.reset _ (Or.inl rfl) rfl).2.1⟩

/-! ### C19 -/

theorem decimal_foldl (ds : List Int) (acc : Int) :
    ds.foldl (fun a d => a * 10 + (d - 0x30)) acc = acc * 10 ^ ds.length + decimalValue ds := by
  induction ds generalizing acc with
  | nil => simp [decimalValue]
  | cons d ds ih =>
    rw [List.foldl_cons, ih, decimalValue, List.length_cons, pow_succ]
    ring

/-- The value `strtoll` accumulates is the positional decimal value. -/
theorem decimal_eq (ds : List Int) : decimal ds = decimalValue ds := by
  unfold decimal
  rw [decimal_foldl]
  simp

theorem takeWhile_isdigit (ds : List Int) (h : ∀ x ∈ ds, IsDigit x) :
    ds.takeWhile isdigit = ds := by
  induction ds with
  | nil => rfl
  | cons d ds ih =>
    have hd := h d (List.mem_cons_self d ds)
    have : isdigit d = true := by
      unfold IsDigit at hd
      simp [isdigit, hd.1, hd.2]
    rw [List.takeWhile_cons, this, if_pos rfl, ih (fun x hx => h x (List.mem_cons_of_mem d hx))]

theorem intPart_digits {w : List Int} (h : IsIntPart w) : w ≠ [] ∧ ∀ x ∈ w, IsDigit x := by
  refine ⟨?_, intPart_chars h⟩
  rcases h with rfl | ⟨d, ds, rfl, -, -⟩ <;> simp

/-- What `strtoll` answers on an integer literal: its value, clamped with `ERANGE` outside
the range of `long long`, the whole string being converted. -/
theorem strtoll_integer (sign int : List Int) (hs : IsSign sign) (hi : IsIntPart int) :
    strtoll (sign ++ int) =
      if integerValue sign int > 2 ^ 63 - 1 then
        { value := 2 ^ 63 - 1, endp := (sign ++ int).length, errno := 34 }
      else if integerValue sign int < - 2 ^ 63 then
        { value := - 2 ^ 63, endp := (sign ++ int).length, errno := 34 }
      else { value := integerValue sign int, endp := (sign ++ int).length, errno := 0 } := by
  obtain ⟨hne, hdig⟩ := intPart_digits hi
  have htw := takeWhile_isdigit int hdig
  obtain ⟨d, ds, rfl⟩ : ∃ d ds, int = d :: ds := by
    cases int with
    | nil => exact absurd rfl hne
    | cons d ds => exact ⟨d, ds, rfl⟩
  have hd := hdig d (List.mem_cons_self d ds)
  unfold IsDigit at hd
  have hsp : isspace d = false := by
    simp only [isspace, Bool.or_eq_false_iff, beq_eq_false_iff_ne, ne_eq, Bool.and_eq_false_iff,
      decide_eq_false_iff_not, not_le]
    omega
  have hd1 : d ≠ 0x2d := by omega
  have hd2 : d ≠ 0x2b := by omega
  rcases hs with rfl | rfl
  · simp only [List.nil_append, strtoll, List.takeWhile_cons, List.dropWhile_cons, hsp,
      Bool.false_eq_true, if_false, List.head?_cons, Option.some.injEq, hd1, hd2, decide_False,
      Bool.or_false, htw, List.length_nil, decimal_eq, integerValue, reduceCtorEq,
      List.length_cons, Nat.zero_add, Nat.add_zero]
  · have hsp2 : isspace 0x2d = false := by decide
    simp only [List.cons_append, List.nil_append, strtoll, List.takeWhile_cons,
      List.dropWhile_cons, hsp2, Bool.false_eq_true, if_false, List.head?_cons, decide_True,
      Bool.true_or, if_true, List.tail_cons, htw, List.length_nil, decimal_eq, integerValue,
      reduceCtorEq, List.length_cons, Nat.zero_add]
    simp only [Nat.add_comm 1 (ds.length + 1)]

theorem cstr_terminated (w : List Int) (h : ∀ c ∈ w, c ≠ 0) : cstr (w ++ [0]) = w := by
  unfold cstr
  induction w with
  | nil => simp
  | cons c w ih =>
    have hc := h c (List.mem_cons_self c w)
    rw [List.cons_append, List.takeWhile_cons]
    simp only [ne_eq, hc, not_false_eq_true, decide_True, if_true]
    rw [ih (fun x hx => h x (List.mem_cons_of_mem c hx))]

theorem integer_chars (sign int : List Int) (hs : IsSign sign) (hi : IsIntPart int) :
    ∀ c ∈ sign ++ int, 0x2b ≤ c ∧ c ≤ 0x65 := by
  intro c hc
  rcases List.mem_append.1 hc with h | h
  · rcases hs with rfl | rfl
    · simp at h
    · simp at h
      omega
  · have := intPart_chars hi c h
    omega

/-- What `make_int` answers on the buffer that holds an integer literal. -/
theorem make_int_integer (sign int : List Int) (hs : IsSign sign) (hi : IsIntPart int) :
    make_int (sign ++ int ++ [0]) =
      if - 2 ^ 63 ≤ integerValue sign int ∧ integerValue sign int ≤ 2 ^ 63 - 1 then
        .ok (integerValue sign int % 2 ^ 64)
      else .error .NUMBER_INVALID := by
  have hc : cstr (sign ++ int ++ [0]) = sign ++ int :=
    cstr_terminated _ (fun c hc => by
      have := integer_chars sign int hs hi c hc
      omega)
  have hst := strtoll_integer sign int hs hi
  unfold make_int
  rw [hc]
  by_cases h1 : integerValue sign int > 2 ^ 63 - 1
  · rw [if_pos h1] at hst
    have hr : ¬ (- 2 ^ 63 ≤ integerValue sign int ∧ integerValue sign int ≤ 2 ^ 63 - 1) := by
      omega
    rw [hst, if_neg hr]
    simp
  · rw [if_neg h1] at hst
    by_cases h2 : integerValue sign int < - 2 ^ 63
    · rw [if_pos h2] at hst
      have hr : ¬ (- 2 ^ 63 ≤ integerValue sign int ∧ integerValue sign int ≤ 2 ^ 63 - 1) := by
        omega
      rw [hst, if_neg hr]
      simp
    · rw [if_neg h2] at hst
      have hr : - 2 ^ 63 ≤ integerValue sign int ∧ integerValue sign int ≤ 2 ^ 63 - 1 := by
        omega
      rw [hst, if_pos hr]
      simp

/-- An integer literal runs the automaton from START into a completing state, classified
INT. -/
theorem number_run_integer (sign int : List Int) (hs : IsSign sign) (hi : IsIntPart int) :
    ∃ s, number_run .SSTART .INT (sign ++ int) = some (s, .INT) ∧ s.completes = true := by
  have hsign : ∃ s0, number_run .SSTART .INT sign = some (s0, .INT) ∧
      (s0 = .SSTART ∨ s0 = .SMINUS) := by
    rcases hs with rfl | rfl
    · exact ⟨.SSTART, rfl, Or.inl rfl⟩
    · exact ⟨.SMINUS, rfl, Or.inr rfl⟩
  obtain ⟨s0, r0, hs0⟩ := hsign
  obtain ⟨s1, r1, hs1⟩ := number_run_int int hi s0 hs0 .INT
  refine ⟨s1, ?_, ?_⟩
  · rw [number_run_append sign int _ _ _ _ r0, r1]
  · rcases hs1 with rfl | rfl | rfl <;> rfl

/-- What `scan_number` does on a stream that holds just an integer literal. -/
theorem scan_number_integer (strtold : List Int → Conv ℚ) (sign int : List Int)
    (hs : IsSign sign) (hi : IsIntPart int) (hlen : (sign ++ int).length < 1024) (tok : Token) :
    scan_number strtold { stream_ := ⟨sign ++ int, .SGOOD, false, none⟩, token := tok } =
      if - 2 ^ 63 ≤ integerValue sign int ∧ integerValue sign int ≤ 2 ^ 63 - 1 then
        some (.ok (), { stream_ := ⟨[], .SGOOD, false, none⟩,
                        token := { tok with number_type := .INT,
                                            int_value := integerValue sign int } })
      else
        some (.error .NUMBER_INVALID,
          { stream_ := ⟨[], .SGOOD, false, none⟩,
            token := { tok with number_type := .INT } }) := by
  obtain ⟨s, hrun, hcomp⟩ := number_run_integer sign int hs hi
  have hv := validate_number_short (sign ++ int) s .INT hrun (by omega) [] false none
    (number_state_done s hcomp _ (Or.inr (Or.inl rfl)))
  rw [List.append_nil, map_toChar_of_range _ (integer_chars sign int hs hi)] at hv
  unfold scan_number
  simp only [hv, make_int_integer sign int hs hi]
  by_cases hr : - 2 ^ 63 ≤ integerValue sign int ∧ integerValue sign int ≤ 2 ^ 63 - 1
  · simp only [if_pos hr]
    have : toInt64 (integerValue sign int % 2 ^ 64) = integerValue sign int := by
      unfold toInt64
      obtain ⟨h1, h2⟩ := hr
      split_ifs <;> omega
    rw [this]
  · simp only [if_neg hr]

/-- C19: for every integer literal `w` (a sign part `-?` and an integer part
`0|[1-9][0-9]*`) of fewer than 1024 characters, `n` being its decimal value: when
`-2^63 ≤ n ≤ 2^63 - 1`, `scan()` on `w` followed by the end of input returns a number token
with sub-kind INT and `int_value = n`; otherwise `scan()` throws (`NUMBER_INVALID`), marks the
stream bad and leaves the reset token: no wrapped or clamped value is stored. The value
of `-0` is 0. -/
theorem scan_integer (strtold : List Int → Conv ℚ) (sign int : List Int)
    (hs : IsSign sign) (hi : IsIntPart int) (hlen : (sign ++ int).length < 1024) :
    (- 2 ^ 63 ≤ integerValue sign int ∧ integerValue sign int ≤ 2 ^ 63 - 1 →
      scan strtold (init (Utf8Stream.ofList (sign ++ int))) =
        some (.ok (), { stream_ := ⟨[], .SGOOD, false, none⟩,
                        token := { Token.reset with type := .ofInt 0x30, number_type := .INT,
                                                     int_value := integerValue sign int } })) ∧
    (¬ (- 2 ^ 63 ≤ integerValue sign int ∧ integerValue sign int ≤ 2 ^ 63 - 1) →
      scan strtold (init (Utf8Stream.ofList (sign ++ int))) =
        some (.error .NUMBER_INVALID,
          { stream_ := ⟨[], .SBAD, false, none⟩, token := Token.reset })) ∧
    integerValue [0x2d] [0x30] = 0 := by
  have hne := (intPart_digits hi).1
  obtain ⟨c, rest, hw⟩ : ∃ c rest, sign ++ int = c :: rest := by
    cases h : sign ++ int with
    | nil =>
      have := List.append_eq_nil.1 h
      exact absurd this.2 hne
    | cons c rest => exact ⟨c, rest, rfl⟩
  have hc : c = 0x2d ∨ IsDigit c := by
    rcases hs with rfl | rfl
    · right
      rw [List.nil_append] at hw
      exact (intPart_digits hi).2 c (by rw [hw]; exact List.mem_cons_self c rest)
    · left
      simp only [List.cons_append, List.nil_append, List.cons.injEq] at hw
      exact hw.1.symm
  have hscan : scan strtold (init (Utf8Stream.ofList (sign ++ int))) =
      match scan_number strtold
          { stream_ := ⟨sign ++ int, .SGOOD, false, none⟩,
            token := { Token.reset with type := .ofInt 0x30 } } with
      | none => none
      | some (.ok (), ts) => some (.ok (), ts)
      | some (.error e, ts) =>
        some (.error e, { stream_ := ts.stream_.bad, token := Token.reset }) := by
    unfold init Utf8Stream.ofList
    rw [hw]
    exact scan_digit strtold c rest false none Token.reset hc
  rw [hscan, scan_number_integer strtold sign int hs hi hlen]
  refine ⟨fun hr => ?_, fun hr => ?_, rfl⟩
  · rw [if_pos hr]
  · rw [if_neg hr]
    rfl

/-- C19 at concrete inputs: `-0` gives 0. -/
theorem scan_integer_witness :
    scan strtold0 (init (Utf8Stream.ofList ([0x2d] ++ [0x30]))) =
      some (.ok (), { stream_ := ⟨[], .SGOOD, false, none⟩,
                      token := { Token.reset with type := .ofInt 0x30, number_type := .INT,
                                                   int_value := integerValue [0x2d] [0x30] } }) :=
  (scan_integer strtold0 [0x2d] [0x30] (Or.inr rfl) (Or.inl rfl) (by decide)).1 (by decide)

/-! ### C16 -/

/-- C16, as stated, fails: the literal `99999999999999999999` is accepted by the number
automaton as INT, its conversion by `strtoll` fails (out of range), and `scan()` throws
`NUMBER_INVALID`, the very error kind it throws for a violation of the number grammar, as on
the text `-`. -/
theorem conversion_failure_same_kind :
    validate_number (Utf8Stream.ofList [0x39, 0x39, 0x39, 0x39, 0x39, 0x39, 0x39, 0x39, 0x39, 0x39, 0x39, 0x39, 0x39, 0x39, 0x39, 0x39, 0x39, 0x39, 0x39, 0x39]) 1024 =
        some (.ok (.INT, [0x39, 0x39, 0x39, 0x39, 0x39, 0x39, 0x39, 0x39, 0x39, 0x39, 0x39, 0x39, 0x39, 0x39, 0x39, 0x39, 0x39, 0x39, 0x39, 0x39, 0]), Utf8Stream.ofList []) ∧
      (strtoll [0x39, 0x39, 0x39, 0x39, 0x39, 0x39, 0x39, 0x39, 0x39, 0x39, 0x39, 0x39, 0x39, 0x39, 0x39, 0x39, 0x39, 0x39, 0x39, 0x39]).errno ≠ 0 ∧
      scan strtold0 (init (Utf8Stream.ofList [0x39, 0x39, 0x39, 0x39, 0x39, 0x39, 0x39, 0x39, 0x39, 0x39, 0x39, 0x39, 0x39, 0x39, 0x39, 0x39, 0x39, 0x39, 0x39, 0x39])) =
        some (.error .NUMBER_INVALID,
          { stream_ := ⟨[], .SBAD, false, none⟩, token := Token.reset }) ∧
      scan strtold0 (init (Utf8Stream.ofList [0x2d])) =
        some (.error .NUMBER_INVALID,
          { stream_ := ⟨[], .SBAD, false, some ([], .SGOOD)⟩, token := Token.reset }) := by
  refine ⟨rfl, by decide, rfl, rfl⟩

/-- C16, amended: whenever the number automaton accepts a literal and the conversion of
the buffer fails (`strtoll` for INT, `strtold` for FLOAT: `endp` not at the end of the C string
or `errno` set), `scan()` throws `NUMBER_INVALID`, marks the stream bad and resets the token.
This is the same error kind as the one thrown for a violation of the number grammar: no
other kind is thrown for a failed conversion. -/
theorem conversion_failure_kind (strtold : List Int → Conv ℚ) (c : Int) (rest : List Int)
    (cr : Bool) (b : Option (List Int × State)) (tok : Token) (hc : c = 0x2d ∨ IsDigit c)
    (nt : NumberType) (buf : List Int) (s' : Utf8Stream)
    (hv : validate_number ⟨c :: rest, .SGOOD, cr, none⟩ 1024 = some (.ok (nt, buf), s'))
    (hfail : (nt = .INT ∧ ((strtoll (cstr buf)).endp ≠ (cstr buf).length ∨
        (strtoll (cstr buf)).errno ≠ 0)) ∨
      (nt = .FLOAT ∧ ((strtold (cstr buf)).endp ≠ (cstr buf).length ∨
        (strtold (cstr buf)).errno ≠ 0))) :
    scan strtold { stream_ := ⟨c :: rest, .SGOOD, cr, b⟩, token := tok } =
        some (.error .NUMBER_INVALID, { stream_ := s'.bad, token := Token.reset }) ∧
      scan strtold (init (Utf8Stream.ofList [0x2d])) =
        some (.error .NUMBER_INVALID,
          { stream_ := ⟨[], .SBAD, false, some ([], .SGOOD)⟩, token := Token.reset }) := by
  refine ⟨?_, rfl⟩
  rw [scan_digit strtold c rest cr b tok hc]
  unfold scan_number
  simp only [hv]
  rcases hfail with ⟨rfl, h⟩ | ⟨rfl, h⟩
  · simp only [make_int, h, if_true]
  · simp only [make_float, h, if_true]

/-- C16, amended, at a concrete input: the literal `99999999999999999999`. -/
theorem conversion_failure_kind_witness :
    scan strtold0 { stream_ := ⟨0x39 :: [0x39, 0x39, 0x39, 0x39, 0x39, 0x39, 0x39, 0x39, 0x39, 0x39, 0x39, 0x39, 0x39, 0x39, 0x39, 0x39, 0x39, 0x39, 0x39], .SGOOD, false, none⟩, token := Token.reset } =
      some (.error .NUMBER_INVALID,
        { stream_ := (Utf8Stream.ofList []).bad, token := Token.reset }) :=
  (conversion_failure_kind strtold0 0x39 [0x39, 0x39, 0x39, 0x39, 0x39, 0x39, 0x39, 0x39, 0x39, 0x39, 0x39, 0x39, 0x39, 0x39, 0x39, 0x39, 0x39, 0x39, 0x39] false none Token.reset (Or.inr (by decide))
    .INT [0x39, 0x39, 0x39, 0x39, 0x39, 0x39, 0x39, 0x39, 0x39, 0x39, 0x39, 0x39, 0x39, 0x39, 0x39, 0x39, 0x39, 0x39, 0x39, 0x39, 0] (Utf8Stream.ofList []) rfl (Or.inl ⟨rfl, Or.inr (by decide)⟩)).1

/-! ### C18 -/

/-- The automaton reads the text `quote` writes for a character `0x01 .. 0x7F` back into
that character. -/
theorem string_run_quote_char (c : Int) (h1 : 1 ≤ c) (h2 : c ≤ 0x7F) (str rest : List Int) :
    string_run .SREGULAR UEscape.init str (quote_char c ++ rest) =
      string_run .SREGULAR UEscape.init (str ++ [c]) rest := by
  interval_cases c <;> rfl

/-- The automaton throws `UESCAPE_ZERO` on the text `quote` writes for the character NUL. -/
theorem string_run_quote_nul (str rest : List Int) :
    string_run .SREGULAR UEscape.init str (quote_char 0 ++ rest) = .error .UESCAPE_ZERO := rfl

theorem string_run_quoted_ascii (s : List Int) (hs : ∀ c ∈ s, 0 ≤ c ∧ c ≤ 0x7F)
    (h0 : (0 : Int) ∉ s) (str rest : List Int) :
    string_run .SREGULAR UEscape.init str ((s.map quote_char).flatten ++ rest) =
      string_run .SREGULAR UEscape.init (str ++ s) rest := by
  induction s generalizing str with
  | nil => simp
  | cons c s ih =>
    have hc := hs c (List.mem_cons_self c s)
    have hc0 : c ≠ 0 := fun h => h0 (by rw [h]; exact List.mem_cons_self 0 s)
    rw [List.map_cons, List.flatten_cons, List.append_assoc,
      string_run_quote_char c (by omega) hc.2,
      ih (fun x hx => hs x (List.mem_cons_of_mem c hx))
        (fun h => h0 (List.mem_cons_of_mem c h))]
    simp

theorem string_run_quoted_nul (s : List Int) (hs : ∀ c ∈ s, 0 ≤ c ∧ c ≤ 0x7F)
    (h0 : (0 : Int) ∈ s) (str rest : List Int) :
    string_run .SREGULAR UEscape.init str ((s.map quote_char).flatten ++ rest) =
      .error .UESCAPE_ZERO := by
  induction s generalizing str with
  | nil => simp at h0
  | cons c s ih =>
    have hc := hs c (List.mem_cons_self c s)
    rw [List.map_cons, List.flatten_cons, List.append_assoc]
    by_cases hc0 : c = 0
    · rw [hc0]
      exact string_run_quote_nul _ _
    · rw [string_run_quote_char c (by omega) hc.2]
      refine ih (fun x hx => hs x (List.mem_cons_of_mem c hx)) ?_ _
      rcases List.mem_cons.1 h0 with h | h
      · exact absurd h.symm hc0
      · exact h

/-- When the automaton throws on the characters the stream holds, so does the loop of
`scan_string`. -/
theorem scan_string_loop_error (body : List Int) :
    ∀ (fuel : Nat) (st : StringState) (u : UEscape) (ts : TokenStream) (rest : List Int)
      (e : ErrorKind),
      ts.stream_.state = .SGOOD → ts.stream_.input = body ++ rest →
      string_run st u ts.token.str_value body = .error e → body.length ≤ fuel →
      ∃ ts', scan_string_loop fuel st u ts = some (.error e, ts') := by
  induction body with
  | nil =>
    intro fuel st u ts rest e _ _ hrun _
    simp [string_run] at hrun
  | cons c body ih =>
    intro fuel st u ts rest e hg hin hrun hlen
    obtain ⟨f, rfl⟩ : ∃ f, fuel = f + 1 := ⟨fuel - 1, by
      simp only [List.length_cons] at hlen
      omega⟩
    have hst : st ≠ .SDONES := by
      rintro rfl
      rw [string_run_done] at hrun
      simp at hrun
    rw [scan_string_loop_step f st u ts c (body ++ rest) hst hg (by simpa using hin)]
    simp only [string_run] at hrun
    cases hsw : string_switch st u c ts.token.str_value with
    | error e' =>
      simp only [hsw, Except.error.injEq] at hrun
      subst hrun
      exact ⟨_, rfl⟩
    | ok r =>
      obtain ⟨st1, u1, str1⟩ := r
      simp only [hsw] at hrun
      simp only
      have hget := getc_of_good_cons ts.stream_ c (body ++ rest) hg (by simpa using hin)
      exact ih f st1 u1 _ rest e (by simp [hget]) (by simp [hget]) hrun
        (by simp only [List.length_cons] at hlen; omega)

/-- C18: for every string `s` of bytes `0x00 .. 0x7F`: `scan()` on the text that `quote`
writes for `s` returns a string token with payload `s` exactly when `s` has no NUL byte; when
`s` has one, `quote` has written `\u0000` for it and `scan()` throws `UESCAPE_ZERO`, marks the
stream bad and resets the token. -/
theorem quote_scan_ascii (strtold : List Int → Conv ℚ) (s : List Int)
    (hs : ∀ c ∈ s, 0 ≤ c ∧ c ≤ 0x7F) :
    (scan strtold (init (Utf8Stream.ofList (quote s))) =
        some (.ok (),
          { stream_ := ⟨[], .SGOOD, false, some ([0x22], .SGOOD)⟩,
            token := { type := .ofInt 0x22, str_value := s, number_type := .NONE,
                       int_value := 0, float_value := 0 } }) ↔ (0 : Int) ∉ s) ∧
    ((0 : Int) ∈ s →
      ∃ ts', scan strtold (init (Utf8Stream.ofList (quote s))) =
          some (.error .UESCAPE_ZERO, ts') ∧
        ts'.stream_.state = .SBAD ∧ ts'.token = Token.reset) ∧
    quote_char 0 = [0x5c, 0x75, 0x30, 0x30, 0x30, 0x30] := by
  have hq : quote s = 0x22 :: ((s.map quote_char).flatten ++ [0x22]) := by
    simp [quote]
  have hscan : scan strtold (init (Utf8Stream.ofList (quote s))) =
      match scan_string_loop (((s.map quote_char).flatten ++ [0x22]).length + 2) .SREGULAR
          UEscape.init
          { stream_ := ⟨(s.map quote_char).flatten ++ [0x22], .SGOOD, false,
              some (0x22 :: ((s.map quote_char).flatten ++ [0x22]), .SGOOD)⟩,
            token := { Token.reset with type := .ofInt 0x22 } } with
      | none => none
      | some (.ok (), ts) => some (.ok (), ts)
      | some (.error e, ts) =>
        some (.error e, { stream_ := ts.stream_.bad, token := Token.reset }) := by
    unfold init Utf8Stream.ofList
    rw [hq, scan_quote]
  have herr : (0 : Int) ∈ s →
      ∃ ts', scan strtold (init (Utf8Stream.ofList (quote s))) =
          some (.error .UESCAPE_ZERO, ts') ∧
        ts'.stream_.state = .SBAD ∧ ts'.token = Token.reset := by
    intro h0
    obtain ⟨ts1, h1⟩ := scan_string_loop_error ((s.map quote_char).flatten ++ [0x22])
      (((s.map quote_char).flatten ++ [0x22]).length + 2) .SREGULAR UEscape.init
      { stream_ := ⟨(s.map quote_char).flatten ++ [0x22], .SGOOD, false,
          some (0x22 :: ((s.map quote_char).flatten ++ [0x22]), .SGOOD)⟩,
        token := { Token.reset with type := .ofInt 0x22 } } [] .UESCAPE_ZERO rfl (by simp)
      (string_run_quoted_nul s hs h0 _ _) (by omega)
    rw [hscan, h1]
    exact ⟨_, rfl, rfl, rfl⟩
  have hok : (0 : Int) ∉ s →
      scan strtold (init (Utf8Stream.ofList (quote s))) =
        some (.ok (),
          { stream_ := ⟨[], .SGOOD, false, some ([0x22], .SGOOD)⟩,
            token := { type := .ofInt 0x22, str_value := s, number_type := .NONE,
                       int_value := 0, float_value := 0 } }) := by
    intro h0
    obtain ⟨b', hb'⟩ := getcs_good_append (s.map quote_char).flatten [0x22] false
      (some (0x22 :: ((s.map quote_char).flatten ++ [0x22]), .SGOOD))
    have hr : string_run .SREGULAR UEscape.init [] (s.map quote_char).flatten =
        .ok (.SREGULAR, UEscape.init, s) := by
      have := string_run_quoted_ascii s hs h0 [] []
      simpa [string_run] using this
    have hrun := scan_string_loop_run (s.map quote_char).flatten 3 .SREGULAR UEscape.init
      { stream_ := ⟨(s.map quote_char).flatten ++ [0x22], .SGOOD, false,
          some (0x22 :: ((s.map quote_char).flatten ++ [0x22]), .SGOOD)⟩,
        token := { Token.reset with type := .ofInt 0x22 } } [0x22] .SREGULAR UEscape.init s
      rfl rfl (by simpa [Token.reset] using hr) (by decide)
    have hlen : ((s.map quote_char).flatten ++ [0x22]).length + 2 =
        3 + (s.map quote_char).flatten.length := by
      simp only [List.length_append, List.length_cons, List.length_nil]
      omega
    rw [hscan, hlen, hrun]
    simp only [hb']
    rfl
  refine ⟨⟨fun h => ?_, hok⟩, herr, rfl⟩
  intro h0
  obtain ⟨ts', h1, -, -⟩ := herr h0
  rw [h1] at h
  simp at h

/-- C18 at a concrete string: the bytes `0x01`, `a`, `0x7F`. -/
theorem quote_scan_ascii_witness :
    scan strtold0 (init (Utf8Stream.ofList (quote [0x01, 0x61, 0x7F]))) =
      some (.ok (),
        { stream_ := ⟨[], .SGOOD, false, some ([0x22], .SGOOD)⟩,
          token := { type := .ofInt 0x22, str_value := [0x01, 0x61, 0x7F], number_type := .NONE,
                     int_value := 0, float_value := 0 } }) :=
  (quote_scan_ascii strtold0 [0x01, 0x61, 0x7F] (by decide)).1.2 (by decide)

/-! ### C12 -/

/-- C12: the object with the members (`a`, integer 1) and (`b`, string `x`), written to a
fresh destination (indented mode), gives the text `{`, newline, tab, `"a": 1,`, newline,
tab, `"b": "x"`, newline, `}`; written to a destination set to compact mode by
`Json::noindent` it gives `{"a": 1, "b": "x"}`. -/
theorem write_two_member_object (fixed : ℚ → List Int) :
    write_value fixed Ostream.init
        (.TAG_OBJECT (.cons [0x61] (.TAG_NUMBER (.TYPE_INT 1))
          (.cons [0x62] (.TAG_STRING [0x78]) .nil))) =
      some { bufs := [],
             out := [0x7b, 0x0a, 0x09, 0x22, 0x61, 0x22, 0x3a, 0x20, 0x31, 0x2c, 0x0a,
               0x09, 0x22, 0x62, 0x22, 0x3a, 0x20, 0x22, 0x78, 0x22, 0x0a, 0x7d],
             iword := 0 } ∧
    write_value fixed (Json.noindent Ostream.init)
        (.TAG_OBJECT (.cons [0x61] (.TAG_NUMBER (.TYPE_INT 1))
          (.cons [0x62] (.TAG_STRING [0x78]) .nil))) =
      some { bufs := [],
             out := [0x7b, 0x22, 0x61, 0x22, 0x3a, 0x20, 0x31, 0x2c, 0x20,
               0x22, 0x62, 0x22, 0x3a, 0x20, 0x22, 0x78, 0x22, 0x7d],
             iword := 1 } := by
  exact ⟨rfl, rfl⟩

/-! ### Helper lemmas: the indentation filters -/

theorem sputn_flat (cs : List Int) (h : (0x0a : Int) ∉ cs) :
    indent.sputn ⟨[0x09], false⟩ cs = (⟨[0x09], false⟩, cs) := by
  induction cs with
  | nil => rfl
  | cons ch cs ih =>
    have hch : ch ≠ 0x0a := fun e => h (by rw [e]; exact List.mem_cons_self _ _)
    have hcs : (0x0a : Int) ∉ cs := fun e => h (List.mem_cons_of_mem _ e)
    have ho : indent.overflow ⟨[0x09], false⟩ ch = (⟨[0x09], false⟩, [ch]) := by
      simp [indent.overflow, hch]
    simp only [indent.sputn, ho, ih hcs]
    rfl

/-- Text without a newline, put into an `indent` stream buffer: the indentation comes
first when the buffer is at a line start, and the buffer is not at a line start after. -/
theorem sputn_plain (ls : Bool) (t : List Int) (hne : t ≠ []) (h : (0x0a : Int) ∉ t) :
    indent.sputn ⟨[0x09], ls⟩ t =
      (⟨[0x09], false⟩, (if ls then [0x09] else []) ++ t) := by
  cases t with
  | nil => exact absurd rfl hne
  | cons ch cs =>
    have hch : ch ≠ 0x0a := fun e => h (by rw [e]; exact List.mem_cons_self _ _)
    have hcs : (0x0a : Int) ∉ cs := fun e => h (List.mem_cons_of_mem _ e)
    have ho : indent.overflow ⟨[0x09], ls⟩ ch =
        (⟨[0x09], false⟩, (if ls then [0x09] else []) ++ [ch]) := by
      cases ls <;> simp [indent.overflow, hch]
    simp only [indent.sputn, ho, sputn_flat cs hcs]
    cases ls <;> simp

theorem tabs_succ (d : Nat) : tabs d ++ [0x09] = tabs (d + 1) := by
  unfold tabs
  rw [List.replicate_succ']

theorem tabs_succ_cons (d : Nat) : 0x09 :: tabs d = tabs (d + 1) := rfl

theorem tabs_no_newline (d : Nat) : (0x0a : Int) ∉ tabs d := by
  intro h
  have := List.eq_of_mem_replicate h
  omega

/-- Text without a newline, put into a chain of `d` filters that share their line start
flag: `d` tabs come first when the chain is at a line start. -/
theorem put_plain (d : Nat) (ls : Bool) (t : List Int) (hne : t ≠ []) (h : (0x0a : Int) ∉ t) :
    put (chain d ls) t = (chain d false, (if ls then tabs d else []) ++ t) := by
  induction d generalizing t with
  | zero => cases ls <;> rfl
  | succ d ih =>
    have hc : chain (d + 1) ls = ⟨[0x09], ls⟩ :: chain d ls := rfl
    rw [hc, put, sputn_plain ls t hne h]
    have hne2 : (if ls then [(0x09 : Int)] else []) ++ t ≠ [] := by
      cases ls <;> simp [hne]
    have hnl2 : (0x0a : Int) ∉ (if ls then [(0x09 : Int)] else []) ++ t := by
      cases ls <;> simp [h]
    rw [ih _ hne2 hnl2]
    cases ls
    · rfl
    · simp only [if_true, ← List.append_assoc, tabs_succ]
      rfl

/-- A newline put into a chain of filters: it passes, and the chain is at a line start. -/
theorem put_newline (d : Nat) (ls : Bool) :
    put (chain d ls) [0x0a] = (chain d true, [0x0a]) := by
  induction d with
  | zero => rfl
  | succ d ih =>
    have hc : chain (d + 1) ls = ⟨[0x09], ls⟩ :: chain d ls := rfl
    have hs : indent.sputn ⟨[0x09], ls⟩ [0x0a] = (⟨[0x09], true⟩, [0x0a]) := by
      cases ls <;> rfl
    rw [hc, put, hs, ih]
    rfl

/-- The separator `,` newline put into a chain of filters that is not at a line start. -/
theorem put_comma_newline (d : Nat) :
    put (chain d false) [0x2c, 0x0a] = (chain d true, [0x2c, 0x0a]) := by
  induction d with
  | zero => rfl
  | succ d ih =>
    have hc : chain (d + 1) false = ⟨[0x09], false⟩ :: chain d false := rfl
    have hs : indent.sputn ⟨[0x09], false⟩ [0x2c, 0x0a] = (⟨[0x09], true⟩, [0x2c, 0x0a]) := rfl
    rw [hc, put, hs, ih]
    rfl

theorem put_nil (bufs : List indent) : put bufs [] = (bufs, []) := by
  induction bufs with
  | nil => rfl
  | cons b bufs ih =>
    rw [put]
    simp only [indent.sputn, ih]

theorem write_nil (os : Ostream) : os.write [] = os := by
  unfold Ostream.write
  rw [put_nil]
  simp

theorem write_plain (d : Nat) (ls : Bool) (out : List Int) (w : Nat) (t : List Int)
    (hne : t ≠ []) (h : (0x0a : Int) ∉ t) :
    Ostream.write ⟨chain d ls, out, w⟩ t =
      ⟨chain d false, out ++ ((if ls then tabs d else []) ++ t), w⟩ := by
  unfold Ostream.write
  rw [put_plain d ls t hne h]

theorem write_newline (d : Nat) (ls : Bool) (out : List Int) (w : Nat) :
    Ostream.write ⟨chain d ls, out, w⟩ [0x0a] = ⟨chain d true, out ++ [0x0a], w⟩ := by
  unfold Ostream.write
  rw [put_newline d ls]

theorem write_comma_newline (d : Nat) (out : List Int) (w : Nat) :
    Ostream.write ⟨chain d false, out, w⟩ [0x2c, 0x0a] =
      ⟨chain d true, out ++ [0x2c, 0x0a], w⟩ := by
  unfold Ostream.write
  rw [put_comma_newline d]

/-! ### Helper lemmas: the text of strings and numbers -/

theorem quote_char_no_newline (c : Int) : (0x0a : Int) ∉ quote_char c := by
  unfold quote_char
  split <;>
    first
    | (simp only [u00]; decide)
    | decide
    | (simp only [List.mem_singleton]
       intro h
       have h2 := h.symm
       contradiction)

/-- The text `quote` writes has no newline character, whatever the string. -/
theorem quote_no_newline (s : List Int) : (0x0a : Int) ∉ quote s := by
  unfold quote
  simp only [List.mem_append, List.mem_singleton, List.mem_flatten, List.mem_map, not_or,
    not_exists, not_and]
  refine ⟨⟨by decide, ?_⟩, by decide⟩
  rintro l ⟨c, -, rfl⟩
  exact quote_char_no_newline c

theorem quote_ne_nil (s : List Int) : quote s ≠ [] := by
  simp [quote]

theorem decimal_digits_no_newline :
    ∀ (fuel n : Nat) (acc : List Int), (0x0a : Int) ∉ acc →
      (0x0a : Int) ∉ decimal_digits fuel n acc := by
  intro fuel
  induction fuel with
  | zero =>
    intro n acc h
    exact h
  | succ fuel ih =>
    intro n acc h
    have hd : (0x0a : Int) ∉ ((0x30 + n % 10 : Nat) : Int) :: acc := by
      intro hm
      rcases List.mem_cons.1 hm with e | e
      · omega
      · exact h e
    rw [decimal_digits]
    split
    · exact hd
    · exact ih _ _ hd

theorem decimal_digits_ne_nil (fuel n : Nat) (acc : List Int) :
    decimal_digits (fuel + 1) n acc ≠ [] := by
  induction fuel generalizing n acc with
  | zero =>
    rw [decimal_digits]
    split <;> simp [decimal_digits]
  | succ fuel ih =>
    rw [decimal_digits]
    split
    · simp
    · exact ih _ _

theorem fmt_uint_plain (v : Nat) : fmt_uint v ≠ [] ∧ (0x0a : Int) ∉ fmt_uint v :=
  ⟨decimal_digits_ne_nil v v [], decimal_digits_no_newline (v + 1) v [] (by simp)⟩

theorem fmt_int_plain (v : Int) : fmt_int v ≠ [] ∧ (0x0a : Int) ∉ fmt_int v := by
  unfold fmt_int
  split
  · refine ⟨by simp, ?_⟩
    intro h
    rcases List.mem_cons.1 h with e | e
    · omega
    · exact (fmt_uint_plain _).2 e
  · exact fmt_uint_plain _

/-! ### C13 -/

theorem push_indent_chain (d : Nat) (out : List Int) (w : Nat) :
    Ostream.push_indent ⟨chain d true, out, w⟩ = ⟨chain (d + 1) true, out, w⟩ := rfl

theorem pop_indent_chain (d : Nat) (ls : Bool) (out : List Int) (w : Nat) :
    Ostream.pop_indent ⟨chain (d + 1) ls, out, w⟩ = ⟨chain d ls, out, w⟩ := rfl

mutual
/-- In indented mode, inside `d` indentation filters that share their line start flag, an
integral value is written as the reference printer prints it at depth `d`, after `d` tabs
when the filters are at a line start. -/
theorem write_value_indented (fixed : ℚ → List Int) :
    ∀ (v : Value), v.integral = true → ∀ (d : Nat) (ls : Bool) (out : List Int) (w : Nat),
      w &&& IOS_NOINDENT = 0 →
      write_value fixed ⟨chain d ls, out, w⟩ v =
        some ⟨chain d false, out ++ ((if ls then tabs d else []) ++ ref_value d v), w⟩
  | .TAG_INVALID, h, _, _, _, _, _ => by simp [Value.integral] at h
  | .TAG_TRUE, _, d, ls, out, w, _ => by
    rw [write_value, write_plain d ls out w _ (by decide) (by decide), ref_value]
  | .TAG_FALSE, _, d, ls, out, w, _ => by
    rw [write_value, write_plain d ls out w _ (by decide) (by decide), ref_value]
  | .TAG_NULL, _, d, ls, out, w, _ => by
    rw [write_value, write_plain d ls out w _ (by decide) (by decide), ref_value]
  | .TAG_NUMBER n, h, d, ls, out, w, _ => by
    cases n with
    | TYPE_INVALID => simp [Value.integral, Number.integral] at h
    | TYPE_FP v => simp [Value.integral, Number.integral] at h
    | TYPE_INT v =>
      rw [write_value, write_number,
        write_plain d ls out w _ (fmt_int_plain v).1 (fmt_int_plain v).2, ref_value, ref_number]
    | TYPE_UINT v =>
      rw [write_value, write_number,
        write_plain d ls out w _ (fmt_uint_plain v).1 (fmt_uint_plain v).2, ref_value,
        ref_number]
  | .TAG_STRING s, _, d, ls, out, w, _ => by
    rw [write_value, write_plain d ls out w _ (quote_ne_nil s) (quote_no_newline s), ref_value]
  | .TAG_OBJECT .nil, _, d, ls, out, w, _ => by
    rw [write_value, write_plain d ls out w _ (by decide) (by decide), ref_value]
  | .TAG_OBJECT (.cons k v ms), h, d, ls, out, w, hw => by
    simp only [Value.integral, Members.integral, Bool.and_eq_true] at h
    rw [write_value]
    simp only [hw, ne_eq, not_true_eq_false, if_false]
    rw [write_plain d ls out w _ (by decide) (by decide), write_newline, push_indent_chain,
      write_members, write_nil,
      write_plain (d + 1) true _ w _ (quote_ne_nil k) (quote_no_newline k),
      write_plain (d + 1) false _ w _ (by decide) (by decide),
      write_value_indented fixed v h.1 (d + 1) false _ w hw]
    simp only
    rw [write_members_indented fixed ms h.2 (d + 1) _ w hw]
    simp only
    rw [pop_indent_chain, write_newline, write_plain d true _ w _ (by decide) (by decide),
      ref_value, ref_members]
    simp [List.append_assoc]
  | .TAG_ARRAY .nil, _, d, ls, out, w, _ => by
    rw [write_value, write_plain d ls out w _ (by decide) (by decide), ref_value]
  | .TAG_ARRAY (.cons v es), h, d, ls, out, w, hw => by
    simp only [Value.integral, Elements.integral, Bool.and_eq_true] at h
    rw [write_value]
    simp only [hw, ne_eq, not_true_eq_false, if_false]
    rw [write_plain d ls out w _ (by decide) (by decide), write_newline, push_indent_chain,
      write_elements, write_nil,
      write_value_indented fixed v h.1 (d + 1) true _ w hw]
    simp only
    rw [write_elements_indented fixed es h.2 (d + 1) _ w hw]
    simp only
    rw [pop_indent_chain, write_newline, write_plain d true _ w _ (by decide) (by decide),
      ref_value, ref_elements]
    simp [List.append_assoc]
/-- In indented mode the members after the first are written each on a new line. -/
theorem write_members_indented (fixed : ℚ → List Int) :
    ∀ (ms : Members), ms.integral = true → ∀ (d : Nat) (out : List Int) (w : Nat),
      w &&& IOS_NOINDENT = 0 →
      write_members fixed ⟨chain d false, out, w⟩ [0x2c, 0x0a] [0x2c, 0x0a] ms =
        some ⟨chain d false, out ++ ref_members d [0x2c, 0x0a] ms, w⟩
  | .nil, _, d, out, w, _ => by
    rw [write_members, ref_members, List.append_nil]
  | .cons k v ms, h, d, out, w, hw => by
    simp only [Members.integral, Bool.and_eq_true] at h
    rw [write_members, write_comma_newline,
      write_plain d true _ w _ (quote_ne_nil k) (quote_no_newline k),
      write_plain d false _ w _ (by decide) (by decide),
      write_value_indented fixed v h.1 d false _ w hw]
    simp only
    rw [write_members_indented fixed ms h.2 d _ w hw, ref_members]
    simp [List.append_assoc]
/-- In indented mode the elements after the first are written each on a new line. -/
theorem write_elements_indented (fixed : ℚ → List Int) :
    ∀ (es : Elements), es.integral = true → ∀ (d : Nat) (out : List Int) (w : Nat),
      w &&& IOS_NOINDENT = 0 →
      write_elements fixed ⟨chain d false, out, w⟩ [0x2c, 0x0a] [0x2c, 0x0a] es =
        some ⟨chain d false, out ++ ref_elements d [0x2c, 0x0a] es, w⟩
  | .nil, _, d, out, w, _ => by
    rw [write_elements, ref_elements, List.append_nil]
  | .cons v es, h, d, out, w, hw => by
    simp only [Elements.integral, Bool.and_eq_true] at h
    rw [write_elements, write_comma_newline,
      write_value_indented fixed v h.1 d true _ w hw]
    simp only
    rw [write_elements_indented fixed es h.2 d _ w hw, ref_elements]
    simp [List.append_assoc]
end

theorem intercalate_cons_map {α : Type} (sep x : List α) (xs : List (List α)) :
    List.intercalate sep (x :: xs) = x ++ (xs.map (fun l => sep ++ l)).flatten := by
  induction xs generalizing x with
  | nil => simp [List.intercalate]
  | cons y ys ih =>
    have := ih y
    simp only [List.intercalate] at this ⊢
    simp only [List.intersperse, List.flatten_cons, List.map_cons, this, List.append_assoc]

theorem ref_elements_tail (d : Nat) : ∀ (es : Elements),
    ref_elements d [0x2c, 0x0a] es =
      ((es.toList.map (fun e => tabs d ++ ref_value d e)).map
        (fun l => [0x2c, 0x0a] ++ l)).flatten
  | .nil => by rw [ref_elements]; rfl
  | .cons v es => by
    rw [ref_elements, ref_elements_tail d es]
    simp [Elements.toList, List.append_assoc]

theorem ref_members_tail (d : Nat) : ∀ (ms : Members),
    ref_members d [0x2c, 0x0a] ms =
      ((ms.toList.map (fun m => tabs d ++ quote m.1 ++ [0x3a, 0x20] ++ ref_value d m.2)).map
        (fun l => [0x2c, 0x0a] ++ l)).flatten
  | .nil => by rw [ref_members]; rfl
  | .cons k v ms => by
    rw [ref_members, ref_members_tail d ms]
    simp [Members.toList, List.append_assoc]

/-- The lines of the elements in the reference printer: each element after `d` tabs, the
lines separated by `,` and a newline. -/
theorem ref_elements_lines (d : Nat) (v : Value) (es : Elements) :
    ref_elements d [] (.cons v es) =
      List.intercalate [0x2c, 0x0a]
        ((Elements.cons v es).toList.map (fun e => tabs d ++ ref_value d e)) := by
  rw [ref_elements, ref_elements_tail, Elements.toList, List.map_cons, intercalate_cons_map]
  simp

/-- The lines of the members in the reference printer: each member after `d` tabs, as its
quoted key, `: ` and its value, the lines separated by `,` and a newline. -/
theorem ref_members_lines (d : Nat) (k : List Int) (v : Value) (ms : Members) :
    ref_members d [] (.cons k v ms) =
      List.intercalate [0x2c, 0x0a]
        ((Members.cons k v ms).toList.map
          (fun m => tabs d ++ quote m.1 ++ [0x3a, 0x20] ++ ref_value d m.2)) := by
  rw [ref_members, ref_members_tail, Members.toList, List.map_cons, intercalate_cons_map]
  simp

/-- C13: in indented mode (the flag `IOS_NOINDENT` not set), for every value tree without
invalid values whose numbers are integers, the writer, through its nested indentation
filters, writes exactly what the reference printer prints at depth 0; written inside `d`
filters it writes what the reference printer prints at depth `d`, after `d` tabs when at a
line start. The reference printer prints an empty container as the bare pair `[]` or `{}`,
and a container with items at depth `d` as the opening delimiter, a newline, the items
each on its own line after exactly `d + 1` tabs, separated by `,` and a newline, then a
newline, `d` tabs and the closing delimiter. -/
theorem indented_refines_reference (fixed : ℚ → List Int) (v : Value)
    (hv : v.integral = true) (out : List Int) (w : Nat) (hw : w &&& IOS_NOINDENT = 0) :
    write_value fixed ⟨[], out, w⟩ v = some ⟨[], out ++ ref_value 0 v, w⟩ ∧
    (∀ (d : Nat) (ls : Bool),
      write_value fixed ⟨chain d ls, out, w⟩ v =
        some ⟨chain d false, out ++ ((if ls then tabs d else []) ++ ref_value d v), w⟩) ∧
    (∀ d : Nat, ref_value d (.TAG_ARRAY .nil) = [0x5b, 0x5d] ∧
      ref_value d (.TAG_OBJECT .nil) = [0x7b, 0x7d]) ∧
    (∀ (d : Nat) (e : Value) (es : Elements),
      ref_value d (.TAG_ARRAY (.cons e es)) =
        [0x5b, 0x0a] ++ List.intercalate [0x2c, 0x0a]
          ((Elements.cons e es).toList.map (fun x => tabs (d + 1) ++ ref_value (d + 1) x)) ++
          [0x0a] ++ tabs d ++ [0x5d]) ∧
    (∀ (d : Nat) (k : List Int) (e : Value) (ms : Members),
      ref_value d (.TAG_OBJECT (.cons k e ms)) =
        [0x7b, 0x0a] ++ List.intercalate [0x2c, 0x0a]
          ((Members.cons k e ms).toList.map
            (fun m => tabs (d + 1) ++ quote m.1 ++ [0x3a, 0x20] ++ ref_value (d + 1) m.2)) ++
          [0x0a] ++ tabs d ++ [0x7d]) := by
  refine ⟨?_, fun d ls => write_value_indented fixed v hv d ls out w hw,
    fun d => ⟨by rw [ref_value], by rw [ref_value]⟩, fun d e es => ?_, fun d k e ms => ?_⟩
  · have h := write_value_indented fixed v hv 0 false out w hw
    simpa [chain] using h
  · rw [ref_value, ref_elements_lines]
  · rw [ref_value, ref_members_lines]

/-- C13 at a concrete tree: the array of an object with two members and of an array that
holds an empty array and the integer -120. -/
theorem indented_refines_reference_witness :
    write_value (fun _ => []) ⟨[], [], 0⟩
        (.TAG_ARRAY (.cons
          (.TAG_OBJECT (.cons [0x61] (.TAG_NUMBER (.TYPE_INT 1))
            (.cons [0x62] (.TAG_STRING [0x78]) .nil)))
          (.cons (.TAG_ARRAY (.cons (.TAG_ARRAY .nil)
            (.cons (.TAG_NUMBER (.TYPE_INT (-120))) .nil))) .nil))) =
      some ⟨[], [0x5b, 0x0a,
        0x09, 0x7b, 0x0a,
        0x09, 0x09, 0x22, 0x61, 0x22, 0x3a, 0x20, 0x31, 0x2c, 0x0a,
        0x09, 0x09, 0x22, 0x62, 0x22, 0x3a, 0x20, 0x22, 0x78, 0x22, 0x0a,
        0x09, 0x7d, 0x2c, 0x0a,
        0x09, 0x5b, 0x0a,
        0x09, 0x09, 0x5b, 0x5d, 0x2c, 0x0a,
        0x09, 0x09, 0x2d, 0x31, 0x32, 0x30, 0x0a,
        0x09, 0x5d, 0x0a,
        0x5d], 0⟩ := by
  refine (indented_refines_reference (fun _ => []) _ ?_ [] 0 ?_).1.trans ?_
  · rfl
  · rfl
  · rfl

/-! ### C14 -/

theorem write_bare (out : List Int) (w : Nat) (t : List Int) :
    Ostream.write ⟨[], out, w⟩ t = ⟨[], out ++ t, w⟩ := rfl

mutual
/-- In compact mode an integral value is written as the compact reference printer prints
it. -/
theorem write_value_compact (fixed : ℚ → List Int) :
    ∀ (v : Value), v.integral = true → ∀ (out : List Int) (w : Nat),
      w &&& IOS_NOINDENT ≠ 0 →
      write_value fixed ⟨[], out, w⟩ v = some ⟨[], out ++ compact_value v, w⟩
  | .TAG_INVALID, h, _, _, _ => by simp [Value.integral] at h
  | .TAG_TRUE, _, out, w, _ => by rw [write_value, write_bare, compact_value]
  | .TAG_FALSE, _, out, w, _ => by rw [write_value, write_bare, compact_value]
  | .TAG_NULL, _, out, w, _ => by rw [write_value, write_bare, compact_value]
  | .TAG_NUMBER n, h, out, w, _ => by
    cases n with
    | TYPE_INVALID => simp [Value.integral, Number.integral] at h
    | TYPE_FP v => simp [Value.integral, Number.integral] at h
    | TYPE_INT v => rw [write_value, write_number, write_bare, compact_value, ref_number]
    | TYPE_UINT v => rw [write_value, write_number, write_bare, compact_value, ref_number]
  | .TAG_STRING s, _, out, w, _ => by rw [write_value, write_bare, compact_value]
  | .TAG_OBJECT .nil, _, out, w, _ => by rw [write_value, write_bare, compact_value]
  | .TAG_OBJECT (.cons k v ms), h, out, w, hw => by
    simp only [Value.integral, Members.integral, Bool.and_eq_true] at h
    rw [write_value]
    simp only [hw, ne_eq, not_false_eq_true, if_true]
    rw [write_bare, write_members, write_bare, write_bare, write_bare,
      write_value_compact fixed v h.1 _ w hw]
    simp only
    rw [write_members_compact fixed ms h.2 _ w hw]
    simp only
    rw [write_bare, compact_value, compact_members]
    simp [List.append_assoc]
  | .TAG_ARRAY .nil, _, out, w, _ => by rw [write_value, write_bare, compact_value]
  | .TAG_ARRAY (.cons v es), h, out, w, hw => by
    simp only [Value.integral, Elements.integral, Bool.and_eq_true] at h
    rw [write_value]
    simp only [hw, ne_eq, not_false_eq_true, if_true]
    rw [write_bare, write_elements, write_bare,
      write_value_compact fixed v h.1 _ w hw]
    simp only
    rw [write_elements_compact fixed es h.2 _ w hw]
    simp only
    rw [write_bare, compact_value, compact_elements]
    simp [List.append_assoc]
/-- In compact mode the members after the first are written each after `, `. -/
theorem write_members_compact (fixed : ℚ → List Int) :
    ∀ (ms : Members), ms.integral = true → ∀ (out : List Int) (w : Nat),
      w &&& IOS_NOINDENT ≠ 0 →
      write_members fixed ⟨[], out, w⟩ [0x2c, 0x20] [0x2c, 0x20] ms =
        some ⟨[], out ++ compact_members [0x2c, 0x20] ms, w⟩
  | .nil, _, out, w, _ => by
    rw [write_members, compact_members, List.append_nil]
  | .cons k v ms, h, out, w, hw => by
    simp only [Members.integral, Bool.and_eq_true] at h
    rw [write_members, write_bare, write_bare, write_bare,
      write_value_compact fixed v h.1 _ w hw]
    simp only
    rw [write_members_compact fixed ms h.2 _ w hw, compact_members]
    simp [List.append_assoc]
/-- In compact mode the elements after the first are written each after `, `. -/
theorem write_elements_compact (fixed : ℚ → List Int) :
    ∀ (es : Elements), es.integral = true → ∀ (out : List Int) (w : Nat),
      w &&& IOS_NOINDENT ≠ 0 →
      write_elements fixed ⟨[], out, w⟩ [0x2c, 0x20] [0x2c, 0x20] es =
        some ⟨[], out ++ compact_elements [0x2c, 0x20] es, w⟩
  | .nil, _, out, w, _ => by
    rw [write_elements, compact_elements, List.append_nil]
  | .cons v es, h, out, w, hw => by
    simp only [Elements.integral, Bool.and_eq_true] at h
    rw [write_elements, write_bare,
      write_value_compact fixed v h.1 _ w hw]
    simp only
    rw [write_elements_compact fixed es h.2 _ w hw, compact_elements]
    simp [List.append_assoc]
end

theorem ref_number_no_newline (n : Number) : (0x0a : Int) ∉ ref_number n := by
  cases n with
  | TYPE_INVALID => simp [ref_number]
  | TYPE_FP v => simp [ref_number]
  | TYPE_INT v => exact (fmt_int_plain v).2
  | TYPE_UINT v => exact (fmt_uint_plain v).2

mutual
/-- The compact reference printer prints no newline. -/
theorem compact_value_no_newline : ∀ (v : Value), (0x0a : Int) ∉ compact_value v
  | .TAG_INVALID => by rw [compact_value]; decide
  | .TAG_TRUE => by rw [compact_value]; decide
  | .TAG_FALSE => by rw [compact_value]; decide
  | .TAG_NULL => by rw [compact_value]; decide
  | .TAG_NUMBER n => by rw [compact_value]; exact ref_number_no_newline n
  | .TAG_STRING s => by rw [compact_value]; exact quote_no_newline s
  | .TAG_OBJECT .nil => by rw [compact_value]; decide
  | .TAG_OBJECT (.cons k v ms) => by
    rw [compact_value]
    have h := compact_members_no_newline (.cons k v ms) [] (by decide)
    simp only [List.mem_append, List.mem_singleton, not_or]
    exact ⟨⟨by decide, h⟩, by decide⟩
  | .TAG_ARRAY .nil => by rw [compact_value]; decide
  | .TAG_ARRAY (.cons v es) => by
    rw [compact_value]
    have h := compact_elements_no_newline (.cons v es) [] (by decide)
    simp only [List.mem_append, List.mem_singleton, not_or]
    exact ⟨⟨by decide, h⟩, by decide⟩
/-- The members in the compact layout hold no newline when the first separator holds
none. -/
theorem compact_members_no_newline : ∀ (ms : Members) (sep : List Int),
    (0x0a : Int) ∉ sep → (0x0a : Int) ∉ compact_members sep ms
  | .nil, _, _ => by rw [compact_members]; decide
  | .cons k v ms, sep, hs => by
    rw [compact_members]
    have h1 := compact_value_no_newline v
    have h2 := compact_members_no_newline ms [0x2c, 0x20] (by decide)
    have h3 := quote_no_newline k
    simp only [List.mem_append, not_or]
    exact ⟨⟨⟨⟨hs, h3⟩, by decide⟩, h1⟩, h2⟩
/-- The elements in the compact layout hold no newline when the first separator holds
none. -/
theorem compact_elements_no_newline : ∀ (es : Elements) (sep : List Int),
    (0x0a : Int) ∉ sep → (0x0a : Int) ∉ compact_elements sep es
  | .nil, _, _ => by rw [compact_elements]; decide
  | .cons v es, sep, hs => by
    rw [compact_elements]
    have h1 := compact_value_no_newline v
    have h2 := compact_elements_no_newline es [0x2c, 0x20] (by decide)
    simp only [List.mem_append, not_or]
    exact ⟨⟨hs, h1⟩, h2⟩
end

theorem compact_elements_tail : ∀ (es : Elements),
    compact_elements [0x2c, 0x20] es =
      ((es.toList.map compact_value).map (fun l => [0x2c, 0x20] ++ l)).flatten
  | .nil => by rw [compact_elements]; rfl
  | .cons v es => by
    rw [compact_elements, compact_elements_tail es]
    simp [Elements.toList, List.append_assoc]

theorem compact_members_tail : ∀ (ms : Members),
    compact_members [0x2c, 0x20] ms =
      ((ms.toList.map (fun m => quote m.1 ++ [0x3a, 0x20] ++ compact_value m.2)).map
        (fun l => [0x2c, 0x20] ++ l)).flatten
  | .nil => by rw [compact_members]; rfl
  | .cons k v ms => by
    rw [compact_members, compact_members_tail ms]
    simp [Members.toList, List.append_assoc]

/-- The elements in the compact reference printer: the elements separated by `, `. -/
theorem compact_elements_joined (v : Value) (es : Elements) :
    compact_elements [] (.cons v es) =
      List.intercalate [0x2c, 0x20] ((Elements.cons v es).toList.map compact_value) := by
  rw [compact_elements, compact_elements_tail, Elements.toList, List.map_cons,
    intercalate_cons_map]
  simp

/-- The members in the compact reference printer: each member as its quoted key, `: ` and
its value, the members separated by `, `. -/
theorem compact_members_joined (k : List Int) (v : Value) (ms : Members) :
    compact_members [] (.cons k v ms) =
      List.intercalate [0x2c, 0x20]
        ((Members.cons k v ms).toList.map
          (fun m => quote m.1 ++ [0x3a, 0x20] ++ compact_value m.2)) := by
  rw [compact_members, compact_members_tail, Members.toList, List.map_cons,
    intercalate_cons_map]
  simp

theorem noindent_flag (w : Nat) : (w ||| IOS_NOINDENT) &&& IOS_NOINDENT ≠ 0 := by
  have h : IOS_NOINDENT = 1 := rfl
  rw [h]
  intro h0
  have h1 : ((w ||| 1) &&& 1).testBit 0 = true := by
    rw [Nat.testBit_and, Nat.testBit_or]
    simp
  rw [h0] at h1
  simp at h1

/-- C14: in compact mode (the flag `IOS_NOINDENT` set, as `Json::noindent` sets it), for
every value tree without invalid values whose numbers are integers, at any nesting depth
and with arbitrary strings, the writer writes the text of the compact printer, and this
text holds no newline character. The compact printer prints a container with items as the
opening delimiter, the items separated by `, `, and the closing delimiter, a member being
its quoted key, `: ` and its value. -/
theorem compact_no_newline (fixed : ℚ → List Int) (v : Value) (hv : v.integral = true)
    (out : List Int) (w : Nat) :
    write_value fixed (Json.noindent ⟨[], out, w⟩) v =
      some ⟨[], out ++ compact_value v, w ||| IOS_NOINDENT⟩ ∧
    (0x0a : Int) ∉ compact_value v ∧
    (∀ (e : Value) (es : Elements),
      compact_value (.TAG_ARRAY (.cons e es)) =
        [0x5b] ++ List.intercalate [0x2c, 0x20]
          ((Elements.cons e es).toList.map compact_value) ++ [0x5d]) ∧
    (∀ (k : List Int) (e : Value) (ms : Members),
      compact_value (.TAG_OBJECT (.cons k e ms)) =
        [0x7b] ++ List.intercalate [0x2c, 0x20]
          ((Members.cons k e ms).toList.map
            (fun m => quote m.1 ++ [0x3a, 0x20] ++ compact_value m.2)) ++ [0x7d]) := by
  refine ⟨write_value_compact fixed v hv out _ (noindent_flag w), compact_value_no_newline v,
    fun e es => ?_, fun k e ms => ?_⟩
  · rw [compact_value, compact_elements_joined]
  · rw [compact_value, compact_members_joined]

/-- C14 at a concrete tree: the array of an object with two members, one of them a string
that holds a newline byte, and of an array that holds an empty object and the integer
-120. -/
theorem compact_no_newline_witness :
    write_value (fun _ => []) (Json.noindent ⟨[], [], 0⟩)
        (.TAG_ARRAY (.cons
          (.TAG_OBJECT (.cons [0x61] (.TAG_NUMBER (.TYPE_INT 1))
            (.cons [0x62] (.TAG_STRING [0x78, 0x0a]) .nil)))
          (.cons (.TAG_ARRAY (.cons (.TAG_OBJECT .nil)
            (.cons (.TAG_NUMBER (.TYPE_INT (-120))) .nil))) .nil))) =
      some ⟨[], [0x5b,
        0x7b, 0x22, 0x61, 0x22, 0x3a, 0x20, 0x31, 0x2c, 0x20,
        0x22, 0x62, 0x22, 0x3a, 0x20, 0x22, 0x78, 0x5c, 0x6e, 0x22, 0x7d, 0x2c, 0x20,
        0x5b, 0x7b, 0x7d, 0x2c, 0x20, 0x2d, 0x31, 0x32, 0x30, 0x5d,
        0x5d], 1⟩ := by
  refine (compact_no_newline (fun _ => []) _ ?_ [] 0).1.trans ?_
  · rfl
  · rfl

/-! ### C3, amended -/

/-- C3, amended: three calls of `scan()` on `01` all return without error; they produce a
number token INT 0 (only `0` consumed), a number token INT 1, and the end-of-input token.
A leading zero followed by another digit is not rejected: on every good stream that holds
`0`, a digit and anything more, `scan()` returns the number token INT 0 and leaves the
digit, with what follows it, in the stream. -/
theorem scan_01_two_numbers (strtold : List Int → Conv ℚ) :
    scan_many strtold 3 (init (Utf8Stream.ofList [0x30, 0x31])) =
      some ([(.ok (), { type := .ofInt 0x30, str_value := [], number_type := .INT,
                        int_value := 0, float_value := 0 }),
             (.ok (), { type := .ofInt 0x30, str_value := [], number_type := .INT,
                        int_value := 1, float_value := 0 }),
             (.ok (), { type := .ofInt State.SEOF.toInt, str_value := [], number_type := .NONE,
                        int_value := 0, float_value := 0 })],
            { stream_ := { input := [], state := .SEOF, corrupt := false,
                           back := some ([], .SGOOD) },
              token := { type := .ofInt State.SEOF.toInt, str_value := [],
                         number_type := .NONE, int_value := 0, float_value := 0 } }) ∧
    (∀ (d : Int) (rest : List Int) (cr : Bool) (b : Option (List Int × State)) (tok : Token),
      IsDigit d →
      scan strtold { stream_ := ⟨0x30 :: d :: rest, .SGOOD, cr, b⟩, token := tok } =
        some (.ok (),
          { stream_ := ⟨d :: rest, .SGOOD, cr, none⟩,
            token := { type := .ofInt 0x30, str_value := [], number_type := .INT,
                       int_value := 0, float_value := 0 } })) := by
  refine ⟨rfl, fun d rest cr b tok hd => ?_⟩
  have hdone : number_state (Utf8Stream.getc ⟨d :: rest, .SGOOD, cr, none⟩).1 .SINT_ZERO =
      .SDONE := by
    show number_state d .SINT_ZERO = .SDONE
    obtain ⟨h1, h2⟩ := hd
    interval_cases d <;> rfl
  have hv := validate_number_short [0x30] .SINT_ZERO .INT rfl (by decide) (d :: rest) cr none
    hdone
  rw [scan_digit strtold 0x30 (d :: rest) cr b tok (Or.inr ⟨by decide, by decide⟩)]
  unfold scan_number
  have e : ([0x30] : List Int) ++ d :: rest = 0x30 :: d :: rest := rfl
  rw [e] at hv
  simp only [hv]
  rfl

/-- C3, amended, at a concrete input: the first `scan()` on `01`. -/
theorem scan_01_two_numbers_witness :
    scan strtold0 { stream_ := ⟨0x30 :: 0x31 :: [], .SGOOD, false, none⟩, token := Token.reset } =
      some (.ok (),
        { stream_ := ⟨0x31 :: [], .SGOOD, false, none⟩,
          token := { type := .ofInt 0x30, str_value := [], number_type := .INT,
                     int_value := 0, float_value := 0 } }) :=
  (scan_01_two_numbers strtold0).2 0x31 [] false none Token.reset (by unfold IsDigit; decide)

end Jsoncc
